import Mathlib

/-!
Verification of the polypath mesh library against its specification.

The Rust source stores geometry in `f32`.  This development models `f32`
values as exact rationals (`ℚ`): every arithmetic operation of the source
(`+`, `-`, `*`, `/`, `mul_add`, `min`, `max`, comparisons) is translated to
the corresponding exact rational operation.  Square roots, which `ℚ` does
not have, are threaded through as an explicit function parameter `sq`;
no theorem below depends on what `sq` computes.  This model is exact on
the concrete inputs used in the witnesses and counterexamples (all of
whose float computations are representable without rounding); it does not
model IEEE rounding, infinities, NaN or negative zero.
-/

namespace Polypath

/-- `f32` values, modelled as exact rationals. -/
abbrev F := ℚ

/-- `Vec3` from `src/vec3.rs`. -/
structure Vec3 where
  x : F
  y : F
  z : F
deriving DecidableEq

namespace Vec3

/-- `Vec3::new`. -/
def new (x y z : F) : Vec3 := ⟨x, y, z⟩

/-- `Vec3::zero`. -/
def zero : Vec3 := new 0 0 0

/-- `Vec3::from((f32, f32, f32))`. -/
def ofTriple (t : F × F × F) : Vec3 := new t.1 t.2.1 t.2.2

/-- `AddAssign for Vec3` (componentwise addition). -/
def add (a b : Vec3) : Vec3 := ⟨a.x + b.x, a.y + b.y, a.z + b.z⟩

/-- `Sub for Vec3` (componentwise subtraction). -/
def sub (a b : Vec3) : Vec3 := ⟨a.x - b.x, a.y - b.y, a.z - b.z⟩

/-- `f32::mul_add(a, b, c) = a * b + c`; exact in the rational model. -/
def mulAdd (a b c : F) : F := a * b + c

/-- `Vec3::dot`: `z.mul_add(rhs.z, x.mul_add(rhs.x, y * rhs.y))`. -/
def dot (a b : Vec3) : F := mulAdd a.z b.z (mulAdd a.x b.x (a.y * b.y))

/-- `Vec3::cross`. -/
def cross (a b : Vec3) : Vec3 :=
  ⟨mulAdd a.y b.z (-(a.z * b.y)),
   mulAdd a.z b.x (-(a.x * b.z)),
   mulAdd a.x b.y (-(a.y * b.x))⟩

/-- `Vec3::lenght` (sic): square root of the dot product with itself;
the square root is supplied by the parameter `sq`. -/
def lenght (sq : F → F) (a : Vec3) : F :=
  sq (mulAdd a.z a.z (mulAdd a.x a.x (a.y * a.y)))

/-- `Vec3::distance`. -/
def distance (sq : F → F) (a b : Vec3) : F := lenght sq (sub a b)

/-- `Vec3::normalized`. -/
def normalized (sq : F → F) (a : Vec3) : Vec3 :=
  let len := lenght sq a
  ⟨a.x / len, a.y / len, a.z / len⟩

end Vec3

/-- `Sphere` from `src/bounding.rs`. -/
structure Sphere where
  center : F × F × F
  radius : F
deriving DecidableEq

/-- `f32::MAX = (2 - 2^-23) * 2^127 = 2^128 - 2^104`. -/
def f32MAX : F := 340282366920938463463374607431768211456 - 20282409603651670423947251286016

/-- `f32::MIN = -f32::MAX`. -/
def f32MIN : F := -f32MAX

/-- `f32::midpoint(a, b)`.  The Rust implementation computes `(a + b) / 2`
(with overflow protection that, for `a = f32::MIN`, `b = f32::MAX`, yields
the same exact value `0` as the rational formula). -/
def f32midpoint (a b : F) : F := (a + b) / 2

/-- `build_bounding_sphere` from `src/bounding.rs`, translated statement by
statement.  Note that the source initialises `min_*` with `f32::MIN` and
`max_*` with `f32::MAX`. -/
def build_bounding_sphere (sq : F → F) (vertices : List (F × F × F)) : Sphere :=
  let mins := vertices.foldl
    (fun (acc : F × F × F) t =>
      let p := Vec3.ofTriple t
      (min acc.1 p.x, min acc.2.1 p.y, min acc.2.2 p.z))
    (f32MIN, f32MIN, f32MIN)
  let maxs := vertices.foldl
    (fun (acc : F × F × F) t =>
      let p := Vec3.ofTriple t
      (max acc.1 p.x, max acc.2.1 p.y, max acc.2.2 p.z))
    (f32MAX, f32MAX, f32MAX)
  let center := Vec3.new (f32midpoint mins.1 maxs.1) (f32midpoint mins.2.1 maxs.2.1)
    (f32midpoint mins.2.2 maxs.2.2)
  let radius := vertices.foldl
    (fun (r : F) t => max r (Vec3.distance sq (Vec3.ofTriple t) center)) 0
  { center := (center.x, center.y, center.z), radius := radius }

/-- The axis-aligned bounding-box center the specification describes:
per-axis midpoint of the minimum and maximum observed coordinate. -/
def specAabbCenter (vertices : List (F × F × F)) (p0 : F × F × F) : F × F × F :=
  let mins := vertices.foldl
    (fun (acc : F × F × F) (p : F × F × F) =>
      (min acc.1 p.1, min acc.2.1 p.2.1, min acc.2.2 p.2.2)) p0
  let maxs := vertices.foldl
    (fun (acc : F × F × F) (p : F × F × F) =>
      (max acc.1 p.1, max acc.2.1 p.2.1, max acc.2.2 p.2.2)) p0
  (f32midpoint mins.1 maxs.1, f32midpoint mins.2.1 maxs.2.1, f32midpoint mins.2.2 maxs.2.2)

/-! ## Meshlet builder (`src/meshlet.rs`)

Counts are modelled as `ℕ` (the source stores them as `u8`; the model is
faithful for capacities up to 255, beyond which the source program panics
on the narrowing casts).  The fixed-capacity arrays `vertices : [u32; V]`
and `triangles : [[u8; 3]; T]` are modelled as the lists of entries
written so far; writing past the capacity — an index-out-of-bounds panic
in the source — is modelled as `none`, as are the panics of the
out-of-range vertex-buffer lookups and of `get_disjoint_mut` on a face
with repeated indices.  The generic `V: Vertex` parameter only exposes
`position()`, so the vertex buffer is modelled as the list of positions. -/
/-- The exact value of the `f32` literal `0.1` (`0x3DCCCCCD`). -/
def f32_0_1 : F := 13421773 / 134217728

/-- The exact value of the `f32` literal `0.9` (`0x3F666666`). -/
def f32_0_9 : F := 7549747 / 8388608

/-- `f32::clamp(x, lo, hi)`. -/
def f32clamp (x lo hi : F) : F := if x < lo then lo else if x > hi then hi else x

/-- `Meshlet` from `src/meshlet.rs`. -/
structure Meshlet where
  cone : F × F × F × F
  bounding : Sphere
  vertices : List ℕ
  triangles : List (ℕ × ℕ × ℕ)
  vertex_count : ℕ
  triangle_count : ℕ
deriving DecidableEq

/-- `Meshlet::default`. -/
def Meshlet.empty : Meshlet :=
  { cone := (0, 0, 0, 0), bounding := { center := (0, 0, 0), radius := 0 },
    vertices := [], triangles := [], vertex_count := 0, triangle_count := 0 }

/-- `triangle_normal` from `src/meshlet.rs`. -/
def triangle_normal (sq : F → F) (p0 p1 p2 : Vec3) : Vec3 :=
  let p10 := Vec3.sub p0 p1
  let p20 := Vec3.sub p2 p1
  let n := Vec3.cross p10 p20
  if n = Vec3.zero then n else n.normalized sq

/-- The running average used by `check_cone`, `check_cone_next` and
`calc_cone`: the sum of the normals, normalised when non-zero. -/
def avgOf (sq : F → F) (normals : List Vec3) : Vec3 :=
  let avg := normals.foldl Vec3.add Vec3.zero
  if avg ≠ Vec3.zero then avg.normalized sq else avg

/-- The `mdot` loop shared by `check_cone` and `check_cone_next`: folds
`mdot := min mdot (avg ⬝ n)` and returns `false` as soon as `mdot < th`. -/
def coneLoop (avg : Vec3) (th : F) : List Vec3 → F → Bool
  | [], _ => true
  | n :: rest, mdot =>
    let mdot' := min mdot (Vec3.dot avg n)
    if mdot' < th then false else coneLoop avg th rest mdot'

/-- `check_cone` from `src/meshlet.rs`. -/
def check_cone (sq : F → F) (normals : List Vec3) (th : F) : Bool :=
  coneLoop (avgOf sq normals) th normals 1

/-- `check_cone_next` from `src/meshlet.rs`: both of its loops run over
`normals.iter().chain(once(next))`. -/
def check_cone_next (sq : F → F) (normals : List Vec3) (next : Vec3) (th : F) : Bool :=
  coneLoop (avgOf sq (normals ++ [next])) th (normals ++ [next]) 1

/-- `calc_cone` from `src/meshlet.rs`. -/
def calc_cone (sq : F → F) (normals : List Vec3) : F × F × F × F :=
  let avg := avgOf sq normals
  let mdot := normals.foldl (fun m n => min m (Vec3.dot avg n)) 1
  let conew := if mdot ≤ 0 then 1 else sq (Vec3.mulAdd mdot (-mdot) 1)
  (avg.x, avg.y, avg.z, conew)

/-- Finalisation performed at a flush: store the cone and the bounding
sphere of the accumulated corner positions. -/
def finalizeMeshlet (sq : F → F) (m : Meshlet) (normals : List Vec3)
    (cvs : List (F × F × F)) : Meshlet :=
  { m with cone := calc_cone sq normals, bounding := build_bounding_sphere sq cvs }

/-- The loop state of `build_meshlets`.  `meshlets` additionally records,
next to each flushed meshlet, the list of face normals it was flushed
with (`current_normals` at flush time) — ghost data used only to state
theorems; `build_meshlets` projects it away. -/
structure BuildState where
  meshlets : List (Meshlet × List Vec3)
  meshlet : Meshlet
  contained : List ℤ
  current_vertices : List (F × F × F)
  current_normals : List Vec3

/-- One vertex-insertion block of the loop body (`if *va == -1 { ... }`):
if source vertex `i` has no local slot yet, assign it the next one.
Writing `meshlet.vertices[vertex_count]` with `vertex_count ≥ V` is an
out-of-bounds panic in the source, modelled as `none`. -/
def insertCorner (V : ℕ) (i : ℕ) (s : List ℤ × Meshlet) : Option (List ℤ × Meshlet) :=
  let contained := s.1
  let m := s.2
  if contained.getD i (-1) = -1 then
    if m.vertex_count < V then
      some (contained.set i (m.vertex_count : ℤ),
        { m with vertices := m.vertices ++ [i], vertex_count := m.vertex_count + 1 })
    else none
  else some s

/-- The flush block of the loop body: finalise the in-progress meshlet,
append it (with its ghost normal list), reset the accumulators and
`contained.fill(-1)`. -/
def flushStep (sq : F → F) (st : BuildState) : BuildState :=
  { meshlets := st.meshlets
      ++ [(finalizeMeshlet sq st.meshlet st.current_normals st.current_vertices,
           st.current_normals)],
    meshlet := Meshlet.empty,
    contained := List.replicate st.contained.length (-1),
    current_vertices := [], current_normals := [] }

/-- The flush decision of the loop body: flush if appending the face would
exceed the triangle capacity `T` (`indices_full`), the vertex capacity `V`
(`verts_full`), or make the normal cone too wide (`too_wide`). -/
def maybeFlush (sq : F → F) (th : F) (V T : ℕ) (st : BuildState) (normal : Vec3)
    (additional : ℕ) : BuildState :=
  if st.meshlet.triangle_count = T ∨ st.meshlet.vertex_count + additional > V
      ∨ ¬ check_cone_next sq st.current_normals normal th
  then flushStep sq st
  else st

/-- The body of the `for [i0, i1, i2] in faces` loop of `build_meshlets`,
for one face. -/
def buildStep (sq : F → F) (th : F) (V T : ℕ) (verts : List (F × F × F))
    (st : BuildState) (f : ℕ × ℕ × ℕ) : Option BuildState :=
  let (i0, i1, i2) := f
  -- `vertices[i0 as usize]` etc.: out-of-range lookups panic in the source
  match verts[i0]?, verts[i1]?, verts[i2]? with
  | some p0, some p1, some p2 =>
    let normal := triangle_normal sq (Vec3.ofTriple p0) (Vec3.ofTriple p1) (Vec3.ofTriple p2)
    let va := st.contained.getD i0 (-1)
    let vb := st.contained.getD i1 (-1)
    let vc := st.contained.getD i2 (-1)
    let additional := (if va = -1 then 1 else 0) + (if vb = -1 then 1 else 0)
      + (if vc = -1 then 1 else 0)
    let st1 := maybeFlush sq th V T st normal additional
    -- `get_disjoint_mut` panics when the three indices are not pairwise disjoint
    if i0 = i1 ∨ i0 = i2 ∨ i1 = i2 then none
    else
      match insertCorner V i0 (st1.contained, st1.meshlet) with
      | none => none
      | some s2 =>
        match insertCorner V i1 s2 with
        | none => none
        | some s3 =>
          match insertCorner V i2 s3 with
          | none => none
          | some s4 =>
            let la := (s4.1.getD i0 (-1)).toNat
            let lb := (s4.1.getD i1 (-1)).toNat
            let lc := (s4.1.getD i2 (-1)).toNat
            -- `meshlet.triangles[triangle_count]`: out of bounds for `triangle_count ≥ T`
            if s4.2.triangle_count < T then
              some { meshlets := st1.meshlets
                     meshlet := { s4.2 with
                                  triangles := s4.2.triangles ++ [(la, lb, lc)]
                                  triangle_count := s4.2.triangle_count + 1 }
                     contained := s4.1
                     current_vertices := st1.current_vertices ++ [p0, p1, p2]
                     current_normals := st1.current_normals ++ [normal] }
            else none
  | _, _, _ => none

/-- `chunks_exact(3)` / `chunks(3)` grouped into triples, dropping a
remainder (for `chunks(3)` a short final chunk panics the `try_from` in
the source before being used, so no result is produced from it either;
the callers below guard the length). -/
def chunks3 {α : Type} : List α → List (α × α × α)
  | a :: b :: c :: rest => (a, b, c) :: chunks3 rest
  | _ => []

/-- `build_meshlets` from `src/meshlet.rs`, with the ghost normal lists
kept next to each produced meshlet. -/
def build_meshlets_core (sq : F → F) (V T : ℕ) (indices : List ℕ)
    (verts : List (F × F × F)) (cone_threshold : F) :
    Option (List (Meshlet × List Vec3)) :=
  let th := f32clamp cone_threshold f32_0_1 f32_0_9
  let init : BuildState :=
    { meshlets := [], meshlet := Meshlet.empty,
      contained := List.replicate verts.length (-1),
      current_vertices := [], current_normals := [] }
  ((chunks3 indices).foldlM (buildStep sq th V T verts) init).map fun st =>
    if st.meshlet.triangle_count ≠ 0 then
      st.meshlets
        ++ [(finalizeMeshlet sq st.meshlet st.current_normals st.current_vertices,
             st.current_normals)]
    else st.meshlets

/-- `build_meshlets` as the source returns it: the meshlet list alone. -/
def build_meshlets (sq : F → F) (V T : ℕ) (indices : List ℕ)
    (verts : List (F × F × F)) (cone_threshold : F) : Option (List Meshlet) :=
  (build_meshlets_core sq V T indices verts cone_threshold).map (List.map Prod.fst)

/-- The cone acceptance property: every normal of the list has dot product
at least `th` with the list's average direction. -/
def ConeOk (sq : F → F) (th : F) (ns : List Vec3) : Prop :=
  ∀ n ∈ ns, th ≤ Vec3.dot (avgOf sq ns) n

/-- The properties a flushed meshlet (with its ghost normal list) enjoys. -/
structure MeshletOk (sq : F → F) (th : F) (V T : ℕ) (p : Meshlet × List Vec3) : Prop where
  tcLe : p.1.triangle_count ≤ T
  vcLe : p.1.vertex_count ≤ V
  tcEq : p.1.triangle_count = p.1.triangles.length
  vcEq : p.1.vertex_count = p.1.vertices.length
  triBound : ∀ t ∈ p.1.triangles,
    t.1 < p.1.vertex_count ∧ t.2.1 < p.1.vertex_count ∧ t.2.2 < p.1.vertex_count
  nsLen : p.2.length = p.1.triangle_count
  emptyZero : p.1.triangle_count = 0 → p.1.vertex_count = 0 ∧ p.1.triangles = []
  coneDisj : p.1.triangle_count = 1 ∨ ConeOk sq th p.2
  coneEq : p.1.cone = calc_cone sq p.2

/-- Loop invariant of `build_meshlets` (`n` is the vertex-buffer length). -/
structure StInv (sq : F → F) (th : F) (V T n : ℕ) (st : BuildState) : Prop where
  clen : st.contained.length = n
  tcEq : st.meshlet.triangle_count = st.meshlet.triangles.length
  vcEq : st.meshlet.vertex_count = st.meshlet.vertices.length
  nsLen : st.current_normals.length = st.meshlet.triangle_count
  tcLe : st.meshlet.triangle_count ≤ T
  vcLe : st.meshlet.vertex_count ≤ V
  triBound : ∀ t ∈ st.meshlet.triangles,
    t.1 < st.meshlet.vertex_count ∧ t.2.1 < st.meshlet.vertex_count ∧
      t.2.2 < st.meshlet.vertex_count
  containedBound : ∀ v ∈ st.contained, v = -1 ∨ (0 ≤ v ∧ v < st.meshlet.vertex_count)
  emptyZero : st.meshlet.triangle_count = 0 →
    st.meshlet.vertex_count = 0 ∧ st.meshlet.triangles = []
  coneDisj : st.meshlet.triangle_count ≤ 1 ∨ ConeOk sq th st.current_normals
  outOk : ∀ p ∈ st.meshlets, MeshletOk sq th V T p

/-- What one vertex-insertion block guarantees. -/
structure InsertFacts (V : ℕ) (i : ℕ) (s s' : List ℤ × Meshlet) : Prop where
  tc : s'.2.triangle_count = s.2.triangle_count
  tris : s'.2.triangles = s.2.triangles
  cone : s'.2.cone = s.2.cone
  bounding : s'.2.bounding = s.2.bounding
  vcMono : s.2.vertex_count ≤ s'.2.vertex_count
  vcLe : s.2.vertex_count ≤ V → s'.2.vertex_count ≤ V
  vcEq : s.2.vertex_count = s.2.vertices.length → s'.2.vertex_count = s'.2.vertices.length
  clen : s'.1.length = s.1.length
  cbound : (∀ v ∈ s.1, v = -1 ∨ (0 ≤ v ∧ v < s.2.vertex_count)) →
    ∀ v ∈ s'.1, v = -1 ∨ (0 ≤ v ∧ v < s'.2.vertex_count)
  hit : (∀ v ∈ s.1, v = -1 ∨ (0 ≤ v ∧ v < s.2.vertex_count)) → i < s.1.length →
    0 ≤ s'.1.getD i (-1) ∧ s'.1.getD i (-1) < (s'.2.vertex_count : ℤ)
  miss : ∀ j, j ≠ i → s'.1.getD j (-1) = s.1.getD j (-1)

/-! ## Flattened vertex records (`src/obj.rs`)

Record equality in the source is the bit pattern of each `f32` field
(`VertexDataComp` stores `to_ne_bytes` of every float; the conversions
between `VertexTextureData` and `VertexDataComp` are mutually inverse).
In the exact-rational model this is the structural decidable equality of
the record. -/
/-- `VertexData` from `src/obj.rs` (a flattened face corner). -/
structure VertexData where
  position : F × F × F
  color : Option (F × F × F)
  normal : Option (F × F × F)
  texture_coord : Option (F × F)
deriving DecidableEq

/-- `VertexTextureData` from `src/obj.rs`. -/
structure VertexTextureData where
  material_index : ℕ
  vertex : VertexData
deriving DecidableEq

/-! ## Vertex-order optimizer (`src/opt.rs`)

`optimize_vertex_order` keeps an adjacency `HashMap` from each vertex
record to the `HashSet` of triangles using it.  The model replaces the
hash map by an insertion-ordered association list and each hash set by an
insertion-ordered duplicate-free list; the iteration order of
`faces.drain()` (hash-dependent in the source) becomes the insertion
order.  All properties proved below are independent of that order.
`Vec::pop` takes the *last* element, so the remaining-input vector is
modelled reversed (head = next vertex to pull) and the stack is modelled
with its head as the most recently pushed record. -/
/-- A triangle of the flat stream: three consecutive records. -/
abbrev Tri := VertexTextureData × VertexTextureData × VertexTextureData

/-- The corner list of a triangle, in stream order. -/
def corners (f : Tri) : List VertexTextureData := [f.1, f.2.1, f.2.2]

/-- The adjacency map: vertex record → set of triangles using it. -/
abbrev AdjMap := List (VertexTextureData × List Tri)

/-- `adjacency.entry(vertex)` + `insert(face)`: add `t` to the set of `k`,
creating the entry if absent; a `HashSet` insert of a present element is
a no-op. -/
def adjInsert (m : AdjMap) (k : VertexTextureData) (t : Tri) : AdjMap :=
  match m with
  | [] => [(k, [t])]
  | (k', s) :: rest =>
    if k' = k then (k', if t ∈ s then s else s ++ [t]) :: rest
    else (k', s) :: adjInsert rest k t

/-- `adjacency.get(..)` as used by the loop (association-list lookup). -/
def adjGet (m : AdjMap) (k : VertexTextureData) : Option (List Tri) :=
  match m with
  | [] => none
  | (k', s) :: rest => if k' = k then some s else adjGet rest k

/-- `adjacency.remove(&current)`. -/
def adjRemove (m : AdjMap) (k : VertexTextureData) : AdjMap :=
  match m with
  | [] => []
  | (k', s) :: rest => if k' = k then rest else (k', s) :: adjRemove rest k

/-- The adjacency-building pass: for each face, insert it into the set of
each of its three corners. -/
def buildAdjacency (faces : List Tri) : AdjMap :=
  faces.foldl (fun m f => adjInsert (adjInsert (adjInsert m f.1 f) f.2.1 f) f.2.2 f) []

/-- The `for [v0, v1, v2] in faces.drain()` loop: emit every face of the
drained set that is not yet in `current_faces`, appending its three
records to the output and pushing them on the stack. -/
def drainEmit : List Tri → List Tri × List VertexTextureData × List VertexTextureData →
    List Tri × List VertexTextureData × List VertexTextureData
  | [], s => s
  | f :: rest, (cf, out, stack) =>
    if f ∈ cf then drainEmit rest (cf, out, stack)
    else drainEmit rest (f :: cf, out ++ [f.1, f.2.1, f.2.2], f.2.2 :: f.2.1 :: f.1 :: stack)

/-- Termination measure contribution of the adjacency map. -/
def adjSize (m : AdjMap) : ℕ := (m.map (fun e => 1 + e.2.length)).sum

def adjRemove_of_get_none {m : AdjMap} {k : VertexTextureData}
    (h : adjGet m k = none) : adjRemove m k = m := by
  induction m with
  | nil => rfl
  | cons e rest ih =>
    obtain ⟨k', s⟩ := e
    rw [adjGet] at h
    rw [adjRemove]
    by_cases hk : k' = k
    · rw [if_pos hk] at h; exact Option.noConfusion h
    · rw [if_neg hk] at h
      rw [if_neg hk, ih h]

def adjSize_remove {m : AdjMap} {k : VertexTextureData} {s : List Tri}
    (h : adjGet m k = some s) :
    adjSize m = adjSize (adjRemove m k) + 1 + s.length := by
  induction m with
  | nil => rw [adjGet] at h; exact Option.noConfusion h
  | cons e rest ih =>
    obtain ⟨k', s'⟩ := e
    rw [adjGet] at h
    rw [adjRemove]
    by_cases hk : k' = k
    · rw [if_pos hk] at h
      rw [Option.some_inj] at h
      subst h
      rw [if_pos hk]
      simp only [adjSize, List.map_cons, List.sum_cons]
      omega
    · rw [if_neg hk] at h
      rw [if_neg hk]
      have := ih h
      simp only [adjSize, List.map_cons, List.sum_cons] at this ⊢
      omega

def drainEmit_stack_le (l : List Tri) :
    ∀ cf out stack, (drainEmit l (cf, out, stack)).2.2.length ≤ stack.length + 3 * l.length := by
  induction l with
  | nil => intro cf out stack; rw [drainEmit]; simp
  | cons f rest ih =>
    intro cf out stack
    rw [drainEmit]
    by_cases hf : f ∈ cf
    · rw [if_pos hf]
      have := ih cf out stack
      simp only [List.length_cons]
      omega
    · rw [if_neg hf]
      have := ih (f :: cf) (out ++ [f.1, f.2.1, f.2.2]) (f.2.2 :: f.2.1 :: f.1 :: stack)
      simp only [List.length_cons] at this ⊢
      omega

/-- One iteration's drain phase: look up the current record's faces and
emit them (`if let Some(faces) = adjacency.get_mut(&current)`). -/
def processCurrent (adj : AdjMap) (cf : List Tri)
    (out stack : List VertexTextureData) (c : VertexTextureData) :
    List Tri × List VertexTextureData × List VertexTextureData :=
  match adjGet adj c with
  | some faces => drainEmit faces (cf, out, stack)
  | none => (cf, out, stack)

/-- Combined termination estimate for one iteration of the main loop. -/
def process_measure (adj : AdjMap) (cf : List Tri)
    (out stack : List VertexTextureData) (c : VertexTextureData) :
    4 * adjSize (adjRemove adj c) + (processCurrent adj cf out stack c).2.2.length
      ≤ 4 * adjSize adj + stack.length := by
  rw [processCurrent]
  cases hget : adjGet adj c with
  | none =>
    rw [adjRemove_of_get_none hget]
  | some faces =>
    have h1 := adjSize_remove hget
    have h2 := drainEmit_stack_le faces cf out stack
    show 4 * adjSize (adjRemove adj c) + (drainEmit faces (cf, out, stack)).2.2.length
      ≤ 4 * adjSize adj + stack.length
    omega

/-- The main `loop { ... }` of `optimize_vertex_order`: process the
current record, remove its adjacency entry, then continue from the stack
(most recent first) or from the remaining input (reverse order), until
both are exhausted. -/
def optLoop (adj : AdjMap) (cf : List Tri) (out stack rem : List VertexTextureData)
    (current : VertexTextureData) : List VertexTextureData :=
  let s := processCurrent adj cf out stack current
  let adj' := adjRemove adj current
  -- `stack.pop()` takes the most recent record (the model's head) first,
  -- then `vertices.pop()` the next remaining input record, else the loop ends
  if h : s.2.2 = [] then
    match rem with
    | v :: rem' => optLoop adj' s.1 s.2.1 [] rem' v
    | [] => s.2.1
  else
    optLoop adj' s.1 s.2.1 s.2.2.tail rem (s.2.2.head h)
termination_by 4 * adjSize adj + stack.length + rem.length
decreasing_by
  · have hm := process_measure adj cf out stack current
    simp only [List.length_nil, List.length_cons] at hm ⊢
    omega
  · have hm := process_measure adj cf out stack current
    have ht : (processCurrent adj cf out stack current).2.2.tail.length
        = (processCurrent adj cf out stack current).2.2.length - 1 := List.length_tail _
    have hp : 0 < (processCurrent adj cf out stack current).2.2.length :=
      List.length_pos.mpr h
    omega

/-- `optimize_vertex_order` from `src/opt.rs`.  The early return on an
empty input precedes the length assertion; a length that is not a
multiple of 3 panics the assertion (modelled as `none`). -/
def optimize_vertex_order (vertices : List VertexTextureData) :
    Option (List VertexTextureData) :=
  if vertices = [] then some []
  else if vertices.length % 3 ≠ 0 then none
  else
    some (optLoop (buildAdjacency (chunks3 vertices)) [] [] []
      vertices.dropLast.reverse (vertices.getLast?.getD ⟨0, ⟨(0,0,0), none, none, none⟩⟩))

/-- Membership of a face in the adjacency set of one of its corners. -/
def AdjP (m : AdjMap) (f : Tri) : Prop :=
  ∀ v ∈ corners f, ∃ s, adjGet m v = some s ∧ f ∈ s

/-- Loop invariant of `optimize_vertex_order` over the distinct input
triangle list `faces₀`. -/
structure OptInv (faces₀ : List Tri) (adj : AdjMap) (cf : List Tri)
    (out stack rem : List VertexTextureData) (current : VertexTextureData) : Prop where
  keysNodup : (adj.map Prod.fst).Nodup
  adjSound : ∀ e ∈ adj, ∀ f ∈ e.2, f ∈ faces₀
  cfSound : ∀ f ∈ cf, f ∈ faces₀
  outChunks : chunks3 out = cf.reverse
  outLen : out.length = 3 * cf.length
  cfNodup : cf.Nodup
  perCorner : ∀ f ∈ faces₀, ∀ v ∈ corners f, f ∈ cf ∨ ∃ s, adjGet adj v = some s ∧ f ∈ s
  reachable : ∀ f ∈ faces₀, f ∈ cf ∨ ∃ v ∈ corners f, v = current ∨ v ∈ stack ∨ v ∈ rem

/-! ## Format parser (`src/parse.rs`)

The input is modelled as the list of lines handed over by `read_line`
(line terminators removed — the source trims every line before use, so
this is observable-equivalent).  All inputs of interest are ASCII, where
byte-level prefix patterns (`[b'v', b' ', ..]`) and byte slicing
(`line[2..]`) coincide with the character-level model used here.
`str::parse::<f32>` is modelled as an exact decimal-rational parser
(`parseF`); it covers the finite decimal/exponent grammar and does not
round; the non-finite literals (`inf`, `nan`), which `ℚ` cannot
represent, are not modelled.  `str::parse::<i32>` (`parseI32`) includes
the `i32` range check.  A Rust panic (`todo!`, `unreachable!`,
`Option::unwrap`) is the `panic` outcome, distinct from `Err`. -/
/-- `Error` from `src/lib.rs` (payloads of the wrapped `std` errors are
not modelled). -/
inductive PError : Type
  | io
  | unkownLine (line : String)
  | unexpectedEoL
  | parseF
  | parseI
  | emptyMtl
  | ojectMultipleMtl (object : String)
  | groupMultipleMTl (group : String)
  | nonUniformColors
deriving DecidableEq

/-- The outcome of a fallible parsing step: `Ok`, `Err`, or a panic. -/
inductive PResult (α : Type) : Type
  | ok (a : α)
  | err (e : PError)
  | panic (msg : String)
deriving DecidableEq

/-- `str::trim` (on the character list; Lean's library `String.trim` is
not kernel-reducible, so the model carries its own implementation). -/
def myTrim (cs : List Char) : List Char :=
  ((cs.dropWhile Char.isWhitespace).reverse.dropWhile Char.isWhitespace).reverse

/-- Worker for `splitWhitespace`: collect maximal non-whitespace runs. -/
def splitWsAux : List Char → List Char → List (List Char)
  | [], acc => if acc = [] then [] else [acc.reverse]
  | c :: rest, acc =>
    if Char.isWhitespace c then
      if acc = [] then splitWsAux rest [] else acc.reverse :: splitWsAux rest []
    else splitWsAux rest (c :: acc)

/-- `str::split_whitespace`. -/
def splitWhitespace (cs : List Char) : List (List Char) := splitWsAux cs []

/-- `str::split(sep)` for a single-character separator, keeping empty
pieces (as Rust does): `"a//b" ↦ ["a", "", "b"]`, `"" ↦ [""]`. -/
def splitChar (sep : Char) : List Char → List (List Char)
  | [] => [[]]
  | c :: rest =>
    match splitChar sep rest with
    | [] => [[]]
    | g :: gs => if c = sep then [] :: g :: gs else (c :: g) :: gs

/-- Numeric value of a digit string. -/
def digitsToNat (cs : List Char) : ℕ :=
  cs.foldl (fun acc c => acc * 10 + (c.toNat - 48)) 0

/-- Split a character list at the first character satisfying `p`. -/
def splitFirst (p : Char → Bool) : List Char → List Char × Option (List Char)
  | [] => ([], none)
  | c :: rest =>
    if p c then ([], some rest)
    else
      let r := splitFirst p rest
      (c :: r.1, r.2)

/-- Strip an optional sign, returning whether the value is negated. -/
def stripSign : List Char → Bool × List Char
  | [] => (false, [])
  | c :: rest =>
    if c = '-' then (true, rest)
    else if c = '+' then (false, rest)
    else (false, c :: rest)

/-- `str::parse::<f32>`, as an exact rational (see the section comment). -/
def parseF (s : List Char) : Option ℚ :=
  let (neg, cs) := stripSign s
  let (mant, expPart) := splitFirst (fun c => c = 'e' ∨ c = 'E') cs
  let (ip, fpOpt) := splitFirst (fun c => c = '.') mant
  let fp := fpOpt.getD []
  if ip.all Char.isDigit ∧ fp.all Char.isDigit ∧ (ip ≠ [] ∨ fp ≠ []) then
    match expPart with
    | none =>
      let v : ℚ := digitsToNat ip + (digitsToNat fp : ℚ) / 10 ^ fp.length
      some (if neg then -v else v)
    | some es =>
      let (eneg, ed) := stripSign es
      if ed ≠ [] ∧ ed.all Char.isDigit then
        let e : ℤ := if eneg then -(digitsToNat ed : ℤ) else (digitsToNat ed : ℤ)
        let v : ℚ := (digitsToNat ip + (digitsToNat fp : ℚ) / 10 ^ fp.length) * 10 ^ e
        some (if neg then -v else v)
      else none
  else none

/-- The signed value of a digit string. -/
def i32val (neg : Bool) (ds : List Char) : ℤ :=
  if neg then -(digitsToNat ds : ℤ) else (digitsToNat ds : ℤ)

/-- `str::parse::<i32>`, including the `i32` range check. -/
def parseI32 (s : List Char) : Option ℤ :=
  let (neg, ds) := stripSign s
  if ds ≠ [] ∧ ds.all Char.isDigit then
    if -(2 ^ 31) ≤ i32val neg ds ∧ i32val neg ds ≤ 2 ^ 31 - 1 then some (i32val neg ds)
    else none
  else none

/-- `x as u32` applied to an `i32` value (two's-complement wrap). -/
def u32_of_i32 (x : ℤ) : ℕ := (x % 2 ^ 32).toNat

/-- An `u32` value reinterpreted `as i32` (two's complement). -/
def i32_of_u32 (n : ℕ) : ℤ :=
  if n % 2 ^ 32 < 2 ^ 31 then ((n % 2 ^ 32 : ℕ) : ℤ) else ((n % 2 ^ 32 : ℕ) : ℤ) - 2 ^ 32

/-- `len as u32`. -/
def u32ofNat (n : ℕ) : ℕ := n % 2 ^ 32

/-- The index-resolution step of `parse_single`: a negative index is
relative (`(count as i32 + (i + 1)) as u32`), zero or positive is used
as written (`i as u32`).  For counts below `2^31` the `i32` addition
cannot overflow; larger counts are unreachable in practice (the file
would need `2^31` attribute lines) and the model wraps where the debug
build would panic. -/
def resolveIndex (count : ℕ) (i : ℤ) : ℕ :=
  if i < 0 then u32_of_i32 (i32_of_u32 count + (i + 1)) else i.toNat

/-- `VertexData` from `src/parse.rs` (position and optional color of a
`v` line); named apart from the flattened-record `VertexData` of
`src/obj.rs`. -/
structure ParseVertexData where
  position : F × F × F
  color : Option (F × F × F)
deriving DecidableEq

/-- `FaceData` from `src/parse.rs` (field names as in the source). -/
structure FaceData where
  indicies : ℕ × ℕ × ℕ
  texture_indcicies : Option (ℕ × ℕ × ℕ)
  normal_indicies : Option (ℕ × ℕ × ℕ)
deriving DecidableEq

/-- `GroupingData` from `src/parse.rs`. -/
structure GroupingData where
  name : String
  mtl : Option String
  start : ℕ
  finish : ℕ
deriving DecidableEq

/-- `GroupingData::default()`. -/
def GroupingData.default : GroupingData :=
  { name := "", mtl := none, start := 0, finish := 0 }

/-- `Line` from `src/parse.rs`. -/
inductive Line : Type
  | Empty
  | Comment
  | Vertex (v : ParseVertexData)
  | Normal (n : F × F × F)
  | TextureCoord (t : F × F)
  | Face (f : FaceData)
  | DoubleFace (f1 f2 : FaceData)
  | MaterialLib (s : String)
  | MaterialUse (s : String)
  | Group (s : String)
  | Object (s : String)
deriving DecidableEq

/-- `parse_vertex` from `src/parse.rs`. -/
def parse_vertex (data : List Char) : PResult ParseVertexData :=
  match splitWhitespace data with
  | [] => .err .unexpectedEoL
  | s1 :: rest1 =>
    match parseF s1 with
    | none => .err .parseF
    | some x =>
      match rest1 with
      | [] => .err .unexpectedEoL
      | s2 :: rest2 =>
        match parseF s2 with
        | none => .err .parseF
        | some y =>
          match rest2 with
          | [] => .err .unexpectedEoL
          | s3 :: rest3 =>
            match parseF s3 with
            | none => .err .parseF
            | some z =>
              match rest3 with
              | [] => .ok { position := (x, y, z), color := none }
              | s4 :: rest4 =>
                match parseF s4 with
                | none => .err .parseF
                | some a =>
                  match rest4 with
                  | [] => .err .nonUniformColors
                  | s5 :: rest5 =>
                    match parseF s5 with
                    | none => .err .parseF
                    | some b =>
                      match rest5 with
                      | [] => .err .nonUniformColors
                      | s6 :: _ =>
                        match parseF s6 with
                        | none => .err .parseF
                        | some c =>
                          .ok { position := (x, y, z), color := some (a, b, c) }

/-- `parse_normal` from `src/parse.rs`. -/
def parse_normal (data : List Char) : PResult (F × F × F) :=
  match splitWhitespace data with
  | [] => .err .unexpectedEoL
  | s1 :: rest1 =>
    match parseF s1 with
    | none => .err .parseF
    | some x =>
      match rest1 with
      | [] => .err .unexpectedEoL
      | s2 :: rest2 =>
        match parseF s2 with
        | none => .err .parseF
        | some y =>
          match rest2 with
          | [] => .err .unexpectedEoL
          | s3 :: _ =>
            match parseF s3 with
            | none => .err .parseF
            | some z => .ok (x, y, z)

/-- `parse_texture_coord` from `src/parse.rs`. -/
def parse_texture_coord (data : List Char) : PResult (F × F) :=
  match splitWhitespace data with
  | [] => .err .unexpectedEoL
  | s1 :: rest1 =>
    match parseF s1 with
    | none => .err .parseF
    | some x =>
      match rest1 with
      | [] => .err .unexpectedEoL
      | s2 :: _ =>
        match parseF s2 with
        | none => .err .parseF
        | some y => .ok (x, y)

/-- `parse_single` from `src/parse.rs`: one face-corner token
`index[/texcoord[/normal]]`, split on `/`.  An empty texcoord field
(`i//n`) means "absent"; an empty or malformed normal field is a parse
error. -/
def parse_single (data : List Char) (v_count t_count n_count : ℕ) :
    PResult (ℕ × Option ℕ × Option ℕ) :=
  match splitChar '/' data with
  | [] => .err .unexpectedEoL
  | s1 :: rest1 =>
    match parseI32 s1 with
    | none => .err .parseI
    | some i0 =>
      let i := resolveIndex v_count i0
      match rest1 with
      | [] => .ok (i, none, none)
      | s2 :: rest2 =>
        let tRes : PResult (Option ℕ) :=
          if s2 = [] then .ok none
          else
            match parseI32 s2 with
            | none => .err .parseI
            | some t0 => .ok (some (resolveIndex t_count t0))
        match tRes with
        | .err e => .err e
        | .panic m => .panic m
        | .ok t =>
          match rest2 with
          | [] => .ok (i, t, none)
          | s3 :: _ =>
            match parseI32 s3 with
            | none => .err .parseI
            | some n0 => .ok (i, t, some (resolveIndex n_count n0))

/-- The attribute-uniformity check of `parse_face`: all three corners
carry the attribute, or none does — a mix is the `unreachable!`
panic. -/
def uniform3 (a b c : Option ℕ) : PResult (Option (ℕ × ℕ × ℕ)) :=
  match a, b, c with
  | none, none, none => .ok none
  | some m1, some m2, some m3 => .ok (some (m1, m2, m3))
  | _, _, _ => .panic "internal error: entered unreachable code"

/-- The fourth-corner attribute step of `parse_face`: when the first
three corners carry the attribute, the fourth's is `unwrap`ped — a
panic when it is absent. -/
def unwrap4 (base : Option (ℕ × ℕ × ℕ)) (d : Option ℕ) :
    PResult (Option (ℕ × ℕ × ℕ × ℕ)) :=
  match base with
  | none => .ok none
  | some (m1, m2, m3) =>
    match d with
    | none => .panic "called `Option::unwrap()` on a `None` value"
    | some m4 => .ok (some (m1, m2, m3, m4))

/-- `triangulate` from `src/parse.rs`. -/
def triangulate (index : ℕ × ℕ × ℕ × ℕ) (normals : Option (ℕ × ℕ × ℕ × ℕ))
    (texture : Option (ℕ × ℕ × ℕ × ℕ)) : FaceData × FaceData :=
  let i1 := (index.1, index.2.1, index.2.2.1)
  let i2 := (index.1, index.2.2.1, index.2.2.2)
  let n12 := match normals with
    | some n => (some (n.1, n.2.1, n.2.2.1), some (n.1, n.2.2.1, n.2.2.2))
    | none => (none, none)
  let t12 := match texture with
    | some t => (some (t.1, t.2.1, t.2.2.1), some (t.1, t.2.2.1, t.2.2.2))
    | none => (none, none)
  (⟨i1, t12.1, n12.1⟩, ⟨i2, t12.2, n12.2⟩)

/-- `parse_face` from `src/parse.rs`: three corners, uniformity of the
optional attribute references (`unreachable!` on a mix), then an
optional fourth corner triangulated via the fixed diagonal split (the
`unwrap` on its attribute refs panics if the first three corners had
them and the fourth does not).  Tokens beyond the fourth are ignored. -/
def parse_face (data : List Char) (v_count t_count n_count : ℕ) :
    PResult (FaceData × Option FaceData) :=
  match splitWhitespace data with
  | [] => .err .unexpectedEoL
  | s1 :: rest1 =>
    match parse_single s1 v_count t_count n_count with
    | .err e => .err e
    | .panic m => .panic m
    | .ok (i1, t1, n1) =>
      match rest1 with
      | [] => .err .unexpectedEoL
      | s2 :: rest2 =>
        match parse_single s2 v_count t_count n_count with
        | .err e => .err e
        | .panic m => .panic m
        | .ok (i2, t2, n2) =>
          match rest2 with
          | [] => .err .unexpectedEoL
          | s3 :: rest3 =>
            match parse_single s3 v_count t_count n_count with
            | .err e => .err e
            | .panic m => .panic m
            | .ok (i3, t3, n3) =>
              match uniform3 n1 n2 n3 with
              | .err e => .err e
              | .panic m => .panic m
              | .ok normal =>
                match uniform3 t1 t2 t3 with
                | .err e => .err e
                | .panic m => .panic m
                | .ok texture =>
                  match rest3 with
                  | [] =>
                    .ok (⟨(i1, i2, i3), texture, normal⟩, none)
                  | s4 :: _ =>
                    match parse_single s4 v_count t_count n_count with
                    | .err e => .err e
                    | .panic m => .panic m
                    | .ok (i4, t4, n4) =>
                      match unwrap4 normal n4 with
                      | .err e => .err e
                      | .panic m => .panic m
                      | .ok normals =>
                        match unwrap4 texture t4 with
                        | .err e => .err e
                        | .panic m => .panic m
                        | .ok textures =>
                          let f12 := triangulate (i1, i2, i3, i4) normals textures
                          .ok (f12.1, some f12.2)

/-- `parse_grouping` from `src/parse.rs`. -/
def parse_grouping (data : List Char) : String := ⟨myTrim data⟩

/-- `parse_mtl` from `src/parse.rs` (never fails). -/
def parse_mtl (data : List Char) : PResult String := .ok ⟨myTrim data⟩

/-- The dispatch of `parse_line` on the trimmed line's leading byte
pattern. -/
def parse_line_core (cs : List Char) (v_count t_count n_count : ℕ) : PResult Line :=
  if cs = [] then .ok .Empty
  else if cs.head? = some '#' then .ok .Comment
  else if cs.take 2 = ['v', ' '] then
    match parse_vertex (myTrim (cs.drop 2)) with
    | .err e => .err e
    | .panic m => .panic m
    | .ok v => .ok (.Vertex v)
  else if cs.take 3 = ['v', 'n', ' '] then
    match parse_normal (myTrim (cs.drop 3)) with
    | .err e => .err e
    | .panic m => .panic m
    | .ok n => .ok (.Normal n)
  else if cs.take 3 = ['v', 't', ' '] then
    match parse_texture_coord (myTrim (cs.drop 3)) with
    | .err e => .err e
    | .panic m => .panic m
    | .ok t => .ok (.TextureCoord t)
  else if cs.take 2 = ['f', ' '] then
    match parse_face (myTrim (cs.drop 2)) v_count t_count n_count with
    | .err e => .err e
    | .panic m => .panic m
    | .ok (f1, some f2) => .ok (.DoubleFace f1 f2)
    | .ok (f1, none) => .ok (.Face f1)
  else if cs.take 2 = ['o', ' '] then .ok (.Object (parse_grouping (myTrim (cs.drop 2))))
  else if cs.take 2 = ['g', ' '] then .ok (.Group (parse_grouping (myTrim (cs.drop 2))))
  else if cs.take 2 = ['s', ' '] then .panic "not yet implemented: smooth"
  else if cs.take 7 = ['m', 't', 'l', 'l', 'i', 'b', ' '] then
    match parse_mtl (myTrim (cs.drop 7)) with
    | .err e => .err e
    | .panic m => .panic m
    | .ok s => .ok (.MaterialLib s)
  else if cs.take 7 = ['u', 's', 'e', 'm', 't', 'l', ' '] then
    match parse_mtl (myTrim (cs.drop 7)) with
    | .err e => .err e
    | .panic m => .panic m
    | .ok s => .ok (.MaterialUse s)
  else .err (.unkownLine ⟨cs⟩)

/-- `parse_line` from `src/parse.rs`: trim, then dispatch on the
leading byte pattern (`parse_line_core`).  The `s ` (smoothing group)
arm is `todo!("smooth")` in the source — a panic, not an `Err`. -/
def parse_line (line : String) (v_count t_count n_count : ℕ) : PResult Line :=
  parse_line_core (myTrim line.data) v_count t_count n_count

/-- `ObjObject` from `src/obj.rs` (the geometry store). -/
structure ObjObject where
  verticies : List (F × F × F)
  vertex_colors : List (F × F × F)
  vertex_normals : List (F × F × F)
  texture_coords : List (F × F)
  faces : List FaceData
  groups : List GroupingData
  objects : List GroupingData
deriving DecidableEq

/-- The mutable locals of `ObjObject::parse`. -/
structure ParseState where
  verticies : List (F × F × F)
  vertex_colors : List (F × F × F)
  vertex_normals : List (F × F × F)
  texture_coords : List (F × F)
  faces : List FaceData
  groups : List GroupingData
  objects : List GroupingData
  current_group : GroupingData
  current_object : GroupingData
deriving DecidableEq

/-- One iteration of the `loop` of `ObjObject::parse`: classify the line
with the current running counts and update the state. -/
def parseStep (st : ParseState) (lineStr : String) : PResult ParseState :=
  let v_count := u32ofNat st.verticies.length
  let t_count := u32ofNat st.texture_coords.length
  let n_count := u32ofNat st.vertex_normals.length
  match parse_line lineStr v_count t_count n_count with
  | .err e => .err e
  | .panic m => .panic m
  | .ok line =>
    match line with
    | .Empty => .ok st
    | .Comment => .ok st
    | .Vertex vd =>
      .ok { st with
        verticies := st.verticies ++ [vd.position]
        vertex_colors := match vd.color with
          | some c => st.vertex_colors ++ [c]
          | none => st.vertex_colors }
    | .Normal n => .ok { st with vertex_normals := st.vertex_normals ++ [n] }
    | .TextureCoord t => .ok { st with texture_coords := st.texture_coords ++ [t] }
    | .Face f =>
      .ok { st with
        faces := st.faces ++ [f]
        current_group := { st.current_group with finish := st.current_group.finish + 1 } }
    | .DoubleFace f1 f2 =>
      .ok { st with
        faces := st.faces ++ [f1, f2]
        current_group := { st.current_group with finish := st.current_group.finish + 2 } }
    | .Group data =>
      if st.current_group.start = st.current_group.finish then
        .ok { st with current_group := { st.current_group with name := data } }
      else
        .ok { st with
          groups := st.groups ++ [st.current_group]
          current_group := { name := data, mtl := none,
                             start := st.faces.length, finish := st.faces.length }
          current_object :=
            { st.current_object with finish := st.current_object.finish + 1 } }
    | .Object data =>
      if st.current_object.start = st.current_object.finish ∧ st.faces = [] then
        .ok { st with current_object := { st.current_object with name := data } }
      else
        let step1 :=
          if st.current_group.start ≠ st.current_group.finish then
            (st.groups ++ [st.current_group], st.current_object.finish + 1,
             ({ name := "", mtl := none, start := st.faces.length,
                finish := st.faces.length } : GroupingData))
          else (st.groups, st.current_object.finish, st.current_group)
        .ok { st with
          groups := step1.1
          current_group := step1.2.2
          objects := st.objects ++ [{ st.current_object with finish := step1.2.1 }]
          current_object := { name := data, mtl := none,
                              start := step1.1.length, finish := step1.1.length } }
    | .MaterialLib data =>
      match st.current_object.mtl with
      | none =>
        .ok { st with current_object := { st.current_object with mtl := some data } }
      | some _ => .err (.ojectMultipleMtl st.current_object.name)
    | .MaterialUse data =>
      match st.current_group.mtl with
      | none =>
        .ok { st with current_group := { st.current_group with mtl := some data } }
      | some _ => .err (.groupMultipleMTl st.current_group.name)

/-- The parse loop over the input lines. -/
def parseLoop : List String → ParseState → PResult ParseState
  | [], st => .ok st
  | l :: rest, st =>
    match parseStep st l with
    | .err e => .err e
    | .panic m => .panic m
    | .ok st' => parseLoop rest st'

/-- The end-of-stream sealing of `ObjObject::parse`: push the open
group if non-empty (bumping the open object's group count), then push
the open object if non-empty. -/
def sealState (st : ParseState) : ObjObject :=
  let sealed :=
    if st.current_group.start ≠ st.current_group.finish then
      (st.groups ++ [st.current_group],
       { st.current_object with finish := st.current_object.finish + 1 })
    else (st.groups, st.current_object)
  let objects1 :=
    if sealed.2.start ≠ sealed.2.finish then st.objects ++ [sealed.2] else st.objects
  { verticies := st.verticies, vertex_colors := st.vertex_colors,
    vertex_normals := st.vertex_normals, texture_coords := st.texture_coords,
    faces := st.faces, groups := sealed.1, objects := objects1 }

/-- `ObjObject::parse` from `src/parse.rs`: run the loop over the lines
of the stream, then seal the open group and object if non-empty. -/
def ObjObject.parse (lines : List String) : PResult ObjObject :=
  let init : ParseState :=
    { verticies := [], vertex_colors := [], vertex_normals := [], texture_coords := []
      faces := [], groups := [], objects := []
      current_group := GroupingData.default, current_object := GroupingData.default }
  match parseLoop lines init with
  | .err e => .err e
  | .panic m => .panic m
  | .ok st => .ok (sealState st)

/-! ## Vertex extraction (`src/obj.rs`)

`verticies` and `verticies_indexed` traverse objects, the groups each
object owns (a slice of `groups`), and the faces each group owns (a
slice of `faces`), interning `TextureIdent`s and emitting one
`VertexTextureData` per face corner.  Rust's panics (slicing with an
invalid range, indexing out of bounds, `i as usize - 1` underflow on a
stored index of `0`) are the `none` outcome.  The dedup pass of
`verticies_indexed` reads the emitted corner stream but never influences
it, so it is modelled as a fold over the stream the shared traversal
emits; the traversal itself (`emitCorners`) is the loop skeleton common
to both functions, parameterised by the initial `materials` vector —
`vec![]` for `verticies`, `vec![TextureIdent {mtllib: None, mtluse:
None}]` for `verticies_indexed`. -/
/-- `TextureIdent` from `src/obj.rs` (borrowed `&str`s modelled as
owned strings). -/
structure TextureIdent where
  mtllib : Option String
  mtluse : Option String
deriving DecidableEq

/-- `VertexTextureData::default()`. -/
def defaultVTD : VertexTextureData :=
  { material_index := 0
    vertex := { position := (0, 0, 0), color := none, normal := none, texture_coord := none } }

/-- The default `TextureIdent` (used only as a `getD` fallback in
statements). -/
def defaultTI : TextureIdent := ⟨none, none⟩

/-- `&xs[a..b]`: Rust range slicing, which panics unless `a ≤ b ≤ len`. -/
def sliceRange {α : Type} (l : List α) (a b : ℕ) : Option (List α) :=
  if a ≤ b ∧ b ≤ l.length then some ((l.drop a).take (b - a)) else none

/-- `xs[i as usize - 1]` for a stored 1-based index `i`: panics when
`i = 0` (usize underflow / out-of-range) or `i - 1` is out of bounds. -/
def lookup1 {α : Type} (l : List α) (i : ℕ) : Option α :=
  if i = 0 then none else l.get? (i - 1)

/-- `vec_to_option` from `src/obj.rs`. -/
def vec_to_option {α : Type} (l : List α) : Option (List α) :=
  if l.isEmpty then none else some l

/-- Three 1-based lookups into the same array (one face's corner refs). -/
def corner3 {α : Type} (l : List α) (i : ℕ × ℕ × ℕ) : Option (α × α × α) :=
  match lookup1 l i.1, lookup1 l i.2.1, lookup1 l i.2.2 with
  | some a, some b, some c => some (a, b, c)
  | _, _, _ => none

/-- One step of `GroupRef::faces_iter` combined with `Face::verticies`:
resolve a face's corner references and flatten them into the three
per-corner `VertexData` records (`option_to_array` distributes the
optional attribute triples). -/
def faceRecords (vs : List (F × F × F)) (cols : Option (List (F × F × F)))
    (ns : List (F × F × F)) (ts : List (F × F)) (f : FaceData) :
    Option (VertexData × VertexData × VertexData) := do
  let p ← corner3 vs f.indicies
  let c ← match cols with
    | none => some none
    | some cl => (corner3 cl f.indicies).map some
  let n ← match f.normal_indicies with
    | none => some none
    | some ni => (corner3 ns ni).map some
  let t ← match f.texture_indcicies with
    | none => some none
    | some ti => (corner3 ts ti).map some
  pure (⟨p.1, c.map Prod.fst, n.map Prod.fst, t.map Prod.fst⟩,
        ⟨p.2.1, c.map (fun x => x.2.1), n.map (fun x => x.2.1), t.map (fun x => x.2.1)⟩,
        ⟨p.2.2, c.map (fun x => x.2.2), n.map (fun x => x.2.2), t.map (fun x => x.2.2)⟩)

/-- `materials.iter().position(|m| *m == t).unwrap_or_else(push)` from
`src/obj.rs`: the index of `t` in `materials`, appending it when
absent. -/
def internMat : List TextureIdent → TextureIdent → ℕ × List TextureIdent
  | [], t => (0, [t])
  | m :: ms, t =>
    if m = t then (0, m :: ms)
    else
      let r := internMat ms t
      (r.1 + 1, m :: r.2)

/-- The corner records of a face list, in order (the two inner loops
of `verticies`/`verticies_indexed` — `faces_iter` and `f.verticies()` —
visit exactly these records; a panic anywhere is `none`). -/
def recsOfFaces (vs : List (F × F × F)) (cols : Option (List (F × F × F)))
    (ns : List (F × F × F)) (ts : List (F × F)) : List FaceData → Option (List VertexData)
  | [] => some []
  | f :: fs =>
    match faceRecords vs cols ns ts f with
    | none => none
    | some r => (recsOfFaces vs cols ns ts fs).map (fun rest => r.1 :: r.2.1 :: r.2.2 :: rest)

/-- The per-group body of the shared traversal: intern the group's
`TextureIdent`, slice the group's faces, and append three records per
face, each tagged with the interned slot (the emitted records do not
depend on one another, so the per-corner pushes of the source factor
into `recsOfFaces` followed by the tagged append). -/
def groupStep (o : ObjObject) (mtllib : Option String)
    (acc : List VertexTextureData × List TextureIdent) (g : GroupingData) :
    Option (List VertexTextureData × List TextureIdent) :=
  match sliceRange o.faces g.start g.finish with
  | none => none
  | some fs =>
    match recsOfFaces o.verticies (vec_to_option o.vertex_colors)
        o.vertex_normals o.texture_coords fs with
    | none => none
    | some rs =>
      some (acc.1 ++ rs.map (fun vd => ⟨(internMat acc.2 ⟨mtllib, g.mtl⟩).1, vd⟩),
            (internMat acc.2 ⟨mtllib, g.mtl⟩).2)

/-- The per-object body of the shared traversal: slice the object's
groups and fold `groupStep` over them with the object's `mtllib`. -/
def objStep (o : ObjObject) (acc : List VertexTextureData × List TextureIdent)
    (ob : GroupingData) : Option (List VertexTextureData × List TextureIdent) :=
  match sliceRange o.groups ob.start ob.finish with
  | none => none
  | some gs => gs.foldlM (groupStep o ob.mtl) acc

/-- The traversal shared by `verticies` and `verticies_indexed` (lines
76–99 and 118–150 of `src/obj.rs` are this loop): emitted corner
records and final materials, from a given initial materials vector. -/
def emitCorners (o : ObjObject) (mats0 : List TextureIdent) :
    Option (List VertexTextureData × List TextureIdent) :=
  o.objects.foldlM (objStep o) ([], mats0)

/-- `ObjObject::verticies` from `src/obj.rs` (primed: the Lean structure
field of the same name occupies the source method's name). -/
def ObjObject.verticies' (o : ObjObject) :
    Option (List VertexTextureData × List TextureIdent) :=
  emitCorners o []

/-- First-match lookup in the key → slot table (the `HashMap` of
`verticies_indexed`, kept in insertion order). -/
def tableLookup : List (VertexTextureData × ℕ) → VertexTextureData → Option ℕ
  | [], _ => none
  | e :: rest, v => if e.1 = v then some e.2 else tableLookup rest v

/-- The `verticies.entry(...)` step of `verticies_indexed` (lines
137–144): state is `(indicies, table, counter)`. -/
def dedupStep (s : List ℕ × List (VertexTextureData × ℕ) × ℕ) (vert : VertexTextureData) :
    List ℕ × List (VertexTextureData × ℕ) × ℕ :=
  match tableLookup s.2.1 vert with
  | some pos => (s.1 ++ [pos], s.2.1, s.2.2)
  | none => (s.1 ++ [s.2.2], s.2.1 ++ [(vert, s.2.2)], s.2.2 + 1)

/-- The vertex-buffer arrangement of `verticies_indexed` (lines
152–160): resize with defaults, then write every table entry at its
slot. -/
def buildBuffer (counter : ℕ) (table : List (VertexTextureData × ℕ)) :
    List VertexTextureData :=
  table.foldl (fun buf e => buf.set e.2 e.1) (List.replicate counter defaultVTD)

/-- `ObjObject::verticies_indexed` from `src/obj.rs`: the shared
traversal seeded with `[TextureIdent {None, None}]`, the dedup fold
over the emitted corners, and the arranged vertex buffer. -/
def ObjObject.verticies_indexed (o : ObjObject) :
    Option (List ℕ × List VertexTextureData × List TextureIdent) :=
  match emitCorners o [⟨none, none⟩] with
  | none => none
  | some r =>
    some ((r.1.foldl dedupStep ([], [], 0)).1,
          buildBuffer (r.1.foldl dedupStep ([], [], 0)).2.2
            (r.1.foldl dedupStep ([], [], 0)).2.1,
          r.2)

/-- Specification-side comparator for C5's words: duplicates removed
keeping the first occurrence of each record. -/
def firstDedup (l : List VertexTextureData) : List VertexTextureData :=
  l.foldl (fun acc v => if v ∈ acc then acc else acc ++ [v]) []

/-- Projection of a parse run onto the stored faces (used to state
concrete parse outcomes without touching the rational payloads). -/
def parsedFaces (lines : List String) : Option (List FaceData) :=
  match ObjObject.parse lines with
  | .ok o => some o.faces
  | _ => none

/-- Projection of a parse run onto the three attribute counts. -/
def parsedCounts (lines : List String) : Option (ℕ × ℕ × ℕ) :=
  match ObjObject.parse lines with
  | .ok o => some (o.verticies.length, o.texture_coords.length, o.vertex_normals.length)
  | _ => none

/-- All index components stored in a face are `u32` values. -/
def FaceBound (f : FaceData) : Prop :=
  f.indicies.1 < 2 ^ 32 ∧ f.indicies.2.1 < 2 ^ 32 ∧ f.indicies.2.2 < 2 ^ 32 ∧
  (∀ t, f.texture_indcicies = some t → t.1 < 2 ^ 32 ∧ t.2.1 < 2 ^ 32 ∧ t.2.2 < 2 ^ 32) ∧
  (∀ n, f.normal_indicies = some n → n.1 < 2 ^ 32 ∧ n.2.1 < 2 ^ 32 ∧ n.2.2 < 2 ^ 32)

/-- A grouping list covers the half-open index range `[a, b)` with
consecutive non-overlapping `start ≤ finish` ranges. -/
def ChainedCover : ℕ → List GroupingData → ℕ → Prop
  | a, [], b => a = b
  | a, g :: gs, b => g.start = a ∧ g.start ≤ g.finish ∧ ChainedCover g.finish gs b

/-- The relation between two runs of the shared traversal that differ
only in the initial materials vector: same number of corner records,
identical vertex parts, and identical material identities (the
`TextureIdent` each record's index resolves to). -/
structure EmitRel (p q : List VertexTextureData × List TextureIdent) : Prop where
  len : p.1.length = q.1.length
  vert : ∀ k, (p.1.getD k defaultVTD).vertex = (q.1.getD k defaultVTD).vertex
  bndL : ∀ k, k < p.1.length → (p.1.getD k defaultVTD).material_index < p.2.length
  bndR : ∀ k, k < q.1.length → (q.1.getD k defaultVTD).material_index < q.2.length
  ident : ∀ k, k < p.1.length →
    p.2.getD (p.1.getD k defaultVTD).material_index defaultTI =
      q.2.getD (q.1.getD k defaultVTD).material_index defaultTI

/-- Invariant of the dedup fold of `verticies_indexed` over a prefix
`E` of the emitted corner stream: state is `(indicies, table,
counter)`. -/
structure DedupInv (E : List VertexTextureData)
    (s : List ℕ × List (VertexTextureData × ℕ) × ℕ) : Prop where
  idxLen : s.1.length = E.length
  counter : s.2.2 = s.2.1.length
  slots : ∀ j, j < s.2.1.length → (s.2.1.getD j (defaultVTD, 0)).2 = j
  keys : s.2.1.map Prod.fst = firstDedup E
  idxLt : ∀ i ∈ s.1, i < s.2.1.length
  replay : ∀ k, k < E.length →
    (s.2.1.map Prod.fst).getD (s.1.getD k 0) defaultVTD = E.getD k defaultVTD

/-- The range bookkeeping `ObjObject::parse` maintains: pushed groups
chain over the face list up to the open group's start, the open group's
`finish` tracks the face count, and likewise for objects over
groups. -/
structure ParseRangesInv (st : ParseState) : Prop where
  g : ChainedCover 0 st.groups st.current_group.start
  gle : st.current_group.start ≤ st.current_group.finish
  gfin : st.current_group.finish = st.faces.length
  o : ChainedCover 0 st.objects st.current_object.start
  ole : st.current_object.start ≤ st.current_object.finish
  ofin : st.current_object.finish = st.groups.length

/- The core `Rat` operations are `@[irreducible]`, which blocks only the
elaborator's evaluator — the kernel unfolds them regardless.  Restoring
default reducibility lets `decide` evaluate the model on concrete
rational inputs. -/
attribute [local semireducible] Rat.add Rat.mul Rat.inv Rat.sub

/-- C1: the claim states that for every non-empty point sequence the sphere
center is the axis-aligned bounding-box center of the observed coordinates.
The source initialises the running minimum with `f32::MIN` and the running
maximum with `f32::MAX` (the two initialisations are swapped), so the
observed points never change them and the center is always the origin.
For the single point `(2, 0, 0)` the bounding-box center required by the
claim is `(2, 0, 0)`, but the code returns center `(0, 0, 0)` — for every
square-root function, since the center does not depend on it. -/
theorem C1_bounding_sphere_center_ignores_points :
    ∀ sq : F → F,
      (build_bounding_sphere sq [((2:F),0,0)]).center = ((0:F), 0, 0) ∧
      specAabbCenter [((2:F),0,0)] ((2:F),0,0) = ((2:F), 0, 0) ∧
      ((0:F), (0:F), (0:F)) ≠ ((2:F), 0, 0) := by
  intro sq
  refine ⟨?_, ?_, ?_⟩
  · simp [build_bounding_sphere, Vec3.ofTriple, Vec3.new, Vec3.distance, f32midpoint,
      f32MIN, f32MAX]
    norm_num
  · simp [specAabbCenter, f32midpoint]
  · intro h
    have h1 : (0:F) = 2 := congrArg Prod.fst h
    norm_num at h1

lemma coneLoop_true_forall (avg : Vec3) (th : F) :
    ∀ (l : List Vec3) (mdot : F), coneLoop avg th l mdot = true →
      ∀ n ∈ l, th ≤ Vec3.dot avg n := by
  intro l
  induction l with
  | nil => intro mdot _ n hn; cases hn
  | cons x rest ih =>
    intro mdot h n hn
    rw [coneLoop] at h
    by_cases hlt : min mdot (Vec3.dot avg x) < th
    · simp [hlt] at h
    · simp only [hlt, if_false] at h
      push_neg at hlt
      rcases List.mem_cons.mp hn with rfl | hn'
      · exact le_trans hlt (min_le_right _ _)
      · exact ih _ h n hn'

lemma check_cone_next_coneOk (sq : F → F) (ns : List Vec3) (nx : Vec3) (th : F)
    (h : check_cone_next sq ns nx th = true) : ConeOk sq th (ns ++ [nx]) := by
  intro n hn
  exact coneLoop_true_forall _ _ _ _ h n hn

/-- Finalising the in-progress meshlet of an invariant-satisfying state
yields a meshlet satisfying `MeshletOk`. -/
lemma finalize_ok {sq th V T n st} (hinv : StInv sq th V T n st) :
    MeshletOk sq th V T
      (finalizeMeshlet sq st.meshlet st.current_normals st.current_vertices,
       st.current_normals) := by
  refine ⟨hinv.tcLe, hinv.vcLe, hinv.tcEq, hinv.vcEq, hinv.triBound, hinv.nsLen,
    hinv.emptyZero, ?_, rfl⟩
  rcases hinv.coneDisj with h | h
  · interval_cases hc : st.meshlet.triangle_count
    · right
      intro x hx
      have : st.current_normals = [] := List.eq_nil_of_length_eq_zero (hinv.nsLen.trans hc)
      rw [this] at hx
      cases hx
    · left; exact hc
  · right; exact h

lemma insertCorner_facts {V i : ℕ} {s s' : List ℤ × Meshlet}
    (h : insertCorner V i s = some s') : InsertFacts V i s s' := by
  rw [insertCorner] at h
  by_cases h1 : s.1.getD i (-1) = -1
  · rw [if_pos h1] at h
    by_cases h2 : s.2.vertex_count < V
    · rw [if_pos h2, Option.some_inj] at h
      subst h
      refine ⟨rfl, rfl, rfl, rfl, Nat.le_succ _, fun _ => h2, ?_, List.length_set .., ?_, ?_, ?_⟩
      · intro hlen
        simp [hlen]
      · intro hb v hv
        rcases List.mem_or_eq_of_mem_set hv with hv | rfl
        · rcases hb v hv with hv1 | ⟨hv1, hv2⟩
          · exact Or.inl hv1
          · exact Or.inr ⟨hv1, lt_trans hv2 (by exact_mod_cast Nat.lt_succ_self _)⟩
        · right
          constructor
          · exact_mod_cast Nat.zero_le _
          · exact_mod_cast Nat.lt_succ_self _
      · intro _ hi
        have hset : (s.1.set i (s.2.vertex_count : ℤ)).getD i (-1)
            = (s.2.vertex_count : ℤ) := by
          rw [List.getD_eq_getElem?_getD, List.getElem?_set_self (by exact hi)]
          rfl
        rw [hset]
        constructor
        · exact_mod_cast Nat.zero_le _
        · exact_mod_cast Nat.lt_succ_self _
      · intro j hj
        rw [List.getD_eq_getElem?_getD, List.getD_eq_getElem?_getD,
          List.getElem?_set_ne (fun hij => hj hij.symm)]
    · rw [if_neg h2] at h
      cases h
  · rw [if_neg h1, Option.some_inj] at h
    subst h
    refine ⟨rfl, rfl, rfl, rfl, le_refl _, fun hb => hb, fun hb => hb, rfl, fun hb => hb,
      ?_, fun _ _ => rfl⟩
    intro hb hi
    have hget : s.1.getD i (-1) = s.1[i] := List.getD_eq_getElem s.1 (-1) hi
    have hmem : s.1[i] ∈ s.1 := List.getElem_mem hi
    rcases hb _ hmem with hv | ⟨hv1, hv2⟩
    · exact absurd (hget.trans hv) h1
    · rw [hget]
      exact ⟨hv1, hv2⟩

lemma flushStep_inv {sq : F → F} {th : F} {V T n : ℕ} {st : BuildState}
    (hinv : StInv sq th V T n st) : StInv sq th V T n (flushStep sq st) := by
  refine ⟨?_, rfl, rfl, rfl, Nat.zero_le _, Nat.zero_le _, ?_, ?_, fun _ => ⟨rfl, rfl⟩,
    Or.inl (Nat.zero_le _), ?_⟩
  · simpa [flushStep] using hinv.clen
  · intro t ht
    cases ht
  · intro v hv
    exact Or.inl (List.eq_of_mem_replicate hv)
  · intro p hp
    rcases List.mem_append.mp hp with hp | hp
    · exact hinv.outOk p hp
    · rcases List.mem_singleton.mp hp with rfl
      exact finalize_ok hinv

lemma maybeFlush_inv {sq : F → F} {th : F} {V T n : ℕ} {st : BuildState}
    {normal : Vec3} {additional : ℕ} (hinv : StInv sq th V T n st) :
    StInv sq th V T n (maybeFlush sq th V T st normal additional) := by
  rw [maybeFlush]
  split
  · exact flushStep_inv hinv
  · exact hinv

lemma maybeFlush_normals {sq : F → F} {th : F} {V T : ℕ} {st : BuildState}
    {normal : Vec3} {additional : ℕ} :
    (maybeFlush sq th V T st normal additional).current_normals = [] ∨
      (maybeFlush sq th V T st normal additional = st ∧
        check_cone_next sq st.current_normals normal th = true) := by
  rw [maybeFlush]
  split
  · exact Or.inl rfl
  · next hcond =>
    push_neg at hcond
    refine Or.inr ⟨rfl, ?_⟩
    have := hcond.2.2
    revert this
    cases check_cone_next sq st.current_normals normal th <;> simp

lemma buildStep_inv {sq : F → F} {th : F} {V T : ℕ} {verts : List (F × F × F)}
    {st st' : BuildState} {f : ℕ × ℕ × ℕ}
    (hinv : StInv sq th V T verts.length st)
    (h : buildStep sq th V T verts st f = some st') :
    StInv sq th V T verts.length st' ∧ 1 ≤ st'.meshlet.triangle_count := by
  obtain ⟨i0, i1, i2⟩ := f
  simp only [buildStep] at h
  split at h
  case _ p0 p1 p2 heq0 heq1 heq2 =>
    split at h
    · exact Option.noConfusion h
    · next hne =>
      push_neg at hne
      obtain ⟨hne01, hne02, hne12⟩ := hne
      split at h
      · exact Option.noConfusion h
      · next s2 hins0 =>
        split at h
        · exact Option.noConfusion h
        · next s3 hins1 =>
          split at h
          · exact Option.noConfusion h
          · next s4 hins2 =>
            split at h
            · next hT =>
              rw [Option.some_inj] at h
              subst h
              set nrm := triangle_normal sq (Vec3.ofTriple p0) (Vec3.ofTriple p1)
                (Vec3.ofTriple p2) with hnrm
              set st1 := maybeFlush sq th V T st nrm
                ((if st.contained.getD i0 (-1) = -1 then 1 else 0)
                  + (if st.contained.getD i1 (-1) = -1 then 1 else 0)
                  + (if st.contained.getD i2 (-1) = -1 then 1 else 0)) with hst1
              have hinv1 : StInv sq th V T verts.length st1 := maybeFlush_inv hinv
              have F0 := insertCorner_facts hins0
              have F1 := insertCorner_facts hins1
              have F2 := insertCorner_facts hins2
              have hi0 : i0 < verts.length := by
                have := List.getElem?_eq_some_iff.mp heq0
                exact this.1
              have hi1 : i1 < verts.length := (List.getElem?_eq_some_iff.mp heq1).1
              have hi2 : i2 < verts.length := (List.getElem?_eq_some_iff.mp heq2).1
              have hlen1 : st1.contained.length = verts.length := hinv1.clen
              have hlen2 : s2.1.length = verts.length := F0.clen.trans hlen1
              have hlen3 : s3.1.length = verts.length := F1.clen.trans hlen2
              have hcb1 : ∀ v ∈ st1.contained,
                  v = -1 ∨ (0 ≤ v ∧ v < (st1.meshlet.vertex_count : ℤ)) :=
                hinv1.containedBound
              have hcb2 : ∀ v ∈ s2.1, v = -1 ∨ (0 ≤ v ∧ v < (s2.2.vertex_count : ℤ)) :=
                F0.cbound hcb1
              have hcb3 : ∀ v ∈ s3.1, v = -1 ∨ (0 ≤ v ∧ v < (s3.2.vertex_count : ℤ)) :=
                F1.cbound hcb2
              have hcb4 : ∀ v ∈ s4.1, v = -1 ∨ (0 ≤ v ∧ v < (s4.2.vertex_count : ℤ)) :=
                F2.cbound hcb3
              have htc : s4.2.triangle_count = st1.meshlet.triangle_count := by
                rw [F2.tc, F1.tc, F0.tc]
              have htris : s4.2.triangles = st1.meshlet.triangles := by
                rw [F2.tris, F1.tris, F0.tris]
              have hvcmono : st1.meshlet.vertex_count ≤ s4.2.vertex_count :=
                le_trans F0.vcMono (le_trans F1.vcMono F2.vcMono)
              -- the three local slot values are within the final vertex count
              have hla : 0 ≤ s4.1.getD i0 (-1) ∧
                  s4.1.getD i0 (-1) < (s4.2.vertex_count : ℤ) := by
                have h0 := F0.hit hcb1 (by rw [hlen1]; exact hi0)
                have e1 : s3.1.getD i0 (-1) = s2.1.getD i0 (-1) := F1.miss i0 hne01
                have e2 : s4.1.getD i0 (-1) = s3.1.getD i0 (-1) := F2.miss i0 hne02
                rw [e2, e1]
                refine ⟨h0.1, lt_of_lt_of_le h0.2 ?_⟩
                exact_mod_cast le_trans F1.vcMono F2.vcMono
              have hlb : 0 ≤ s4.1.getD i1 (-1) ∧
                  s4.1.getD i1 (-1) < (s4.2.vertex_count : ℤ) := by
                have h0 := F1.hit hcb2 (by rw [hlen2]; exact hi1)
                have e2 : s4.1.getD i1 (-1) = s3.1.getD i1 (-1) := F2.miss i1 hne12
                rw [e2]
                refine ⟨h0.1, lt_of_lt_of_le h0.2 ?_⟩
                exact_mod_cast F2.vcMono
              have hlc : 0 ≤ s4.1.getD i2 (-1) ∧
                  s4.1.getD i2 (-1) < (s4.2.vertex_count : ℤ) :=
                F2.hit hcb3 (by rw [hlen3]; exact hi2)
              refine ⟨⟨?_, ?_, ?_, ?_, ?_, ?_, ?_, ?_, ?_, ?_, ?_⟩, ?_⟩
              · exact F2.clen.trans hlen3
              · simp only [List.length_append, List.length_singleton]
                rw [htc, htris, ← hinv1.tcEq]
              · exact F2.vcEq (F1.vcEq (F0.vcEq hinv1.vcEq))
              · simp only [List.length_append, List.length_singleton]
                rw [hinv1.nsLen, htc]
              · exact hT
              · exact F2.vcLe (F1.vcLe (F0.vcLe hinv1.vcLe))
              · intro t ht
                rcases List.mem_append.mp ht with ht | ht
                · rw [htris] at ht
                  have := hinv1.triBound t ht
                  exact ⟨lt_of_lt_of_le this.1 hvcmono, lt_of_lt_of_le this.2.1 hvcmono,
                    lt_of_lt_of_le this.2.2 hvcmono⟩
                · rcases List.mem_singleton.mp ht with rfl
                  refine ⟨?_, ?_, ?_⟩ <;> simp only []
                  · omega
                  · omega
                  · omega
              · exact hcb4
              · intro hzero
                exact absurd hzero (Nat.succ_ne_zero _)
              · rcases @maybeFlush_normals sq th V T st nrm
                  ((if st.contained.getD i0 (-1) = -1 then 1 else 0)
                    + (if st.contained.getD i1 (-1) = -1 then 1 else 0)
                    + (if st.contained.getD i2 (-1) = -1 then 1 else 0)) with hn | ⟨hs, hchk⟩
                · left
                  have hz : st1.current_normals = [] := by rw [hst1]; exact hn
                  have hz0 : st1.meshlet.triangle_count = 0 := by
                    rw [← hinv1.nsLen, hz]
                    rfl
                  show s4.2.triangle_count + 1 ≤ 1
                  omega
                · right
                  have hs' : st1 = st := by rw [hst1]; exact hs
                  rw [hs']
                  exact check_cone_next_coneOk sq _ _ th hchk
              · intro p hp
                exact hinv1.outOk p hp
              · exact Nat.succ_le_succ (Nat.zero_le _)
            · exact Option.noConfusion h
  all_goals exact Option.noConfusion h

lemma foldlM_buildStep_inv {sq : F → F} {th : F} {V T : ℕ} {verts : List (F × F × F)} :
    ∀ (faces : List (ℕ × ℕ × ℕ)) (st stf : BuildState),
      StInv sq th V T verts.length st →
      List.foldlM (buildStep sq th V T verts) st faces = some stf →
      StInv sq th V T verts.length stf ∧ (faces = [] → stf = st) ∧
        (faces ≠ [] → 1 ≤ stf.meshlet.triangle_count) := by
  intro faces
  induction faces with
  | nil =>
    intro st stf hinv h
    rw [List.foldlM_nil, Option.pure_def, Option.some_inj] at h
    subst h
    exact ⟨hinv, fun _ => rfl, fun hne => absurd rfl hne⟩
  | cons f rest ih =>
    intro st stf hinv h
    rw [List.foldlM_cons] at h
    cases h1 : buildStep sq th V T verts st f with
    | none => rw [h1] at h; exact Option.noConfusion h
    | some st1 =>
      rw [h1] at h
      simp only [Option.bind_eq_bind, Option.some_bind] at h
      obtain ⟨hinv1, htc1⟩ := buildStep_inv hinv h1
      obtain ⟨hinvf, hnil, hne⟩ := ih st1 stf hinv1 h
      refine ⟨hinvf, fun hx => absurd hx (List.cons_ne_nil f rest), ?_⟩
      intro _
      cases rest with
      | nil => rw [hnil rfl]; exact htc1
      | cons a b => exact hne (List.cons_ne_nil a b)

lemma init_inv {sq : F → F} {th : F} {V T : ℕ} {verts : List (F × F × F)} :
    StInv sq th V T verts.length
      { meshlets := [], meshlet := Meshlet.empty,
        contained := List.replicate verts.length (-1),
        current_vertices := [], current_normals := [] } := by
  refine ⟨List.length_replicate .., rfl, rfl, rfl, Nat.zero_le _, Nat.zero_le _, ?_, ?_,
    fun _ => ⟨rfl, rfl⟩, Or.inl (Nat.zero_le _), ?_⟩
  · intro t ht; cases ht
  · intro v hv; exact Or.inl (List.eq_of_mem_replicate hv)
  · intro p hp; cases hp

lemma build_core_facts {sq : F → F} {V T : ℕ} {indices : List ℕ}
    {verts : List (F × F × F)} {cone_threshold : F} {gms : List (Meshlet × List Vec3)}
    (h : build_meshlets_core sq V T indices verts cone_threshold = some gms) :
    (∀ p ∈ gms, MeshletOk sq (f32clamp cone_threshold f32_0_1 f32_0_9) V T p) ∧
    (∀ p, gms.getLast? = some p → 1 ≤ p.1.triangle_count) := by
  rw [build_meshlets_core] at h
  cases hf : List.foldlM
      (buildStep sq (f32clamp cone_threshold f32_0_1 f32_0_9) V T verts)
      { meshlets := [], meshlet := Meshlet.empty,
        contained := List.replicate verts.length (-1),
        current_vertices := [], current_normals := [] }
      (chunks3 indices) with
  | none =>
    rw [hf] at h
    exact Option.noConfusion h
  | some stf =>
    rw [hf, Option.map_some'] at h
    rw [Option.some_inj] at h
    obtain ⟨hinvf, hnil, hne⟩ := foldlM_buildStep_inv (chunks3 indices) _ stf init_inv hf
    by_cases hz : stf.meshlet.triangle_count ≠ 0
    · rw [if_pos hz] at h
      subst h
      constructor
      · intro p hp
        rcases List.mem_append.mp hp with hp | hp
        · exact hinvf.outOk p hp
        · rcases List.mem_singleton.mp hp with rfl
          exact finalize_ok hinvf
      · intro p hp
        rw [List.getLast?_concat] at hp
        rw [Option.some_inj] at hp
        subst hp
        exact Nat.one_le_iff_ne_zero.mpr hz
    · rw [if_neg hz] at h
      subst h
      push_neg at hz
      have hfaces : chunks3 indices = [] := by
        by_contra hcon
        have := hne hcon
        omega
      have hstf := hnil hfaces
      subst hstf
      exact ⟨fun p hp => absurd hp (List.not_mem_nil p), fun p hp => Option.noConfusion hp⟩

/-- C6: for capacities `V ≥ 3`, `T ≥ 1`, every meshlet produced by
`build_meshlets` (paired with the list of face normals it was flushed
with) satisfies: at most `T` triangles and `V` vertices, every local
index of its triangle list below its `vertex_count`, and — unless it
holds exactly one triangle — every member normal has dot product at
least the clamped cone threshold with the meshlet's average normal
direction (its stored cone direction, `calc_cone` of its normals). -/
theorem C6_meshlet_invariants (sq : F → F) (cone_threshold : F) (V T : ℕ)
    (indices : List ℕ) (verts : List (F × F × F)) (gms : List (Meshlet × List Vec3))
    (hV : 3 ≤ V) (hT : 1 ≤ T)
    (h : build_meshlets_core sq V T indices verts cone_threshold = some gms) :
    build_meshlets sq V T indices verts cone_threshold = some (gms.map Prod.fst) ∧
    ∀ p ∈ gms,
      p.1.triangle_count ≤ T ∧
      p.1.vertex_count ≤ V ∧
      (∀ t ∈ p.1.triangles, t.1 < p.1.vertex_count ∧ t.2.1 < p.1.vertex_count ∧
        t.2.2 < p.1.vertex_count) ∧
      (p.1.triangle_count = 1 ∨
        ∀ n ∈ p.2, f32clamp cone_threshold f32_0_1 f32_0_9 ≤ Vec3.dot (avgOf sq p.2) n) ∧
      p.1.cone = calc_cone sq p.2 ∧
      p.2.length = p.1.triangle_count := by
  obtain ⟨hall, _⟩ := build_core_facts h
  constructor
  · rw [build_meshlets, h, Option.map_some']
  · intro p hp
    obtain ok := hall p hp
    exact ⟨ok.tcLe, ok.vcLe, ok.triBound, ok.coneDisj, ok.coneEq, ok.nsLen⟩

/-- C6 witness: `build_meshlets` on the single non-degenerate triangle
`(0,0,0), (1,0,0), (0,1,0)` with `V = 64`, `T = 126`, threshold `1/2`. -/
theorem C6_meshlet_invariants_witness :
    build_meshlets id 64 126 [0, 1, 2] [(0,0,0), (1,0,0), (0,1,0)] (1/2) =
      some (List.map Prod.fst
        [((⟨(0,0,-1,0), ⟨(0,0,0),1⟩, [0,1,2], [(0,1,2)], 3, 1⟩ : Meshlet),
          ([⟨0,0,-1⟩] : List Vec3))]) ∧
    ∀ p ∈ [((⟨(0,0,-1,0), ⟨(0,0,0),1⟩, [0,1,2], [(0,1,2)], 3, 1⟩ : Meshlet),
            ([⟨0,0,-1⟩] : List Vec3))],
      p.1.triangle_count ≤ 126 ∧
      p.1.vertex_count ≤ 64 ∧
      (∀ t ∈ p.1.triangles, t.1 < p.1.vertex_count ∧ t.2.1 < p.1.vertex_count ∧
        t.2.2 < p.1.vertex_count) ∧
      (p.1.triangle_count = 1 ∨
        ∀ n ∈ p.2, f32clamp (1/2) f32_0_1 f32_0_9 ≤ Vec3.dot (avgOf id p.2) n) ∧
      p.1.cone = calc_cone id p.2 ∧
      p.2.length = p.1.triangle_count :=
  C6_meshlet_invariants id (1/2) 64 126 [0, 1, 2] [(0,0,0), (1,0,0), (0,1,0)]
    [(⟨(0,0,-1,0), ⟨(0,0,0),1⟩, [0,1,2], [(0,1,2)], 3, 1⟩, [⟨0,0,-1⟩])]
    (by norm_num) (by norm_num)
    (by
      simp [build_meshlets_core, buildStep, maybeFlush, flushStep, insertCorner,
        chunks3, Meshlet.empty, triangle_normal, check_cone_next, coneLoop, avgOf, calc_cone,
        finalizeMeshlet, build_bounding_sphere, f32clamp, f32_0_1, f32_0_9, Vec3.ofTriple,
        Vec3.new, Vec3.zero, Vec3.add, Vec3.sub, Vec3.cross, Vec3.dot, Vec3.mulAdd,
        Vec3.normalized, Vec3.lenght, Vec3.distance, f32midpoint, f32MIN, f32MAX,
        Vec3.mk.injEq, min_def, max_def]
      norm_num [Vec3.add, Vec3.zero, Vec3.new, Vec3.mk.injEq, min_def, max_def, Vec3.dot,
        Vec3.mulAdd, Vec3.normalized, Vec3.lenght]
      all_goals decide)

/-- C10 counterexample: on a degenerate triangle (all three corners at the
origin, but with three distinct indices) the face normal is the zero
vector, `check_cone_next` fails on it with an empty in-progress meshlet,
and the flush appends a meshlet with `triangle_count = 0` — the first of
the two returned meshlets is empty, refuting the claim that every
returned meshlet holds at least one triangle. -/
theorem C10_counterexample_empty_meshlet :
    Option.map (List.map Meshlet.triangle_count)
      (build_meshlets id 64 126 [0, 1, 2] [(0,0,0), (0,0,0), (0,0,0)] (1/2)) =
      some [0, 1] := by
  simp [build_meshlets, build_meshlets_core, buildStep, maybeFlush, flushStep, insertCorner,
    chunks3, Meshlet.empty, triangle_normal, check_cone_next, coneLoop, avgOf, calc_cone,
    finalizeMeshlet, build_bounding_sphere, f32clamp, f32_0_1, f32_0_9, Vec3.ofTriple,
    Vec3.new, Vec3.zero, Vec3.add, Vec3.sub, Vec3.cross, Vec3.dot, Vec3.mulAdd,
    Vec3.normalized, Vec3.lenght, Vec3.distance, f32midpoint, f32MIN, f32MAX,
    Vec3.mk.injEq, min_def, max_def]
  norm_num [Vec3.add, Vec3.zero, Vec3.new, Vec3.mk.injEq, min_def, max_def, Vec3.dot,
    Vec3.mulAdd, Vec3.normalized, Vec3.lenght]

/-- C10 (amended): every meshlet returned by `build_meshlets` holds at
least one triangle — except that an in-loop flush fired with an empty
in-progress meshlet (the cone-width test failing on the very first
triangle after a flush, e.g. on a zero-normal degenerate triangle)
appends an empty meshlet, which then also has no vertices and no
triangle entries.  The trailing append never appends an empty meshlet:
the last meshlet of a non-empty result always holds a triangle. -/
theorem C10_no_empty_meshlet_amended (sq : F → F) (cone_threshold : F) (V T : ℕ)
    (indices : List ℕ) (verts : List (F × F × F)) (ms : List Meshlet)
    (h : build_meshlets sq V T indices verts cone_threshold = some ms) :
    (∀ m ∈ ms, 1 ≤ m.triangle_count ∨
      (m.triangle_count = 0 ∧ m.vertex_count = 0 ∧ m.triangles = [] ∧ m.vertices = [])) ∧
    (∀ m, ms.getLast? = some m → 1 ≤ m.triangle_count) := by
  rw [build_meshlets] at h
  cases hc : build_meshlets_core sq V T indices verts cone_threshold with
  | none => rw [hc] at h; exact Option.noConfusion h
  | some gms =>
    rw [hc, Option.map_some', Option.some_inj] at h
    subst h
    obtain ⟨hall, hlast⟩ := build_core_facts hc
    constructor
    · intro m hm
      rcases List.mem_map.mp hm with ⟨p, hp, rfl⟩
      obtain ok := hall p hp
      by_cases hz : p.1.triangle_count = 0
      · right
        obtain ⟨h1, h2⟩ := ok.emptyZero hz
        refine ⟨hz, h1, h2, ?_⟩
        have hv := ok.vcEq
        rw [h1] at hv
        exact (List.eq_nil_of_length_eq_zero hv.symm)
      · left; omega
    · intro m hm
      rw [List.getLast?_map] at hm
      cases hg : gms.getLast? with
      | none => rw [hg] at hm; exact Option.noConfusion hm
      | some p =>
        rw [hg, Option.map_some', Option.some_inj] at hm
        subst hm
        exact hlast p hg

/-- C10 amended witness: the degenerate-triangle input produces an empty
first meshlet and a final meshlet holding the triangle. -/
theorem C10_no_empty_meshlet_amended_witness :
    (∀ m ∈ [(⟨(0,0,0,0), ⟨(0,0,0),0⟩, [], [], 0, 0⟩ : Meshlet),
            ⟨(0,0,0,1), ⟨(0,0,0),0⟩, [0,1,2], [(0,1,2)], 3, 1⟩],
        1 ≤ m.triangle_count ∨
        (m.triangle_count = 0 ∧ m.vertex_count = 0 ∧ m.triangles = [] ∧ m.vertices = [])) ∧
    (∀ m, [(⟨(0,0,0,0), ⟨(0,0,0),0⟩, [], [], 0, 0⟩ : Meshlet),
           ⟨(0,0,0,1), ⟨(0,0,0),0⟩, [0,1,2], [(0,1,2)], 3, 1⟩].getLast? = some m →
        1 ≤ m.triangle_count) :=
  C10_no_empty_meshlet_amended id (1/2) 64 126 [0, 1, 2] [(0,0,0), (0,0,0), (0,0,0)]
    [⟨(0,0,0,0), ⟨(0,0,0),0⟩, [], [], 0, 0⟩,
     ⟨(0,0,0,1), ⟨(0,0,0),0⟩, [0,1,2], [(0,1,2)], 3, 1⟩]
    (by
      simp [build_meshlets, build_meshlets_core, buildStep, maybeFlush, flushStep,
        insertCorner, chunks3, Meshlet.empty, triangle_normal, check_cone_next, coneLoop,
        avgOf, calc_cone, finalizeMeshlet, build_bounding_sphere, f32clamp, f32_0_1,
        f32_0_9, Vec3.ofTriple, Vec3.new, Vec3.zero, Vec3.add, Vec3.sub, Vec3.cross,
        Vec3.dot, Vec3.mulAdd, Vec3.normalized, Vec3.lenght, Vec3.distance, f32midpoint,
        f32MIN, f32MAX, Vec3.mk.injEq, min_def, max_def]
      norm_num [Vec3.add, Vec3.zero, Vec3.new, Vec3.mk.injEq, min_def, max_def, Vec3.dot,
        Vec3.mulAdd, Vec3.normalized, Vec3.lenght]
      all_goals decide)

lemma chunks3_append {α : Type} :
    ∀ (l1 l2 : List α), l1.length % 3 = 0 →
      chunks3 (l1 ++ l2) = chunks3 l1 ++ chunks3 l2
  | [], l2, _ => by simp [chunks3]
  | [a], _, h => by simp at h
  | [a, b], _, h => by simp at h
  | a :: b :: c :: rest, l2, h => by
    rw [List.cons_append, List.cons_append, List.cons_append, chunks3, chunks3,
      chunks3_append rest l2 (by simp at h; omega)]
    simp

lemma chunks3_corners {α : Type} :
    ∀ (l : List α) (f : α × α × α), f ∈ chunks3 l → f.1 ∈ l ∧ f.2.1 ∈ l ∧ f.2.2 ∈ l
  | [], f, h => by simp [chunks3] at h
  | [a], f, h => by simp [chunks3] at h
  | [a, b], f, h => by simp [chunks3] at h
  | a :: b :: c :: rest, f, h => by
    rw [chunks3] at h
    rcases List.mem_cons.mp h with rfl | h
    · refine ⟨List.mem_cons_self .., ?_, ?_⟩ <;> simp
    · obtain ⟨h1, h2, h3⟩ := chunks3_corners rest f h
      refine ⟨?_, ?_, ?_⟩ <;> simp [h1, h2, h3]

lemma chunks3_length {α : Type} :
    ∀ (l : List α), l.length % 3 = 0 → 3 * (chunks3 l).length = l.length
  | [], _ => by simp [chunks3]
  | [a], h => by simp at h
  | [a, b], h => by simp at h
  | a :: b :: c :: rest, h => by
    rw [chunks3, List.length_cons]
    have := chunks3_length rest (by simp at h; omega)
    simp only [List.length_cons]
    omega

lemma drainEmit_facts (l : List Tri) :
    ∀ cf out stack,
      (∀ v ∈ stack, v ∈ (drainEmit l (cf, out, stack)).2.2) ∧
      (∀ f ∈ cf, f ∈ (drainEmit l (cf, out, stack)).1) ∧
      (∀ f ∈ l, f ∈ (drainEmit l (cf, out, stack)).1) ∧
      (∀ f ∈ (drainEmit l (cf, out, stack)).1, f ∈ cf ∨ f ∈ l) ∧
      (cf.Nodup → (drainEmit l (cf, out, stack)).1.Nodup) ∧
      (chunks3 out = cf.reverse → out.length = 3 * cf.length →
        chunks3 (drainEmit l (cf, out, stack)).2.1 = (drainEmit l (cf, out, stack)).1.reverse ∧
        (drainEmit l (cf, out, stack)).2.1.length = 3 * (drainEmit l (cf, out, stack)).1.length) := by
  induction l with
  | nil =>
    intro cf out stack
    rw [drainEmit]
    exact ⟨fun v hv => hv, fun f hf => hf, fun f hf => absurd hf (List.not_mem_nil f),
      fun f hf => Or.inl hf, fun h => h, fun h1 h2 => ⟨h1, h2⟩⟩
  | cons g rest ih =>
    intro cf out stack
    rw [drainEmit]
    by_cases hg : g ∈ cf
    · rw [if_pos hg]
      obtain ⟨s1, s2, s3, s4, s5, s6⟩ := ih cf out stack
      refine ⟨s1, s2, ?_, ?_, s5, s6⟩
      · intro f hf
        rcases List.mem_cons.mp hf with rfl | hf
        · exact s2 f hg
        · exact s3 f hf
      · intro f hf
        rcases s4 f hf with hf | hf
        · exact Or.inl hf
        · exact Or.inr (List.mem_cons_of_mem g hf)
    · rw [if_neg hg]
      obtain ⟨s1, s2, s3, s4, s5, s6⟩ :=
        ih (g :: cf) (out ++ [g.1, g.2.1, g.2.2]) (g.2.2 :: g.2.1 :: g.1 :: stack)
      refine ⟨?_, ?_, ?_, ?_, ?_, ?_⟩
      · intro v hv
        exact s1 v (by simp [hv])
      · intro f hf
        exact s2 f (List.mem_cons_of_mem g hf)
      · intro f hf
        rcases List.mem_cons.mp hf with rfl | hf
        · exact s2 f (List.mem_cons_self ..)
        · exact s3 f hf
      · intro f hf
        rcases s4 f hf with hf | hf
        · rcases List.mem_cons.mp hf with rfl | hf
          · exact Or.inr (List.mem_cons_self ..)
          · exact Or.inl hf
        · exact Or.inr (List.mem_cons_of_mem g hf)
      · intro hnd
        exact s5 (List.nodup_cons.mpr ⟨hg, hnd⟩)
      · intro h1 h2
        refine s6 ?_ ?_
        · rw [chunks3_append _ _ (by omega), h1, chunks3]
          simp [chunks3]
        · simp only [List.length_append, List.length_cons]
          simp at h2 ⊢
          omega

lemma adjRemove_keys_sublist (m : AdjMap) (k : VertexTextureData) :
    List.Sublist ((adjRemove m k).map Prod.fst) (m.map Prod.fst) := by
  induction m with
  | nil => exact List.Sublist.refl _
  | cons e rest ih =>
    rw [adjRemove]
    by_cases hk : e.1 = k
    · obtain ⟨k', s⟩ := e
      rw [if_pos hk]
      exact (List.map Prod.fst rest).sublist_cons_self _
    · obtain ⟨k', s⟩ := e
      rw [if_neg hk, List.map_cons, List.map_cons]
      exact List.Sublist.cons₂ _ ih

lemma adjRemove_mem {m : AdjMap} {k : VertexTextureData} {e : VertexTextureData × List Tri}
    (h : e ∈ adjRemove m k) : e ∈ m := by
  induction m with
  | nil => rw [adjRemove] at h; cases h
  | cons e' rest ih =>
    rw [adjRemove] at h
    by_cases hk : e'.1 = k
    · obtain ⟨k', s⟩ := e'
      rw [if_pos hk] at h
      exact List.mem_cons_of_mem _ h
    · obtain ⟨k', s⟩ := e'
      rw [if_neg hk] at h
      rcases List.mem_cons.mp h with rfl | h
      · exact List.mem_cons_self ..
      · exact List.mem_cons_of_mem _ (ih h)

lemma adjGet_remove_ne {m : AdjMap} {k k' : VertexTextureData} (hne : k' ≠ k) :
    adjGet (adjRemove m k) k' = adjGet m k' := by
  induction m with
  | nil => rfl
  | cons e rest ih =>
    obtain ⟨k0, s⟩ := e
    rw [adjRemove, adjGet]
    by_cases h0 : k0 = k
    · rw [if_pos h0, if_neg (fun hx => hne (hx.symm.trans h0))]
    · rw [if_neg h0, adjGet]
      by_cases h1 : k0 = k'
      · rw [if_pos h1, if_pos h1]
      · rw [if_neg h1, if_neg h1, ih]

lemma adjGet_none_of_not_mem_keys {m : AdjMap} {k : VertexTextureData}
    (h : k ∉ m.map Prod.fst) : adjGet m k = none := by
  induction m with
  | nil => rfl
  | cons e rest ih =>
    obtain ⟨k0, s⟩ := e
    rw [List.map_cons] at h
    rw [adjGet]
    by_cases h0 : k0 = k
    · exact absurd (h0 ▸ List.mem_cons_self ..) h
    · rw [if_neg h0]
      exact ih (fun hx => h (List.mem_cons_of_mem _ hx))

lemma adjGet_remove_self {m : AdjMap} {k : VertexTextureData}
    (hnd : (m.map Prod.fst).Nodup) : adjGet (adjRemove m k) k = none := by
  induction m with
  | nil => rfl
  | cons e rest ih =>
    obtain ⟨k0, s⟩ := e
    rw [List.map_cons, List.nodup_cons] at hnd
    rw [adjRemove]
    by_cases h0 : k0 = k
    · rw [if_pos h0]
      exact adjGet_none_of_not_mem_keys (h0 ▸ hnd.1)
    · rw [if_neg h0, adjGet, if_neg h0]
      exact ih hnd.2

lemma adjInsert_keys (m : AdjMap) (k : VertexTextureData) (t : Tri) :
    (adjInsert m k t).map Prod.fst = m.map Prod.fst ∨
      (adjInsert m k t).map Prod.fst = m.map Prod.fst ++ [k] := by
  induction m with
  | nil => right; rfl
  | cons e rest ih =>
    obtain ⟨k0, s⟩ := e
    rw [adjInsert]
    by_cases h0 : k0 = k
    · rw [if_pos h0]
      left
      simp
    · rw [if_neg h0, List.map_cons, List.map_cons]
      rcases ih with ih | ih
      · left; rw [ih]
      · right; rw [ih]; rfl

lemma adjInsert_keys_nodup {m : AdjMap} {k : VertexTextureData} {t : Tri}
    (hnd : (m.map Prod.fst).Nodup) : ((adjInsert m k t).map Prod.fst).Nodup := by
  induction m with
  | nil => simp [adjInsert]
  | cons e rest ih =>
    obtain ⟨k0, s⟩ := e
    rw [List.map_cons, List.nodup_cons] at hnd
    rw [adjInsert]
    by_cases h0 : k0 = k
    · rw [if_pos h0]
      rw [List.map_cons, List.nodup_cons]
      exact hnd
    · rw [if_neg h0, List.map_cons, List.nodup_cons]
      refine ⟨?_, ih hnd.2⟩
      rcases adjInsert_keys rest k t with he | he
      · rw [he]; exact hnd.1
      · rw [he]
        intro hx
        rcases List.mem_append.mp hx with hx | hx
        · exact hnd.1 hx
        · rcases List.mem_singleton.mp hx with rfl
          exact h0 rfl

lemma adjInsert_mem_or {m : AdjMap} {k : VertexTextureData} {t : Tri}
    {e : VertexTextureData × List Tri} (h : e ∈ adjInsert m k t) :
    (∃ e' ∈ m, e.1 = e'.1 ∧ ∀ f ∈ e.2, f ∈ e'.2 ∨ f = t) ∨ (e.1 = k ∧ ∀ f ∈ e.2, f = t) := by
  induction m with
  | nil =>
    rw [adjInsert] at h
    rcases List.mem_singleton.mp h with rfl
    right
    exact ⟨rfl, fun f hf => List.mem_singleton.mp hf⟩
  | cons e0 rest ih =>
    obtain ⟨k0, s⟩ := e0
    rw [adjInsert] at h
    by_cases h0 : k0 = k
    · rw [if_pos h0] at h
      rcases List.mem_cons.mp h with rfl | h
      · left
        refine ⟨(k0, s), List.mem_cons_self .., rfl, ?_⟩
        intro f hf
        by_cases ht : t ∈ s
        · rw [if_pos ht] at hf; exact Or.inl hf
        · rw [if_neg ht] at hf
          rcases List.mem_append.mp hf with hf | hf
          · exact Or.inl hf
          · exact Or.inr (List.mem_singleton.mp hf)
      · left
        exact ⟨e, List.mem_cons_of_mem _ h, rfl, fun f hf => Or.inl hf⟩
    · rw [if_neg h0] at h
      rcases List.mem_cons.mp h with rfl | h
      · left
        exact ⟨(k0, s), List.mem_cons_self .., rfl, fun f hf => Or.inl hf⟩
      · rcases ih h with ⟨e', he', h1, h2⟩ | ⟨h1, h2⟩
        · left
          exact ⟨e', List.mem_cons_of_mem _ he', h1, h2⟩
        · right
          exact ⟨h1, h2⟩

lemma adjInsert_get_self (m : AdjMap) (k : VertexTextureData) (t : Tri) :
    ∃ s, adjGet (adjInsert m k t) k = some s ∧ t ∈ s := by
  induction m with
  | nil =>
    rw [adjInsert, adjGet, if_pos rfl]
    exact ⟨[t], rfl, List.mem_singleton.mpr rfl⟩
  | cons e rest ih =>
    obtain ⟨k0, s0⟩ := e
    rw [adjInsert]
    by_cases h0 : k0 = k
    · rw [if_pos h0, adjGet, if_pos h0]
      by_cases ht : t ∈ s0
      · rw [if_pos ht]; exact ⟨s0, rfl, ht⟩
      · rw [if_neg ht]
        exact ⟨s0 ++ [t], rfl, List.mem_append.mpr (Or.inr (List.mem_singleton.mpr rfl))⟩
    · rw [if_neg h0, adjGet, if_neg h0]
      exact ih

lemma adjInsert_get_mono {m : AdjMap} {v : VertexTextureData} {s : List Tri} {f : Tri}
    (hget : adjGet m v = some s) (hf : f ∈ s) (k : VertexTextureData) (t : Tri) :
    ∃ s', adjGet (adjInsert m k t) v = some s' ∧ f ∈ s' := by
  induction m with
  | nil => rw [adjGet] at hget; exact Option.noConfusion hget
  | cons e rest ih =>
    obtain ⟨k0, s0⟩ := e
    rw [adjGet] at hget
    rw [adjInsert]
    by_cases h0 : k0 = k
    · rw [if_pos h0, adjGet]
      by_cases h1 : k0 = v
      · rw [if_pos h1] at hget ⊢
        rw [Option.some_inj] at hget
        by_cases ht : t ∈ s0
        · rw [if_pos ht]
          exact ⟨s0, rfl, by rw [hget]; exact hf⟩
        · rw [if_neg ht]
          exact ⟨s0 ++ [t], rfl, List.mem_append.mpr (Or.inl (by rw [hget]; exact hf))⟩
      · rw [if_neg h1] at hget ⊢
        exact ⟨s, hget, hf⟩
    · rw [if_neg h0, adjGet]
      by_cases h1 : k0 = v
      · rw [if_pos h1] at hget ⊢
        rw [Option.some_inj] at hget
        exact ⟨s0, rfl, by rw [hget]; exact hf⟩
      · rw [if_neg h1] at hget ⊢
        exact ih hget

lemma adjGet_mem {m : AdjMap} {k : VertexTextureData} {s : List Tri}
    (h : adjGet m k = some s) : (k, s) ∈ m := by
  induction m with
  | nil => rw [adjGet] at h; exact Option.noConfusion h
  | cons e rest ih =>
    obtain ⟨k0, s0⟩ := e
    rw [adjGet] at h
    by_cases h0 : k0 = k
    · rw [if_pos h0, Option.some_inj] at h
      subst h0
      rw [h]
      exact List.mem_cons_self ..
    · rw [if_neg h0] at h
      exact List.mem_cons_of_mem _ (ih h)

/-- The per-face step of the adjacency-building pass. -/
lemma adjInsert_sound {P : Tri → Prop} {m : AdjMap} {k : VertexTextureData} {t : Tri}
    (hm : ∀ e ∈ m, ∀ f ∈ e.2, P f) (ht : P t) :
    ∀ e ∈ adjInsert m k t, ∀ f ∈ e.2, P f := by
  intro e he f hf
  rcases adjInsert_mem_or he with ⟨e', he', _, h2⟩ | ⟨_, h2⟩
  · rcases h2 f hf with h | rfl
    · exact hm e' he' f h
    · exact ht
  · rcases h2 f hf with rfl
    exact ht

lemma adjP_insert {m : AdjMap} {f : Tri} (h : AdjP m f) (k : VertexTextureData) (t : Tri) :
    AdjP (adjInsert m k t) f := by
  intro v hv
  obtain ⟨s, h1, h2⟩ := h v hv
  exact adjInsert_get_mono h1 h2 k t

lemma adjP_insert3_self (m : AdjMap) (g : Tri) :
    AdjP (adjInsert (adjInsert (adjInsert m g.1 g) g.2.1 g) g.2.2 g) g := by
  intro v hv
  rw [corners] at hv
  rcases List.mem_cons.mp hv with rfl | hv
  · obtain ⟨s1, h1, m1⟩ := adjInsert_get_self m g.1 g
    obtain ⟨s2, h2, m2⟩ := adjInsert_get_mono h1 m1 g.2.1 g
    exact adjInsert_get_mono h2 m2 g.2.2 g
  · rcases List.mem_cons.mp hv with rfl | hv
    · obtain ⟨s1, h1, m1⟩ := adjInsert_get_self (adjInsert m g.1 g) g.2.1 g
      exact adjInsert_get_mono h1 m1 g.2.2 g
    · rcases List.mem_cons.mp hv with rfl | hv
      · exact adjInsert_get_self (adjInsert (adjInsert m g.1 g) g.2.1 g) g.2.2 g
      · cases hv

lemma buildAdjacency_aux (faces : List Tri) :
    ∀ m : AdjMap,
      (∀ f, AdjP m f →
        AdjP (faces.foldl
          (fun m f => adjInsert (adjInsert (adjInsert m f.1 f) f.2.1 f) f.2.2 f) m) f) ∧
      (∀ f ∈ faces,
        AdjP (faces.foldl
          (fun m f => adjInsert (adjInsert (adjInsert m f.1 f) f.2.1 f) f.2.2 f) m) f) := by
  induction faces with
  | nil =>
    intro m
    exact ⟨fun f hf => hf, fun f hf => absurd hf (List.not_mem_nil f)⟩
  | cons g rest ih =>
    intro m
    rw [List.foldl_cons]
    constructor
    · intro f hf
      exact (ih _).1 f (adjP_insert (adjP_insert (adjP_insert hf g.1 g) g.2.1 g) g.2.2 g)
    · intro f hf
      rcases List.mem_cons.mp hf with rfl | hf
      · exact (ih _).1 f (adjP_insert3_self m f)
      · exact (ih _).2 f hf

lemma buildAdjacency_perCorner {faces : List Tri} :
    ∀ f ∈ faces, AdjP (buildAdjacency faces) f := by
  intro f hf
  exact (buildAdjacency_aux faces []).2 f hf

lemma buildAdjacency_keys_nodup (faces : List Tri) :
    ((buildAdjacency faces).map Prod.fst).Nodup := by
  rw [buildAdjacency]
  have : ∀ m : AdjMap, (m.map Prod.fst).Nodup →
      ((faces.foldl
        (fun m f => adjInsert (adjInsert (adjInsert m f.1 f) f.2.1 f) f.2.2 f) m).map
        Prod.fst).Nodup := by
    induction faces with
    | nil => intro m hm; exact hm
    | cons g rest ih =>
      intro m hm
      rw [List.foldl_cons]
      exact ih _ (adjInsert_keys_nodup (adjInsert_keys_nodup (adjInsert_keys_nodup hm)))
  exact this [] List.nodup_nil

lemma buildAdjacency_sound {faces : List Tri} :
    ∀ e ∈ buildAdjacency faces, ∀ f ∈ e.2, f ∈ faces := by
  rw [buildAdjacency]
  have : ∀ (l : List Tri) (m : AdjMap), (∀ f ∈ l, f ∈ faces) →
      (∀ e ∈ m, ∀ f ∈ e.2, f ∈ faces) →
      ∀ e ∈ l.foldl (fun m f => adjInsert (adjInsert (adjInsert m f.1 f) f.2.1 f) f.2.2 f) m,
        ∀ f ∈ e.2, f ∈ faces := by
    intro l
    induction l with
    | nil => intro m _ hm; exact hm
    | cons g rest ih =>
      intro m hl hm
      rw [List.foldl_cons]
      refine ih _ (fun f hf => hl f (List.mem_cons_of_mem g hf)) ?_
      have hg : g ∈ faces := hl g (List.mem_cons_self ..)
      exact adjInsert_sound (adjInsert_sound (adjInsert_sound hm hg) hg) hg
  exact this faces [] (fun f hf => hf) (fun e he => absurd he (List.not_mem_nil e))

/-- What one iteration's processing phase establishes. -/
lemma processCurrent_inv {faces₀ : List Tri} {adj : AdjMap} {cf : List Tri}
    {out stack rem : List VertexTextureData} {current : VertexTextureData}
    (hinv : OptInv faces₀ adj cf out stack rem current) :
    ((adjRemove adj current).map Prod.fst).Nodup ∧
    (∀ e ∈ adjRemove adj current, ∀ f ∈ e.2, f ∈ faces₀) ∧
    (∀ f ∈ (processCurrent adj cf out stack current).1, f ∈ faces₀) ∧
    chunks3 (processCurrent adj cf out stack current).2.1 =
      (processCurrent adj cf out stack current).1.reverse ∧
    (processCurrent adj cf out stack current).2.1.length =
      3 * (processCurrent adj cf out stack current).1.length ∧
    (processCurrent adj cf out stack current).1.Nodup ∧
    (∀ f ∈ faces₀, ∀ v ∈ corners f, f ∈ (processCurrent adj cf out stack current).1 ∨
      ∃ s, adjGet (adjRemove adj current) v = some s ∧ f ∈ s) ∧
    (∀ f ∈ faces₀, f ∈ (processCurrent adj cf out stack current).1 ∨
      ∃ v ∈ corners f, v ∈ (processCurrent adj cf out stack current).2.2 ∨ v ∈ rem) := by
  have hknd := (adjRemove_keys_sublist adj current).nodup hinv.keysNodup
  have hsnd : ∀ e ∈ adjRemove adj current, ∀ f ∈ e.2, f ∈ faces₀ :=
    fun e he => hinv.adjSound e (adjRemove_mem he)
  rw [processCurrent]
  cases hget : adjGet adj current with
  | none =>
    refine ⟨hknd, hsnd, hinv.cfSound, hinv.outChunks, hinv.outLen, hinv.cfNodup, ?_, ?_⟩
    · intro f hf v hv
      rcases hinv.perCorner f hf v hv with h | ⟨s, h1, h2⟩
      · exact Or.inl h
      · by_cases hvc : v = current
        · rw [hvc, hget] at h1
          exact Option.noConfusion h1
        · exact Or.inr ⟨s, (adjGet_remove_ne hvc).trans h1, h2⟩
    · intro f hf
      rcases hinv.reachable f hf with h | ⟨v, hv, hc⟩
      · exact Or.inl h
      · rcases hc with rfl | hc | hc
        · rcases hinv.perCorner f hf v hv with h | ⟨s, h1, _⟩
          · exact Or.inl h
          · rw [hget] at h1
            exact Option.noConfusion h1
        · exact Or.inr ⟨v, hv, Or.inl hc⟩
        · exact Or.inr ⟨v, hv, Or.inr hc⟩
  | some faces =>
    obtain ⟨s1, s2, s3, s4, s5, s6⟩ := drainEmit_facts faces cf out stack
    obtain ⟨c1, c2⟩ := s6 hinv.outChunks hinv.outLen
    have hfaces : ∀ f ∈ faces, f ∈ faces₀ :=
      fun f hf => hinv.adjSound (current, faces) (adjGet_mem hget) f hf
    refine ⟨hknd, hsnd, ?_, c1, c2, s5 hinv.cfNodup, ?_, ?_⟩
    · intro f hf
      rcases s4 f hf with h | h
      · exact hinv.cfSound f h
      · exact hfaces f h
    · intro f hf v hv
      rcases hinv.perCorner f hf v hv with h | ⟨s, h1, h2⟩
      · exact Or.inl (s2 f h)
      · by_cases hvc : v = current
        · rw [hvc, hget, Option.some_inj] at h1
          subst h1
          exact Or.inl (s3 f h2)
        · exact Or.inr ⟨s, (adjGet_remove_ne hvc).trans h1, h2⟩
    · intro f hf
      rcases hinv.reachable f hf with h | ⟨v, hv, hc⟩
      · exact Or.inl (s2 f h)
      · rcases hc with rfl | hc | hc
        · rcases hinv.perCorner f hf v hv with h | ⟨s, h1, h2⟩
          · exact Or.inl (s2 f h)
          · rw [hget, Option.some_inj] at h1
            subst h1
            exact Or.inl (s3 f h2)
        · exact Or.inr ⟨v, hv, Or.inl (s1 v hc)⟩
        · exact Or.inr ⟨v, hv, Or.inr hc⟩

/-- The main loop emits exactly the distinct input triangles. -/
lemma optLoop_spec (faces₀ : List Tri) (adj : AdjMap) (cf : List Tri)
    (out stack rem : List VertexTextureData) (current : VertexTextureData) :
    OptInv faces₀ adj cf out stack rem current →
    ∃ cf' : List Tri,
      (∀ f ∈ cf', f ∈ faces₀) ∧ (∀ f ∈ faces₀, f ∈ cf') ∧ cf'.Nodup ∧
      chunks3 (optLoop adj cf out stack rem current) = cf'.reverse ∧
      (optLoop adj cf out stack rem current).length = 3 * cf'.length := by
  induction adj, cf, out, stack, rem, current using optLoop.induct with
  | case1 adj cf out stack current s1 a1 hs v rem' ihm =>
    intro hinv
    obtain ⟨p1, p2, p3, p4, p5, p6, p7, p8⟩ := processCurrent_inv hinv
    have hs' : (processCurrent adj cf out stack current).2.2 = [] := hs
    have hstep : optLoop adj cf out stack (v :: rem') current =
        optLoop (adjRemove adj current) (processCurrent adj cf out stack current).1
          (processCurrent adj cf out stack current).2.1 [] rem' v := by
      rw [optLoop.eq_def, dif_pos hs']
    rw [hstep]
    refine ihm ⟨p1, p2, p3, p4, p5, p6, p7, ?_⟩
    intro f hf
    rcases p8 f hf with h | ⟨w, hw, hc | hc⟩
    · exact Or.inl h
    · rw [hs'] at hc
      cases hc
    · rcases List.mem_cons.mp hc with rfl | hc
      · exact Or.inr ⟨w, hw, Or.inl rfl⟩
      · exact Or.inr ⟨w, hw, Or.inr (Or.inr hc)⟩
  | case2 adj cf out stack current s1 hs =>
    intro hinv
    obtain ⟨p1, p2, p3, p4, p5, p6, p7, p8⟩ := processCurrent_inv hinv
    have hs' : (processCurrent adj cf out stack current).2.2 = [] := hs
    have hstep : optLoop adj cf out stack [] current =
        (processCurrent adj cf out stack current).2.1 := by
      rw [optLoop.eq_def, dif_pos hs']
    rw [hstep]
    refine ⟨(processCurrent adj cf out stack current).1, p3, ?_, p6, p4, p5⟩
    intro f hf
    rcases p8 f hf with h | ⟨w, _, hc | hc⟩
    · exact h
    · rw [hs'] at hc
      cases hc
    · cases hc
  | case3 adj cf out stack rem current s1 a1 hne ihm =>
    intro hinv
    obtain ⟨p1, p2, p3, p4, p5, p6, p7, p8⟩ := processCurrent_inv hinv
    have hne' : ¬ (processCurrent adj cf out stack current).2.2 = [] := hne
    have hstep : optLoop adj cf out stack rem current =
        optLoop (adjRemove adj current) (processCurrent adj cf out stack current).1
          (processCurrent adj cf out stack current).2.1
          (processCurrent adj cf out stack current).2.2.tail rem
          ((processCurrent adj cf out stack current).2.2.head hne') := by
      rw [optLoop.eq_def, dif_neg hne']
    rw [hstep]
    refine ihm ⟨p1, p2, p3, p4, p5, p6, p7, ?_⟩
    intro f hf
    rcases p8 f hf with h | ⟨w, hw, hc | hc⟩
    · exact Or.inl h
    · rw [← List.head_cons_tail _ hne'] at hc
      rcases List.mem_cons.mp hc with hc1 | hc
      · exact Or.inr ⟨w, hw, Or.inl hc1⟩
      · exact Or.inr ⟨w, hw, Or.inr (Or.inl hc)⟩
    · exact Or.inr ⟨w, hw, Or.inr (Or.inr hc)⟩

/-- C7: for an input whose length is a multiple of 3,
`optimize_vertex_order` returns (without panicking) an output whose
length is a multiple of 3 and at most the input length; the distinct
triangles (aligned triples) of the output are exactly those of the
input, and each distinct triangle is emitted exactly once (the output
triple list has no duplicates). -/
theorem C7_optimize_vertex_order_distinct_triangles
    (vertices out : List VertexTextureData)
    (hmul : vertices.length % 3 = 0)
    (h : optimize_vertex_order vertices = some out) :
    out.length % 3 = 0 ∧ out.length ≤ vertices.length ∧
    (∀ t : Tri, t ∈ chunks3 out ↔ t ∈ chunks3 vertices) ∧
    (chunks3 out).Nodup := by
  rw [optimize_vertex_order] at h
  by_cases hempty : vertices = []
  · rw [if_pos hempty, Option.some_inj] at h
    subst h
    subst hempty
    refine ⟨rfl, le_refl _, fun t => Iff.rfl, List.nodup_nil⟩
  · rw [if_neg hempty, if_neg (by simp [hmul])] at h
    rw [Option.some_inj] at h
    have hcur : vertices.getLast?.getD ⟨0, ⟨(0,0,0), none, none, none⟩⟩
        = vertices.getLast hempty := by
      rw [List.getLast?_eq_getLast vertices hempty]
      rfl
    have hinit : OptInv (chunks3 vertices) (buildAdjacency (chunks3 vertices)) [] [] []
        vertices.dropLast.reverse
        (vertices.getLast?.getD ⟨0, ⟨(0,0,0), none, none, none⟩⟩) := by
      refine ⟨buildAdjacency_keys_nodup _, fun e he => buildAdjacency_sound e he,
        fun f hf => absurd hf (List.not_mem_nil f), rfl, rfl, List.nodup_nil, ?_, ?_⟩
      · intro f hf v hv
        exact Or.inr (buildAdjacency_perCorner f hf v hv)
      · intro f hf
        right
        refine ⟨f.1, List.mem_cons_self .., ?_⟩
        have hmem : f.1 ∈ vertices := (chunks3_corners vertices f hf).1
        rw [← List.dropLast_concat_getLast hempty] at hmem
        rcases List.mem_append.mp hmem with hm | hm
        · exact Or.inr (Or.inr (List.mem_reverse.mpr hm))
        · rcases List.mem_singleton.mp hm with hm
          rw [hcur, hm]
          exact Or.inl rfl
    obtain ⟨cf', c1, c2, c3, c4, c5⟩ := optLoop_spec (chunks3 vertices) _ _ _ _ _ _ hinit
    rw [h] at c4 c5
    have hlen : cf'.length ≤ (chunks3 vertices).length := by
      calc cf'.length = cf'.toFinset.card := (List.toFinset_card_of_nodup c3).symm
      _ ≤ (chunks3 vertices).toFinset.card :=
        Finset.card_le_card
          (fun x hx => List.mem_toFinset.mpr (c1 x (List.mem_toFinset.mp hx)))
      _ ≤ (chunks3 vertices).length := (chunks3 vertices).toFinset_card_le
    refine ⟨?_, ?_, ?_, ?_⟩
    · omega
    · have := chunks3_length vertices hmul
      omega
    · intro t
      rw [c4, List.mem_reverse]
      exact ⟨fun ht => c1 t ht, fun ht => c2 t ht⟩
    · rw [c4]
      exact List.nodup_reverse.mpr c3

/-- C7 witness: the same triangle given twice (six records) is emitted
exactly once — the output holds three records. -/
theorem C7_optimize_vertex_order_witness :
    ([⟨0, ⟨(0,0,0), none, none, none⟩⟩, ⟨1, ⟨(0,0,0), none, none, none⟩⟩,
      (⟨2, ⟨(0,0,0), none, none, none⟩⟩ : VertexTextureData)].length % 3 = 0 ∧
     [⟨0, ⟨(0,0,0), none, none, none⟩⟩, ⟨1, ⟨(0,0,0), none, none, none⟩⟩,
      (⟨2, ⟨(0,0,0), none, none, none⟩⟩ : VertexTextureData)].length ≤
       [⟨0, ⟨(0,0,0), none, none, none⟩⟩, ⟨1, ⟨(0,0,0), none, none, none⟩⟩,
        ⟨2, ⟨(0,0,0), none, none, none⟩⟩, ⟨0, ⟨(0,0,0), none, none, none⟩⟩,
        ⟨1, ⟨(0,0,0), none, none, none⟩⟩,
        (⟨2, ⟨(0,0,0), none, none, none⟩⟩ : VertexTextureData)].length ∧
     (∀ t : Tri,
        t ∈ chunks3 [⟨0, ⟨(0,0,0), none, none, none⟩⟩, ⟨1, ⟨(0,0,0), none, none, none⟩⟩,
          (⟨2, ⟨(0,0,0), none, none, none⟩⟩ : VertexTextureData)] ↔
        t ∈ chunks3 [⟨0, ⟨(0,0,0), none, none, none⟩⟩, ⟨1, ⟨(0,0,0), none, none, none⟩⟩,
          ⟨2, ⟨(0,0,0), none, none, none⟩⟩, ⟨0, ⟨(0,0,0), none, none, none⟩⟩,
          ⟨1, ⟨(0,0,0), none, none, none⟩⟩,
          (⟨2, ⟨(0,0,0), none, none, none⟩⟩ : VertexTextureData)]) ∧
     (chunks3 [⟨0, ⟨(0,0,0), none, none, none⟩⟩, ⟨1, ⟨(0,0,0), none, none, none⟩⟩,
        (⟨2, ⟨(0,0,0), none, none, none⟩⟩ : VertexTextureData)]).Nodup) :=
  C7_optimize_vertex_order_distinct_triangles
    [⟨0, ⟨(0,0,0), none, none, none⟩⟩, ⟨1, ⟨(0,0,0), none, none, none⟩⟩,
     ⟨2, ⟨(0,0,0), none, none, none⟩⟩, ⟨0, ⟨(0,0,0), none, none, none⟩⟩,
     ⟨1, ⟨(0,0,0), none, none, none⟩⟩, ⟨2, ⟨(0,0,0), none, none, none⟩⟩]
    [⟨0, ⟨(0,0,0), none, none, none⟩⟩, ⟨1, ⟨(0,0,0), none, none, none⟩⟩,
     ⟨2, ⟨(0,0,0), none, none, none⟩⟩]
    (by decide)
    (by
      simp [optimize_vertex_order, optLoop, processCurrent, drainEmit, adjGet, adjRemove,
        buildAdjacency, adjInsert, chunks3, VertexTextureData.mk.injEq, VertexData.mk.injEq,
        Prod.mk.injEq])

/-- A trimmed line matching the `[b's', b' ', ..]` pattern is the
`todo!("smooth")` arm of `parse_line`, whatever the running counts. -/
lemma parse_line_smooth {l : String} {rest : List Char}
    (h : myTrim l.data = 's' :: ' ' :: rest) (v t n : ℕ) :
    parse_line l v t n = .panic "not yet implemented: smooth" := by
  unfold parse_line
  rw [h]
  rfl

/-- A parse loop whose remaining input holds a smoothing-group line
never returns `Ok`. -/
lemma parseLoop_smooth :
    ∀ (lines : List String) (st : ParseState),
      (∃ l ∈ lines, ∃ rest, myTrim l.data = 's' :: ' ' :: rest) →
      ∀ st', parseLoop lines st ≠ .ok st'
  | [], _, h, _ => by simp at h
  | l0 :: rest, st, h, st' => by
    rcases h with ⟨l, hl, hrest⟩
    rcases List.mem_cons.mp hl with rfl | hl'
    · rcases hrest with ⟨r, hr⟩
      intro hc
      rw [parseLoop] at hc
      unfold parseStep at hc
      simp only [parse_line_smooth hr] at hc
      exact PResult.noConfusion hc
    · intro hc
      rw [parseLoop] at hc
      cases hps : parseStep st l0 with
      | err e => rw [hps] at hc; exact PResult.noConfusion hc
      | panic m => rw [hps] at hc; exact PResult.noConfusion hc
      | ok st1 =>
        rw [hps] at hc
        exact parseLoop_smooth rest st1 ⟨l, hl', hrest⟩ st' hc

/-- C4 counterexample: on the single line `s 1` the parse does not
return an error value — it panics (the `s ` arm of `parse_line` is
`todo!("smooth")`), so the claim's "returns an error value as its
result" does not describe the code. -/
theorem C4_counterexample_smoothing_panics :
    ObjObject.parse ["s 1"] = .panic "not yet implemented: smooth" ∧
    ∀ e : PError, ObjObject.parse ["s 1"] ≠ .err e := by
  have h : ObjObject.parse ["s 1"] = .panic "not yet implemented: smooth" := by decide
  exact ⟨h, fun e he => PResult.noConfusion (h ▸ he)⟩

/-- C4 (amended): for every input stream containing a line whose
trimmed form starts with `s` followed by a space, `ObjObject::parse`
never succeeds — the smoothing-group arm is `todo!("smooth")`, a panic,
so the parse aborts there (or on an earlier line's error) rather than
returning a parsed object. -/
theorem C4_smoothing_group_never_succeeds (lines : List String)
    (h : ∃ l ∈ lines, ∃ rest, myTrim l.data = 's' :: ' ' :: rest)
    (o : ObjObject) : ObjObject.parse lines ≠ .ok o := by
  intro hc
  simp only [ObjObject.parse] at hc
  cases hl : parseLoop lines
      { verticies := [], vertex_colors := [], vertex_normals := [], texture_coords := []
        faces := [], groups := [], objects := []
        current_group := GroupingData.default, current_object := GroupingData.default } with
  | err e => rw [hl] at hc; exact PResult.noConfusion hc
  | panic m => rw [hl] at hc; exact PResult.noConfusion hc
  | ok st => exact parseLoop_smooth lines _ h st hl

/-- C4 witness: the amended theorem applied to the concrete stream
`["s off"]`. -/
theorem C4_smoothing_group_never_succeeds_witness :
    ObjObject.parse ["s off"] ≠
      .ok { verticies := [], vertex_colors := [], vertex_normals := [], texture_coords := []
            faces := [], groups := [], objects := [] } :=
  C4_smoothing_group_never_succeeds ["s off"]
    ⟨"s off", by decide, ['o', 'f', 'f'], by decide⟩ _

/-- C8 counterexample: a negative index `-k` with `k > count + 1` does
not resolve to `count - k + 1` (a negative number) — the `as u32` cast
wraps it modulo `2^32`.  A face whose nine slash-separated corner
entries are all `-5`, read when all running counts are `0`, stores
`4294967292`, not `0 - 5 + 1 = -4`. -/
theorem C8_counterexample_negative_underflow :
    parsedFaces ["f -5/-5/-5 -5/-5/-5 -5/-5/-5"]
      = some [⟨(4294967292, 4294967292, 4294967292),
              some (4294967292, 4294967292, 4294967292),
              some (4294967292, 4294967292, 4294967292)⟩] ∧
    parsedCounts ["f -5/-5/-5 -5/-5/-5 -5/-5/-5"] = some (0, 0, 0) ∧
    (0 : ℤ) - 5 + 1 ≠ 4294967292 :=
  ⟨by decide, by decide, by decide⟩

/-- C8 (amended): a negative face-corner index `-k` resolves to
`(count - k + 1) mod 2^32` (the `(count as i32 + (i + 1)) as u32`
cast), which equals `count - k + 1` exactly when `k ≤ count + 1`; zero
or positive indices are stored as written.  A face whose three corners
carry `-1`, `-2`, `-3` in every slot, read when all three running
counts are 5, stores indices `(5,4,3)` for vertices, texcoords and
normals alike. -/
theorem C8_negative_index_resolution (count k : ℕ) (i : ℤ)
    (h1 : count < 2 ^ 31) (h2 : 1 ≤ k) (h3 : k ≤ 2 ^ 31) (h4 : 0 ≤ i) :
    (resolveIndex count (-(k : ℤ)) : ℤ) = ((count : ℤ) - k + 1) % 2 ^ 32 ∧
    (k ≤ count + 1 → (resolveIndex count (-(k : ℤ)) : ℤ) = (count : ℤ) - k + 1) ∧
    resolveIndex count i = i.toNat ∧
    parsedFaces ["v 0 0 0", "v 0 0 0", "v 0 0 0", "v 0 0 0", "v 0 0 0",
      "vt 0 0", "vt 0 0", "vt 0 0", "vt 0 0", "vt 0 0",
      "vn 0 0 1", "vn 0 0 1", "vn 0 0 1", "vn 0 0 1", "vn 0 0 1",
      "f -1/-1/-1 -2/-2/-2 -3/-3/-3"]
      = some [⟨(5, 4, 3), some (5, 4, 3), some (5, 4, 3)⟩] := by
  have hneg : (-(k : ℤ)) < 0 := by omega
  have hmod : (count : ℕ) % 2 ^ 32 = count := Nat.mod_eq_of_lt (by omega)
  have hiu : i32_of_u32 count = (count : ℤ) := by
    unfold i32_of_u32
    rw [hmod]
    rw [if_pos (by exact_mod_cast h1)]
  have hmain : (resolveIndex count (-(k : ℤ)) : ℤ) = ((count : ℤ) - k + 1) % 2 ^ 32 := by
    unfold resolveIndex
    rw [if_pos hneg, hiu]
    unfold u32_of_i32
    rw [Int.toNat_of_nonneg (Int.emod_nonneg _ (by norm_num))]
    ring_nf
  refine ⟨hmain, ?_, ?_, by decide⟩
  · intro hk
    rw [hmain, Int.emod_eq_of_lt (by omega) (by omega)]
  · unfold resolveIndex
    rw [if_neg (not_lt.mpr h4)]

/-- A successful `parseI32` is within the `i32` range. -/
lemma parseI32_range {s : List Char} {v : ℤ} (h : parseI32 s = some v) :
    -(2 ^ 31) ≤ v ∧ v ≤ 2 ^ 31 - 1 := by
  unfold parseI32 at h
  split at h
  split at h
  · split at h
    · rename_i hrange
      obtain rfl := Option.some.inj h
      exact hrange
    · exact Option.noConfusion h
  · exact Option.noConfusion h

/-- Whatever the count, a resolved index is a `u32` value, provided the
raw index is at most `2^31 - 1` (which `parseI32` guarantees). -/
lemma resolveIndex_lt {count : ℕ} {i : ℤ} (h : i ≤ 2 ^ 31 - 1) :
    resolveIndex count i < 2 ^ 32 := by
  unfold resolveIndex
  split
  · unfold u32_of_i32
    have h1 : (i32_of_u32 count + (i + 1)) % 2 ^ 32 < 2 ^ 32 :=
      Int.emod_lt_of_pos _ (by norm_num)
    have h2 : (0 : ℤ) ≤ (i32_of_u32 count + (i + 1)) % 2 ^ 32 :=
      Int.emod_nonneg _ (by norm_num)
    omega
  · omega

/-- Every component of a successful `parse_single` is a `u32` value. -/
lemma parse_single_bounds {data : List Char} {v t n : ℕ} {r : ℕ × Option ℕ × Option ℕ}
    (h : parse_single data v t n = .ok r) :
    r.1 < 2 ^ 32 ∧ (∀ x, r.2.1 = some x → x < 2 ^ 32) ∧
      (∀ x, r.2.2 = some x → x < 2 ^ 32) := by
  unfold parse_single at h
  split at h
  · exact PResult.noConfusion h
  rename_i s1 rest1 hsplit
  cases hi0 : parseI32 s1 with
  | none => rw [hi0] at h; exact PResult.noConfusion h
  | some i0 =>
  rw [hi0] at h
  try dsimp only [] at h
  have hb0 := @resolveIndex_lt v _ (parseI32_range hi0).2
  split at h
  · obtain rfl := PResult.ok.inj h
    exact ⟨hb0, by simp, by simp⟩
  rename_i s2 rest2
  by_cases hs2 : s2 = []
  · rw [if_pos hs2] at h
    try dsimp only [] at h
    split at h
    · obtain rfl := PResult.ok.inj h
      exact ⟨hb0, by simp, by simp⟩
    rename_i s3 rest3
    cases hn0 : parseI32 s3 with
    | none => rw [hn0] at h; exact PResult.noConfusion h
    | some n0 =>
    rw [hn0] at h
    try dsimp only [] at h
    obtain rfl := PResult.ok.inj h
    refine ⟨hb0, by simp, ?_⟩
    intro x hx
    obtain rfl := Option.some.inj hx
    exact resolveIndex_lt (parseI32_range hn0).2
  · rw [if_neg hs2] at h
    cases ht0 : parseI32 s2 with
    | none => rw [ht0] at h; exact PResult.noConfusion h
    | some t0 =>
    rw [ht0] at h
    try dsimp only [] at h
    have htb : ∀ x, (some (resolveIndex t t0) : Option ℕ) = some x → x < 2 ^ 32 := by
      intro x hx
      obtain rfl := Option.some.inj hx
      exact resolveIndex_lt (parseI32_range ht0).2
    split at h
    · obtain rfl := PResult.ok.inj h
      exact ⟨hb0, htb, by simp⟩
    rename_i s3 rest3
    cases hn0 : parseI32 s3 with
    | none => rw [hn0] at h; exact PResult.noConfusion h
    | some n0 =>
    rw [hn0] at h
    try dsimp only [] at h
    obtain rfl := PResult.ok.inj h
    refine ⟨hb0, htb, ?_⟩
    intro x hx
    obtain rfl := Option.some.inj hx
    exact resolveIndex_lt (parseI32_range hn0).2

/-- Bounds carried through the attribute-uniformity check of
`parse_face`. -/
lemma uniform3_bounds {a b c : Option ℕ} {res : Option (ℕ × ℕ × ℕ)}
    (ha : ∀ x, a = some x → x < 2 ^ 32) (hb : ∀ x, b = some x → x < 2 ^ 32)
    (hc : ∀ x, c = some x → x < 2 ^ 32)
    (h : uniform3 a b c = .ok res) :
    ∀ x, res = some x → x.1 < 2 ^ 32 ∧ x.2.1 < 2 ^ 32 ∧ x.2.2 < 2 ^ 32 := by
  unfold uniform3 at h
  cases a <;> cases b <;> cases c <;> dsimp only [] at h
  all_goals
    first
      | exact PResult.noConfusion h
      | (obtain rfl := PResult.ok.inj h
         intro x hx
         first
           | exact Option.noConfusion hx
           | (obtain rfl := Option.some.inj hx
              exact ⟨ha _ rfl, hb _ rfl, hc _ rfl⟩))

/-- Bounds carried through the fourth-corner `unwrap` of `parse_face`. -/
lemma unwrap4_bounds {base : Option (ℕ × ℕ × ℕ)} {d : Option ℕ}
    {res : Option (ℕ × ℕ × ℕ × ℕ)}
    (hbase : ∀ x, base = some x → x.1 < 2 ^ 32 ∧ x.2.1 < 2 ^ 32 ∧ x.2.2 < 2 ^ 32)
    (hd : ∀ x, d = some x → x < 2 ^ 32)
    (h : unwrap4 base d = .ok res) :
    ∀ x, res = some x →
      x.1 < 2 ^ 32 ∧ x.2.1 < 2 ^ 32 ∧ x.2.2.1 < 2 ^ 32 ∧ x.2.2.2 < 2 ^ 32 := by
  unfold unwrap4 at h
  cases base with
  | none =>
    dsimp only [] at h
    obtain rfl := PResult.ok.inj h
    intro x hx
    exact Option.noConfusion hx
  | some m =>
    obtain ⟨m1, m2, m3⟩ := m
    cases d with
    | none => dsimp only [] at h; exact PResult.noConfusion h
    | some m4 =>
      dsimp only [] at h
      obtain rfl := PResult.ok.inj h
      intro x hx
      obtain rfl := Option.some.inj hx
      have hm := hbase _ rfl
      exact ⟨hm.1, hm.2.1, hm.2.2, hd _ rfl⟩

/-- Every index component of a successful `parse_face` is a `u32`
value, in both returned faces. -/
lemma parse_face_bounds {data : List Char} {v t n : ℕ} {f1 : FaceData}
    {of2 : Option FaceData} (h : parse_face data v t n = .ok (f1, of2)) :
    FaceBound f1 ∧ ∀ f2, of2 = some f2 → FaceBound f2 := by
  unfold parse_face at h
  split at h
  · exact PResult.noConfusion h
  rename_i s1 rest1 hsplit
  cases h1 : parse_single s1 v t n with
  | err e => rw [h1] at h; exact PResult.noConfusion h
  | panic m => rw [h1] at h; exact PResult.noConfusion h
  | ok r1 =>
  rw [h1] at h
  obtain ⟨i1, t1, n1⟩ := r1
  obtain ⟨hb1, ht1, hn1⟩ := parse_single_bounds h1
  try dsimp only [] at h
  split at h
  · exact PResult.noConfusion h
  rename_i s2 rest2
  cases h2 : parse_single s2 v t n with
  | err e => rw [h2] at h; exact PResult.noConfusion h
  | panic m => rw [h2] at h; exact PResult.noConfusion h
  | ok r2 =>
  rw [h2] at h
  obtain ⟨i2, t2, n2⟩ := r2
  obtain ⟨hb2, ht2, hn2⟩ := parse_single_bounds h2
  try dsimp only [] at h
  split at h
  · exact PResult.noConfusion h
  rename_i s3 rest3
  cases h3 : parse_single s3 v t n with
  | err e => rw [h3] at h; exact PResult.noConfusion h
  | panic m => rw [h3] at h; exact PResult.noConfusion h
  | ok r3 =>
  rw [h3] at h
  obtain ⟨i3, t3, n3⟩ := r3
  obtain ⟨hb3, ht3, hn3⟩ := parse_single_bounds h3
  try dsimp only [] at h
  split at h
  · exact PResult.noConfusion h
  · exact PResult.noConfusion h
  rename_i normal hnr
  have hnormal := uniform3_bounds hn1 hn2 hn3 hnr
  split at h
  · exact PResult.noConfusion h
  · exact PResult.noConfusion h
  rename_i texture htr
  have htexture := uniform3_bounds ht1 ht2 ht3 htr
  split at h
  · -- three corners: one face
    obtain ⟨rfl, rfl⟩ := Prod.mk.injEq _ _ _ _ ▸ PResult.ok.inj h
    refine ⟨⟨hb1, hb2, hb3, ?_, ?_⟩, ?_⟩
    · intro x hx
      exact htexture x hx
    · intro x hx
      exact hnormal x hx
    · intro f2 hf2
      exact Option.noConfusion hf2
  · -- four or more corners
    rename_i s4 rest4
    cases h4 : parse_single s4 v t n with
    | err e => rw [h4] at h; exact PResult.noConfusion h
    | panic m => rw [h4] at h; exact PResult.noConfusion h
    | ok r4 =>
    rw [h4] at h
    obtain ⟨i4, t4, n4⟩ := r4
    obtain ⟨hb4, ht4, hn4⟩ := parse_single_bounds h4
    try dsimp only [] at h
    split at h
    · exact PResult.noConfusion h
    · exact PResult.noConfusion h
    rename_i normals hns
    have hnormals := unwrap4_bounds hnormal hn4 hns
    split at h
    · exact PResult.noConfusion h
    · exact PResult.noConfusion h
    rename_i textures hts
    have htextures := unwrap4_bounds htexture ht4 hts
    obtain ⟨rfl, rfl⟩ := Prod.mk.injEq _ _ _ _ ▸ PResult.ok.inj h
    constructor
    · refine ⟨hb1, hb2, hb3, ?_, ?_⟩
      · intro x hx
        unfold triangulate at hx
        cases hct : textures with
        | none => rw [hct] at hx; exact absurd hx (by simp)
        | some ct =>
          rw [hct] at hx
          obtain ⟨c1, c2, c3, c4⟩ := ct
          obtain rfl := Option.some.inj hx
          have hc := htextures _ hct
          exact ⟨hc.1, hc.2.1, hc.2.2.1⟩
      · intro x hx
        unfold triangulate at hx
        cases hcn : normals with
        | none => rw [hcn] at hx; exact absurd hx (by simp)
        | some cn =>
          rw [hcn] at hx
          obtain ⟨c1, c2, c3, c4⟩ := cn
          obtain rfl := Option.some.inj hx
          have hc := hnormals _ hcn
          exact ⟨hc.1, hc.2.1, hc.2.2.1⟩
    · intro f2 hf2
      obtain rfl := Option.some.inj hf2
      refine ⟨hb1, hb3, hb4, ?_, ?_⟩
      · intro x hx
        unfold triangulate at hx
        cases hct : textures with
        | none => rw [hct] at hx; exact absurd hx (by simp)
        | some ct =>
          rw [hct] at hx
          obtain ⟨c1, c2, c3, c4⟩ := ct
          obtain rfl := Option.some.inj hx
          have hc := htextures _ hct
          exact ⟨hc.1, hc.2.2.1, hc.2.2.2⟩
      · intro x hx
        unfold triangulate at hx
        cases hcn : normals with
        | none => rw [hcn] at hx; exact absurd hx (by simp)
        | some cn =>
          rw [hcn] at hx
          obtain ⟨c1, c2, c3, c4⟩ := cn
          obtain rfl := Option.some.inj hx
          have hc := hnormals _ hcn
          exact ⟨hc.1, hc.2.2.1, hc.2.2.2⟩

/-- A successful `parse_line_core` yields a `Face`/`DoubleFace` line
only through a successful `parse_face` run on the line's payload. -/
lemma parse_line_core_face_shape {cs : List Char} {v t n : ℕ} {ln : Line}
    (h : parse_line_core cs v t n = .ok ln) :
    (∀ f, ln = .Face f → ∃ d, parse_face d v t n = .ok (f, none)) ∧
    (∀ f1 f2, ln = .DoubleFace f1 f2 → ∃ d, parse_face d v t n = .ok (f1, some f2)) := by
  unfold parse_line_core at h
  by_cases h1 : cs = []
  · rw [if_pos h1] at h
    obtain rfl := PResult.ok.inj h
    exact ⟨fun f hf => Line.noConfusion hf, fun f1 f2 hf => Line.noConfusion hf⟩
  rw [if_neg h1] at h
  by_cases h2 : cs.head? = some '#'
  · rw [if_pos h2] at h
    obtain rfl := PResult.ok.inj h
    exact ⟨fun f hf => Line.noConfusion hf, fun f1 f2 hf => Line.noConfusion hf⟩
  rw [if_neg h2] at h
  by_cases h3 : cs.take 2 = ['v', ' ']
  · rw [if_pos h3] at h
    split at h
    · exact PResult.noConfusion h
    · exact PResult.noConfusion h
    obtain rfl := PResult.ok.inj h
    exact ⟨fun f hf => Line.noConfusion hf, fun f1 f2 hf => Line.noConfusion hf⟩
  rw [if_neg h3] at h
  by_cases h4 : cs.take 3 = ['v', 'n', ' ']
  · rw [if_pos h4] at h
    split at h
    · exact PResult.noConfusion h
    · exact PResult.noConfusion h
    obtain rfl := PResult.ok.inj h
    exact ⟨fun f hf => Line.noConfusion hf, fun f1 f2 hf => Line.noConfusion hf⟩
  rw [if_neg h4] at h
  by_cases h5 : cs.take 3 = ['v', 't', ' ']
  · rw [if_pos h5] at h
    split at h
    · exact PResult.noConfusion h
    · exact PResult.noConfusion h
    obtain rfl := PResult.ok.inj h
    exact ⟨fun f hf => Line.noConfusion hf, fun f1 f2 hf => Line.noConfusion hf⟩
  rw [if_neg h5] at h
  by_cases h6 : cs.take 2 = ['f', ' ']
  · rw [if_pos h6] at h
    split at h
    · exact PResult.noConfusion h
    · exact PResult.noConfusion h
    · rename_i f1' f2' hpf
      obtain rfl := PResult.ok.inj h
      refine ⟨fun f hf => Line.noConfusion hf, fun g1 g2 hf => ?_⟩
      obtain ⟨hg1, hg2⟩ := Line.DoubleFace.inj hf
      subst hg1
      subst hg2
      exact ⟨_, hpf⟩
    · rename_i f1' hpf
      obtain rfl := PResult.ok.inj h
      refine ⟨fun f hf => ?_, fun g1 g2 hf => Line.noConfusion hf⟩
      obtain rfl := Line.Face.inj hf
      exact ⟨_, hpf⟩
  rw [if_neg h6] at h
  by_cases h7 : cs.take 2 = ['o', ' ']
  · rw [if_pos h7] at h
    obtain rfl := PResult.ok.inj h
    exact ⟨fun f hf => Line.noConfusion hf, fun f1 f2 hf => Line.noConfusion hf⟩
  rw [if_neg h7] at h
  by_cases h8 : cs.take 2 = ['g', ' ']
  · rw [if_pos h8] at h
    obtain rfl := PResult.ok.inj h
    exact ⟨fun f hf => Line.noConfusion hf, fun f1 f2 hf => Line.noConfusion hf⟩
  rw [if_neg h8] at h
  by_cases h9 : cs.take 2 = ['s', ' ']
  · rw [if_pos h9] at h
    exact PResult.noConfusion h
  rw [if_neg h9] at h
  by_cases h10 : cs.take 7 = ['m', 't', 'l', 'l', 'i', 'b', ' ']
  · rw [if_pos h10] at h
    split at h
    · exact PResult.noConfusion h
    · exact PResult.noConfusion h
    obtain rfl := PResult.ok.inj h
    exact ⟨fun f hf => Line.noConfusion hf, fun f1 f2 hf => Line.noConfusion hf⟩
  rw [if_neg h10] at h
  by_cases h11 : cs.take 7 = ['u', 's', 'e', 'm', 't', 'l', ' ']
  · rw [if_pos h11] at h
    split at h
    · exact PResult.noConfusion h
    · exact PResult.noConfusion h
    obtain rfl := PResult.ok.inj h
    exact ⟨fun f hf => Line.noConfusion hf, fun f1 f2 hf => Line.noConfusion hf⟩
  rw [if_neg h11] at h
  exact PResult.noConfusion h

/-- `parse_line` only produces `Face`/`DoubleFace` lines whose faces
hold `u32` index components. -/
lemma parse_line_ok_faces {l : String} {v t n : ℕ} :
    (∀ f, parse_line l v t n = .ok (.Face f) → FaceBound f) ∧
    (∀ f1 f2, parse_line l v t n = .ok (.DoubleFace f1 f2) →
      FaceBound f1 ∧ FaceBound f2) := by
  constructor
  · intro f h
    obtain ⟨d, hd⟩ := (parse_line_core_face_shape
      (show parse_line_core (myTrim l.data) v t n = .ok (.Face f) from h)).1 f rfl
    exact (parse_face_bounds hd).1
  · intro f1 f2 h
    obtain ⟨d, hd⟩ := (parse_line_core_face_shape
      (show parse_line_core (myTrim l.data) v t n = .ok (.DoubleFace f1 f2) from h)).2
      f1 f2 rfl
    obtain ⟨hb1, hb2⟩ := parse_face_bounds hd
    exact ⟨hb1, hb2 _ rfl⟩

/-- One parse step preserves "all stored faces are `u32`-bounded". -/
lemma parseStep_bounds {st : ParseState} {l : String} {st' : ParseState}
    (h : parseStep st l = .ok st') (hinv : ∀ f ∈ st.faces, FaceBound f) :
    ∀ f ∈ st'.faces, FaceBound f := by
  unfold parseStep at h
  cases hpl : parse_line l (u32ofNat st.verticies.length)
      (u32ofNat st.texture_coords.length) (u32ofNat st.vertex_normals.length) with
  | err e => exact absurd h (by simp [hpl])
  | panic m => exact absurd h (by simp [hpl])
  | ok ln =>
    simp only [hpl] at h
    try dsimp only [] at h
    cases ln with
    | Empty => obtain rfl := PResult.ok.inj h; exact hinv
    | Comment => obtain rfl := PResult.ok.inj h; exact hinv
    | Vertex vd => obtain rfl := PResult.ok.inj h; exact hinv
    | Normal nv => obtain rfl := PResult.ok.inj h; exact hinv
    | TextureCoord tv => obtain rfl := PResult.ok.inj h; exact hinv
    | Face fd =>
      obtain rfl := PResult.ok.inj h
      intro f hf
      rcases List.mem_append.mp hf with hf' | hf'
      · exact hinv f hf'
      · obtain rfl := List.mem_singleton.mp hf'
        exact parse_line_ok_faces.1 _ hpl
    | DoubleFace fd1 fd2 =>
      obtain rfl := PResult.ok.inj h
      intro f hf
      rcases List.mem_append.mp hf with hf' | hf'
      · exact hinv f hf'
      · obtain ⟨hb1, hb2⟩ := parse_line_ok_faces.2 _ _ hpl
        rcases List.mem_cons.mp hf' with rfl | hf''
        · exact hb1
        · obtain rfl := List.mem_singleton.mp hf''
          exact hb2
    | Group data =>
      dsimp only [] at h
      split at h <;> (obtain rfl := PResult.ok.inj h; exact hinv)
    | Object data =>
      dsimp only [] at h
      split at h <;> (obtain rfl := PResult.ok.inj h; exact hinv)
    | MaterialLib data =>
      dsimp only [] at h
      split at h
      · obtain rfl := PResult.ok.inj h; exact hinv
      · exact PResult.noConfusion h
    | MaterialUse data =>
      dsimp only [] at h
      split at h
      · obtain rfl := PResult.ok.inj h; exact hinv
      · exact PResult.noConfusion h

/-- The parse loop preserves "all stored faces are `u32`-bounded". -/
lemma parseLoop_bounds :
    ∀ (lines : List String) (st st' : ParseState),
      parseLoop lines st = .ok st' → (∀ f ∈ st.faces, FaceBound f) →
      ∀ f ∈ st'.faces, FaceBound f
  | [], st, st', h, hinv => by
    obtain rfl := PResult.ok.inj h
    exact hinv
  | l :: rest, st, st', h, hinv => by
    rw [parseLoop] at h
    cases hps : parseStep st l with
    | err e => rw [hps] at h; exact PResult.noConfusion h
    | panic m => rw [hps] at h; exact PResult.noConfusion h
    | ok st1 =>
      rw [hps] at h
      exact parseLoop_bounds rest st1 st' h (parseStep_bounds hps hinv)

/-- C3 counterexample: the single line `f 7 7 7` parses successfully
into a store whose face carries vertex index 7 although the vertex
count at the moment the line was read is 0 — no index validation
happens, contradicting "less than or equal to the count of the
corresponding attribute array". -/
theorem C3_counterexample_unchecked_index :
    parsedFaces ["f 7 7 7"] = some [⟨(7, 7, 7), none, none⟩] ∧
    parsedCounts ["f 7 7 7"] = some (0, 0, 0) ∧ ¬(7 ≤ 0) :=
  ⟨by decide, by decide, by decide⟩

/-- C3 (amended): the parser performs no validation of face indices
against the running attribute counts — a stored index may be 0 (from a
literal `0`) or exceed the attribute count.  What does hold is that
every stored index component, after resolution of negative forms, is a
`u32` value (less than `2^32`): positive indices passed the `i32` range
check of `parse::<i32>` and negative ones went through the
wrapping `as u32` cast. -/
theorem C3_indices_unvalidated_bounds (lines : List String) (o : ObjObject)
    (h : ObjObject.parse lines = .ok o) : ∀ f ∈ o.faces, FaceBound f := by
  simp only [ObjObject.parse] at h
  cases hl : parseLoop lines
      { verticies := [], vertex_colors := [], vertex_normals := [], texture_coords := []
        faces := [], groups := [], objects := []
        current_group := GroupingData.default, current_object := GroupingData.default } with
  | err e => rw [hl] at h; exact PResult.noConfusion h
  | panic m => rw [hl] at h; exact PResult.noConfusion h
  | ok st =>
    rw [hl] at h
    obtain rfl := PResult.ok.inj h
    exact parseLoop_bounds lines _ st hl (by simp)

/-- C3 witness: the amended theorem on the parse of `["f 7 7 7"]`. -/
theorem C3_indices_unvalidated_bounds_witness :
    FaceBound ⟨(7, 7, 7), none, none⟩ :=
  C3_indices_unvalidated_bounds ["f 7 7 7"]
    { verticies := [], vertex_colors := [], vertex_normals := []
      texture_coords := [], faces := [⟨(7, 7, 7), none, none⟩]
      groups := [⟨"", none, 0, 1⟩], objects := [⟨"", none, 0, 1⟩] }
    (by decide) ⟨(7, 7, 7), none, none⟩ (by decide)

/-- Inversion: a present uniform triple comes from three present
per-corner attributes. -/
lemma uniform3_some_inv {a b c : Option ℕ} {m : ℕ × ℕ × ℕ}
    (h : uniform3 a b c = .ok (some m)) :
    a = some m.1 ∧ b = some m.2.1 ∧ c = some m.2.2 := by
  unfold uniform3 at h
  cases a <;> cases b <;> cases c <;> dsimp only [] at h
  all_goals
    first
      | exact PResult.noConfusion h
      | exact Option.noConfusion (PResult.ok.inj h)
      | (obtain rfl := Option.some.inj (PResult.ok.inj h)
         exact ⟨rfl, rfl, rfl⟩)

/-- Inversion: a present unwrapped quadruple pins the base triple and
the fourth corner's attribute. -/
lemma unwrap4_some_inv {base : Option (ℕ × ℕ × ℕ)} {d : Option ℕ} {m : ℕ × ℕ × ℕ × ℕ}
    (h : unwrap4 base d = .ok (some m)) :
    base = some (m.1, m.2.1, m.2.2.1) ∧ d = some m.2.2.2 := by
  unfold unwrap4 at h
  cases base with
  | none => exact Option.noConfusion (PResult.ok.inj h)
  | some p =>
    obtain ⟨p1, p2, p3⟩ := p
    cases d with
    | none => exact PResult.noConfusion h
    | some x =>
      obtain rfl := Option.some.inj (PResult.ok.inj h)
      exact ⟨rfl, rfl⟩

/-- Inversion: an absent unwrapped quadruple means the base triple was
absent. -/
lemma unwrap4_none_inv {base : Option (ℕ × ℕ × ℕ)} {d : Option ℕ}
    (h : unwrap4 base d = .ok none) : base = none := by
  unfold unwrap4 at h
  cases base with
  | none => rfl
  | some p =>
    obtain ⟨p1, p2, p3⟩ := p
    cases d with
    | none => exact PResult.noConfusion h
    | some x => exact Option.noConfusion (PResult.ok.inj h)

/-- C9: a face line with exactly four corner tokens that parses
successfully yields exactly two stored faces, `(c1,c2,c3)` and
`(c1,c3,c4)`, whose optional texcoord/normal triples are drawn from
corner positions `(1,2,3)` and `(1,3,4)`; a three-token face line
yields exactly one face; and the parse loop appends exactly the one or
two faces a `Face`/`DoubleFace` line carries. -/
theorem C9_quad_triangulation
    (data : List Char) (v t n : ℕ) (s1 s2 s3 s4 : List Char)
    (r1 r2 r3 r4 : ℕ × Option ℕ × Option ℕ) (f1 : FaceData) (of2 : Option FaceData)
    (htoks : splitWhitespace data = [s1, s2, s3, s4])
    (hr1 : parse_single s1 v t n = .ok r1) (hr2 : parse_single s2 v t n = .ok r2)
    (hr3 : parse_single s3 v t n = .ok r3) (hr4 : parse_single s4 v t n = .ok r4)
    (hface : parse_face data v t n = .ok (f1, of2)) :
    (∃ f2, of2 = some f2 ∧
      f1.indicies = (r1.1, r2.1, r3.1) ∧ f2.indicies = (r1.1, r3.1, r4.1) ∧
      ((f1.texture_indcicies = none ∧ f2.texture_indcicies = none) ∨
        (∃ a b c d2, r1.2.1 = some a ∧ r2.2.1 = some b ∧ r3.2.1 = some c ∧
          r4.2.1 = some d2 ∧ f1.texture_indcicies = some (a, b, c) ∧
          f2.texture_indcicies = some (a, c, d2))) ∧
      ((f1.normal_indicies = none ∧ f2.normal_indicies = none) ∨
        (∃ a b c d2, r1.2.2 = some a ∧ r2.2.2 = some b ∧ r3.2.2 = some c ∧
          r4.2.2 = some d2 ∧ f1.normal_indicies = some (a, b, c) ∧
          f2.normal_indicies = some (a, c, d2)))) ∧
    (∀ (d3 : List Char) (u1 u2 u3 : List Char) (g1 : FaceData) (og2 : Option FaceData),
      splitWhitespace d3 = [u1, u2, u3] → parse_face d3 v t n = .ok (g1, og2) →
      og2 = none) ∧
    (∀ (st : ParseState) (l : String) (st' : ParseState) (fd : FaceData),
      parse_line l (u32ofNat st.verticies.length) (u32ofNat st.texture_coords.length)
        (u32ofNat st.vertex_normals.length) = .ok (.Face fd) →
      parseStep st l = .ok st' → st'.faces = st.faces ++ [fd]) ∧
    (∀ (st : ParseState) (l : String) (st' : ParseState) (fd1 fd2 : FaceData),
      parse_line l (u32ofNat st.verticies.length) (u32ofNat st.texture_coords.length)
        (u32ofNat st.vertex_normals.length) = .ok (.DoubleFace fd1 fd2) →
      parseStep st l = .ok st' → st'.faces = st.faces ++ [fd1, fd2]) := by
  refine ⟨?_, ?_, ?_, ?_⟩
  · -- the four-corner case
    unfold parse_face at hface
    rw [htoks] at hface
    obtain ⟨i1, t1, n1⟩ := r1
    obtain ⟨i2, t2, n2⟩ := r2
    obtain ⟨i3, t3, n3⟩ := r3
    obtain ⟨i4, t4, n4⟩ := r4
    try dsimp only [] at hface
    rw [hr1] at hface
    try dsimp only [] at hface
    rw [hr2] at hface
    try dsimp only [] at hface
    rw [hr3] at hface
    try dsimp only [] at hface
    cases hn : uniform3 n1 n2 n3 with
    | err e => rw [hn] at hface; exact PResult.noConfusion hface
    | panic m => rw [hn] at hface; exact PResult.noConfusion hface
    | ok normal =>
    rw [hn] at hface
    try dsimp only [] at hface
    cases ht : uniform3 t1 t2 t3 with
    | err e => rw [ht] at hface; exact PResult.noConfusion hface
    | panic m => rw [ht] at hface; exact PResult.noConfusion hface
    | ok texture =>
    rw [ht] at hface
    try dsimp only [] at hface
    rw [hr4] at hface
    try dsimp only [] at hface
    cases hnn : unwrap4 normal n4 with
    | err e => rw [hnn] at hface; exact PResult.noConfusion hface
    | panic m => rw [hnn] at hface; exact PResult.noConfusion hface
    | ok normals =>
    rw [hnn] at hface
    try dsimp only [] at hface
    cases htt : unwrap4 texture t4 with
    | err e => rw [htt] at hface; exact PResult.noConfusion hface
    | panic m => rw [htt] at hface; exact PResult.noConfusion hface
    | ok textures =>
    rw [htt] at hface
    try dsimp only [] at hface
    obtain ⟨hf1, hof2⟩ := Prod.mk.injEq _ _ _ _ ▸ PResult.ok.inj hface
    subst hf1
    refine ⟨_, hof2.symm, ?_⟩
    refine ⟨rfl, rfl, ?_, ?_⟩
    · cases textures with
      | none => exact Or.inl ⟨rfl, rfl⟩
      | some q =>
        right
        obtain ⟨q1, q2, q3, q4⟩ := q
        obtain ⟨hbase, hd4⟩ := unwrap4_some_inv htt
        obtain ⟨ha, hb, hc⟩ := uniform3_some_inv (hbase ▸ ht)
        exact ⟨q1, q2, q3, q4, ha, hb, hc, hd4, rfl, rfl⟩
    · cases normals with
      | none => exact Or.inl ⟨rfl, rfl⟩
      | some q =>
        right
        obtain ⟨q1, q2, q3, q4⟩ := q
        obtain ⟨hbase, hd4⟩ := unwrap4_some_inv hnn
        obtain ⟨ha, hb, hc⟩ := uniform3_some_inv (hbase ▸ hn)
        exact ⟨q1, q2, q3, q4, ha, hb, hc, hd4, rfl, rfl⟩
  · -- the three-corner case
    intro d3 u1 u2 u3 g1 og2 h3toks hf3
    unfold parse_face at hf3
    rw [h3toks] at hf3
    try dsimp only [] at hf3
    cases hp1 : parse_single u1 v t n with
    | err e => rw [hp1] at hf3; exact PResult.noConfusion hf3
    | panic m => rw [hp1] at hf3; exact PResult.noConfusion hf3
    | ok ru1 =>
    obtain ⟨a1, b1, c1⟩ := ru1
    rw [hp1] at hf3
    try dsimp only [] at hf3
    cases hp2 : parse_single u2 v t n with
    | err e => rw [hp2] at hf3; exact PResult.noConfusion hf3
    | panic m => rw [hp2] at hf3; exact PResult.noConfusion hf3
    | ok ru2 =>
    obtain ⟨a2, b2, c2⟩ := ru2
    rw [hp2] at hf3
    try dsimp only [] at hf3
    cases hp3 : parse_single u3 v t n with
    | err e => rw [hp3] at hf3; exact PResult.noConfusion hf3
    | panic m => rw [hp3] at hf3; exact PResult.noConfusion hf3
    | ok ru3 =>
    obtain ⟨a3, b3, c3⟩ := ru3
    rw [hp3] at hf3
    try dsimp only [] at hf3
    cases hn : uniform3 c1 c2 c3 with
    | err e => rw [hn] at hf3; exact PResult.noConfusion hf3
    | panic m => rw [hn] at hf3; exact PResult.noConfusion hf3
    | ok normal =>
    rw [hn] at hf3
    try dsimp only [] at hf3
    cases ht : uniform3 b1 b2 b3 with
    | err e => rw [ht] at hf3; exact PResult.noConfusion hf3
    | panic m => rw [ht] at hf3; exact PResult.noConfusion hf3
    | ok texture =>
    rw [ht] at hf3
    try dsimp only [] at hf3
    obtain ⟨hg1, hog2⟩ := Prod.mk.injEq _ _ _ _ ▸ PResult.ok.inj hf3
    exact hog2.symm
  · -- a Face line appends one face
    intro st l st' fd hpl hstep
    unfold parseStep at hstep
    simp only [hpl] at hstep
    try dsimp only [] at hstep
    obtain rfl := PResult.ok.inj hstep
    rfl
  · -- a DoubleFace line appends two faces
    intro st l st' fd1 fd2 hpl hstep
    unfold parseStep at hstep
    simp only [hpl] at hstep
    try dsimp only [] at hstep
    obtain rfl := PResult.ok.inj hstep
    rfl

/-- C9 witness: the four-corner part of the theorem on the concrete
face line payload `1/1/1 2/2/2 3/3/3 4/4/4` with all counts 4. -/
theorem C9_quad_triangulation_witness :
    ∃ f2, some (⟨(1, 3, 4), some (1, 3, 4), some (1, 3, 4)⟩ : FaceData) = some f2 ∧
      (⟨(1, 2, 3), some (1, 2, 3), some (1, 2, 3)⟩ : FaceData).indicies = (1, 2, 3) ∧
      f2.indicies = (1, 3, 4) ∧
      (((⟨(1, 2, 3), some (1, 2, 3), some (1, 2, 3)⟩ : FaceData).texture_indcicies = none ∧
          f2.texture_indcicies = none) ∨
        (∃ a b c d2, some 1 = some a ∧ some 2 = some b ∧ some 3 = some c ∧
          some 4 = some d2 ∧
          (⟨(1, 2, 3), some (1, 2, 3), some (1, 2, 3)⟩ : FaceData).texture_indcicies
            = some (a, b, c) ∧
          f2.texture_indcicies = some (a, c, d2))) ∧
      (((⟨(1, 2, 3), some (1, 2, 3), some (1, 2, 3)⟩ : FaceData).normal_indicies = none ∧
          f2.normal_indicies = none) ∨
        (∃ a b c d2, some 1 = some a ∧ some 2 = some b ∧ some 3 = some c ∧
          some 4 = some d2 ∧
          (⟨(1, 2, 3), some (1, 2, 3), some (1, 2, 3)⟩ : FaceData).normal_indicies
            = some (a, b, c) ∧
          f2.normal_indicies = some (a, c, d2))) :=
  (C9_quad_triangulation ("1/1/1 2/2/2 3/3/3 4/4/4".data) 4 4 4
    ("1/1/1".data) ("2/2/2".data) ("3/3/3".data) ("4/4/4".data)
    (1, some 1, some 1) (2, some 2, some 2) (3, some 3, some 3) (4, some 4, some 4)
    ⟨(1, 2, 3), some (1, 2, 3), some (1, 2, 3)⟩
    (some ⟨(1, 3, 4), some (1, 3, 4), some (1, 3, 4)⟩)
    (by decide) (by decide) (by decide) (by decide) (by decide) (by decide)).1

/-- C8 witness: the amended theorem at `count = 5`, `k = 2`, `i = 7`. -/
theorem C8_negative_index_resolution_witness :
    (resolveIndex 5 (-((2 : ℕ) : ℤ)) : ℤ) = ((5 : ℤ) - (2 : ℕ) + 1) % 2 ^ 32 ∧
    ((2 : ℕ) ≤ 5 + 1 → (resolveIndex 5 (-((2 : ℕ) : ℤ)) : ℤ) = (5 : ℤ) - (2 : ℕ) + 1) ∧
    resolveIndex 5 (7 : ℤ) = (7 : ℤ).toNat ∧
    parsedFaces ["v 0 0 0", "v 0 0 0", "v 0 0 0", "v 0 0 0", "v 0 0 0",
      "vt 0 0", "vt 0 0", "vt 0 0", "vt 0 0", "vt 0 0",
      "vn 0 0 1", "vn 0 0 1", "vn 0 0 1", "vn 0 0 1", "vn 0 0 1",
      "f -1/-1/-1 -2/-2/-2 -3/-3/-3"]
      = some [⟨(5, 4, 3), some (5, 4, 3), some (5, 4, 3)⟩] :=
  C8_negative_index_resolution 5 2 7 (by decide) (by decide) (by decide) (by decide)

/-! ### Facts about the shared traversal and the dedup fold -/
/-- `internMat` never shrinks the materials vector. -/
lemma internMat_len_le (ms : List TextureIdent) (t : TextureIdent) :
    ms.length ≤ (internMat ms t).2.length := by
  induction ms with
  | nil => simp [internMat]
  | cons m ms ih =>
    unfold internMat
    split
    · simp
    · simpa using ih

/-- The index `internMat` returns is a valid slot of the returned
materials vector. -/
lemma internMat_lt (ms : List TextureIdent) (t : TextureIdent) :
    (internMat ms t).1 < (internMat ms t).2.length := by
  induction ms with
  | nil => simp [internMat]
  | cons m ms ih =>
    unfold internMat
    split
    · simp
    · simpa using ih

/-- The slot `internMat` returns holds the interned ident. -/
lemma internMat_getD (ms : List TextureIdent) (t : TextureIdent) :
    (internMat ms t).2.getD (internMat ms t).1 defaultTI = t := by
  induction ms with
  | nil => simp [internMat]
  | cons m ms ih =>
    unfold internMat
    split
    · rename_i hm
      simpa using hm
    · simpa using ih

/-- `internMat` only appends: existing slots are unchanged. -/
lemma internMat_grows (ms : List TextureIdent) (t : TextureIdent) :
    ∀ j, j < ms.length → (internMat ms t).2.getD j defaultTI = ms.getD j defaultTI := by
  induction ms with
  | nil => intro j hj; simp at hj
  | cons m ms ih =>
    intro j hj
    unfold internMat
    split
    · rfl
    · cases j with
      | zero => simp
      | succ j' =>
        simp only [List.getD_cons_succ]
        exact ih j' (by simpa using hj)

/-- Inversion of a successful Rust slice `&xs[a..b]`. -/
lemma sliceRange_some {α : Type} {l : List α} {a b : ℕ} {fs : List α}
    (h : sliceRange l a b = some fs) :
    a ≤ b ∧ b ≤ l.length ∧ fs.length = b - a ∧ fs = (l.drop a).take (b - a) := by
  unfold sliceRange at h
  split at h
  · rename_i hc
    obtain rfl := Option.some.inj h
    refine ⟨hc.1, hc.2, ?_, rfl⟩
    simp only [List.length_take, List.length_drop]
    omega
  · exact Option.noConfusion h

/-- A successful `recsOfFaces` run yields three records per face. -/
lemma recsOfFaces_length {vs : List (F × F × F)} {cols : Option (List (F × F × F))}
    {ns : List (F × F × F)} {ts : List (F × F)} :
    ∀ {fs : List FaceData} {rs : List VertexData},
      recsOfFaces vs cols ns ts fs = some rs → rs.length = 3 * fs.length := by
  intro fs
  induction fs with
  | nil =>
    intro rs h
    obtain rfl := Option.some.inj h
    simp
  | cons f fs ih =>
    intro rs h
    unfold recsOfFaces at h
    split at h
    · exact Option.noConfusion h
    · cases hrec : recsOfFaces vs cols ns ts fs with
      | none => rw [hrec] at h; exact Option.noConfusion h
      | some rest =>
        rw [hrec] at h
        obtain rfl := Option.some.inj h
        simp only [List.length_cons, ih hrec, List.length_map]
        ring

/-- Tagged-append lookup: a mapped tag list at a valid offset. -/
lemma getD_map_tag (rs : List VertexData) (i m : ℕ) (hm : m < rs.length) :
    (rs.map (fun vd => (⟨i, vd⟩ : VertexTextureData))).getD m defaultVTD
      = ⟨i, rs[m]⟩ := by
  rw [List.getD_eq_getElem _ _ (by simpa using hm)]
  simp

/-- One group preserves the two-run relation. -/
lemma groupStep_rel {o : ObjObject} {ml : Option String}
    {acc acc' : List VertexTextureData × List TextureIdent} {g : GroupingData}
    (h : EmitRel acc acc') :
    (groupStep o ml acc g = none ∧ groupStep o ml acc' g = none) ∨
    (∃ p q, groupStep o ml acc g = some p ∧ groupStep o ml acc' g = some q ∧
      EmitRel p q) := by
  unfold groupStep
  cases hs : sliceRange o.faces g.start g.finish with
  | none => exact Or.inl ⟨rfl, rfl⟩
  | some fs =>
    dsimp only []
    cases hr : recsOfFaces o.verticies (vec_to_option o.vertex_colors)
        o.vertex_normals o.texture_coords fs with
    | none => exact Or.inl ⟨rfl, rfl⟩
    | some rs =>
      dsimp only []
      right
      refine ⟨_, _, rfl, rfl, ?_⟩
      have hl := h.len
      constructor
      · simp [hl]
      · intro k
        by_cases hk : k < acc.1.length
        · rw [List.getD_append _ _ _ _ hk, List.getD_append _ _ _ _ (hl ▸ hk)]
          exact h.vert k
        · push_neg at hk
          by_cases hk2 : k < acc.1.length + rs.length
          · rw [List.getD_append_right _ _ _ _ hk,
              List.getD_append_right _ _ _ _ (hl ▸ hk)]
            rw [hl]
            rw [getD_map_tag _ _ _ (by omega), getD_map_tag _ _ _ (by omega)]
          · push_neg at hk2
            rw [List.getD_eq_default _ _
                (by simp only [List.length_append, List.length_map]; omega),
              List.getD_eq_default _ _
                (by simp only [List.length_append, List.length_map]; omega)]
      · intro k hk
        simp only [List.length_append, List.length_map] at hk
        by_cases hkl : k < acc.1.length
        · rw [List.getD_append _ _ _ _ hkl]
          calc (acc.1.getD k defaultVTD).material_index
              < acc.2.length := h.bndL k hkl
            _ ≤ _ := by simpa using internMat_len_le acc.2 ⟨ml, g.mtl⟩
        · push_neg at hkl
          rw [List.getD_append_right _ _ _ _ hkl]
          rw [getD_map_tag _ _ _ (by omega)]
          simpa using internMat_lt acc.2 ⟨ml, g.mtl⟩
      · intro k hk
        simp only [List.length_append, List.length_map] at hk
        by_cases hkl : k < acc'.1.length
        · rw [List.getD_append _ _ _ _ hkl]
          calc (acc'.1.getD k defaultVTD).material_index
              < acc'.2.length := h.bndR k hkl
            _ ≤ _ := by simpa using internMat_len_le acc'.2 ⟨ml, g.mtl⟩
        · push_neg at hkl
          rw [List.getD_append_right _ _ _ _ hkl]
          rw [getD_map_tag _ _ _ (by omega)]
          simpa using internMat_lt acc'.2 ⟨ml, g.mtl⟩
      · intro k hk
        simp only [List.length_append, List.length_map] at hk
        by_cases hkl : k < acc.1.length
        · rw [List.getD_append _ _ _ _ hkl, List.getD_append _ _ _ _ (hl ▸ hkl)]
          rw [internMat_grows _ _ _ (h.bndL k hkl),
            internMat_grows _ _ _ (h.bndR k (hl ▸ hkl))]
          exact h.ident k hkl
        · push_neg at hkl
          rw [List.getD_append_right _ _ _ _ hkl,
            List.getD_append_right _ _ _ _ (hl ▸ hkl)]
          rw [hl]
          rw [getD_map_tag _ _ _ (by omega), getD_map_tag _ _ _ (by omega)]
          dsimp only []
          rw [internMat_getD, internMat_getD]

/-- A fold of `groupStep` over any group list preserves the two-run
relation. -/
lemma groupsFold_rel (o : ObjObject) (ml : Option String) :
    ∀ (gs : List GroupingData) {acc acc' : List VertexTextureData × List TextureIdent},
      EmitRel acc acc' →
      (gs.foldlM (groupStep o ml) acc = none ∧ gs.foldlM (groupStep o ml) acc' = none) ∨
      (∃ p q, gs.foldlM (groupStep o ml) acc = some p ∧
        gs.foldlM (groupStep o ml) acc' = some q ∧ EmitRel p q)
  | [], acc, acc', h => Or.inr ⟨acc, acc', rfl, rfl, h⟩
  | g :: gs, acc, acc', h => by
    rw [List.foldlM_cons, List.foldlM_cons]
    rcases @groupStep_rel o ml _ _ g h with ⟨h1, h2⟩ | ⟨p, q, h1, h2, hrel⟩
    · rw [h1, h2]
      exact Or.inl ⟨rfl, rfl⟩
    · rw [h1, h2]
      exact groupsFold_rel o ml gs hrel

/-- One object preserves the two-run relation. -/
lemma objStep_rel {o : ObjObject} {acc acc' : List VertexTextureData × List TextureIdent}
    {ob : GroupingData} (h : EmitRel acc acc') :
    (objStep o acc ob = none ∧ objStep o acc' ob = none) ∨
    (∃ p q, objStep o acc ob = some p ∧ objStep o acc' ob = some q ∧ EmitRel p q) := by
  unfold objStep
  cases hs : sliceRange o.groups ob.start ob.finish with
  | none => exact Or.inl ⟨rfl, rfl⟩
  | some gs => exact groupsFold_rel o ob.mtl gs h

/-- A fold of `objStep` preserves the two-run relation. -/
lemma objsFold_rel (o : ObjObject) :
    ∀ (obs : List GroupingData) {acc acc' : List VertexTextureData × List TextureIdent},
      EmitRel acc acc' →
      (obs.foldlM (objStep o) acc = none ∧ obs.foldlM (objStep o) acc' = none) ∨
      (∃ p q, obs.foldlM (objStep o) acc = some p ∧
        obs.foldlM (objStep o) acc' = some q ∧ EmitRel p q)
  | [], acc, acc', h => Or.inr ⟨acc, acc', rfl, rfl, h⟩
  | ob :: obs, acc, acc', h => by
    rw [List.foldlM_cons, List.foldlM_cons]
    rcases @objStep_rel o _ _ ob h with ⟨h1, h2⟩ | ⟨p, q, h1, h2, hrel⟩
    · rw [h1, h2]
      exact Or.inl ⟨rfl, rfl⟩
    · rw [h1, h2]
      exact objsFold_rel o obs hrel

/-- The two traversal runs of `verticies` and `verticies_indexed`
either both panic or both succeed, related by `EmitRel`. -/
lemma emitCorners_rel (o : ObjObject) :
    (emitCorners o [] = none ∧ emitCorners o [⟨none, none⟩] = none) ∨
    (∃ p q, emitCorners o [] = some p ∧ emitCorners o [⟨none, none⟩] = some q ∧
      EmitRel p q) := by
  apply objsFold_rel
  constructor
  · rfl
  · intro k
    rfl
  · intro k hk
    simp at hk
  · intro k hk
    simp at hk
  · intro k hk
    simp at hk

/-- A hit in the table is a member entry. -/
lemma tableLookup_mem : ∀ {tb : List (VertexTextureData × ℕ)} {v : VertexTextureData}
    {p : ℕ}, tableLookup tb v = some p → (v, p) ∈ tb
  | [], _, _, h => Option.noConfusion h
  | e :: rest, v, p, h => by
    unfold tableLookup at h
    split at h
    · rename_i he
      obtain rfl := Option.some.inj h
      subst he
      exact List.mem_cons_self _ _
    · exact List.mem_cons_of_mem _ (tableLookup_mem h)

/-- A miss in the table means no entry carries the key. -/
lemma tableLookup_none : ∀ {tb : List (VertexTextureData × ℕ)} {v : VertexTextureData},
    tableLookup tb v = none → ∀ e ∈ tb, e.1 ≠ v
  | [], _, _ => by simp
  | e :: rest, v, h => by
    unfold tableLookup at h
    split at h
    · exact Option.noConfusion h
    · rename_i hne
      intro e' he'
      rcases List.mem_cons.mp he' with rfl | he''
      · exact hne
      · exact tableLookup_none h e' he''

/-- Membership in the first-occurrence dedup. -/
lemma firstDedup_mem {x : VertexTextureData} {E : List VertexTextureData} :
    x ∈ firstDedup E ↔ x ∈ E := by
  have aux : ∀ (E acc : List VertexTextureData),
      (x ∈ E.foldl (fun acc v => if v ∈ acc then acc else acc ++ [v]) acc ↔
        x ∈ acc ∨ x ∈ E) := by
    intro E
    induction E with
    | nil => intro acc; simp
    | cons v E ih =>
      intro acc
      rw [List.foldl_cons]
      by_cases hv : v ∈ acc
      · rw [if_pos hv, ih]
        constructor
        · rintro (hx | hx)
          · exact Or.inl hx
          · exact Or.inr (List.mem_cons_of_mem _ hx)
        · rintro (hx | hx)
          · exact Or.inl hx
          · rcases List.mem_cons.mp hx with rfl | hx'
            · exact Or.inl hv
            · exact Or.inr hx'
      · rw [if_neg hv, ih]
        simp only [List.mem_append, List.mem_singleton, List.mem_cons]
        tauto
  rw [firstDedup, aux]
  simp

/-- Appending an already-seen record does not change the dedup. -/
lemma firstDedup_append_mem {E : List VertexTextureData} {v : VertexTextureData}
    (h : v ∈ E) : firstDedup (E ++ [v]) = firstDedup E := by
  have hstep : firstDedup (E ++ [v])
      = if v ∈ firstDedup E then firstDedup E else firstDedup E ++ [v] := by
    rw [firstDedup, List.foldl_append]
    rfl
  rw [hstep, if_pos (firstDedup_mem.mpr h)]

/-- Appending a new record appends it to the dedup. -/
lemma firstDedup_append_notmem {E : List VertexTextureData} {v : VertexTextureData}
    (h : v ∉ E) : firstDedup (E ++ [v]) = firstDedup E ++ [v] := by
  have hstep : firstDedup (E ++ [v])
      = if v ∈ firstDedup E then firstDedup E else firstDedup E ++ [v] := by
    rw [firstDedup, List.foldl_append]
    rfl
  rw [hstep, if_neg (fun hc => h (firstDedup_mem.mp hc))]

/-- The first-occurrence dedup is duplicate-free. -/
lemma firstDedup_nodup (E : List VertexTextureData) : (firstDedup E).Nodup := by
  have aux : ∀ (E acc : List VertexTextureData), acc.Nodup →
      (E.foldl (fun acc v => if v ∈ acc then acc else acc ++ [v]) acc).Nodup := by
    intro E
    induction E with
    | nil => intro acc h; simpa using h
    | cons v E ih =>
      intro acc h
      rw [List.foldl_cons]
      by_cases hv : v ∈ acc
      · rw [if_pos hv]
        exact ih acc h
      · rw [if_neg hv]
        exact ih _ (by simp [List.nodup_append, h, hv])
  exact aux E [] List.nodup_nil

/-- One dedup step preserves the invariant. -/
lemma dedupStep_inv {E : List VertexTextureData}
    {s : List ℕ × List (VertexTextureData × ℕ) × ℕ} (hinv : DedupInv E s)
    (v : VertexTextureData) : DedupInv (E ++ [v]) (dedupStep s v) := by
  obtain ⟨idxLen, counter, slots, keys, idxLt, replay⟩ := hinv
  unfold dedupStep
  cases hl : tableLookup s.2.1 v with
  | some pos =>
    have hmem := tableLookup_mem hl
    obtain ⟨j, hj, hget⟩ := List.getElem_of_mem hmem
    have hjp : pos = j := by
      have := slots j hj
      rw [List.getD_eq_getElem _ _ hj, hget] at this
      exact this
    subst hjp
    have hkey : (s.2.1.map Prod.fst).getD pos defaultVTD = v := by
      rw [List.getD_eq_getElem _ _ (by simpa using hj)]
      simp only [List.getElem_map, hget]
    have hvE : v ∈ E := by
      have : v ∈ s.2.1.map Prod.fst := by
        refine List.mem_map.mpr ⟨(v, pos), hmem, rfl⟩
      rw [keys] at this
      exact firstDedup_mem.mp this
    refine ⟨?_, counter, slots, ?_, ?_, ?_⟩
    · simpa using idxLen
    · rw [keys, firstDedup_append_mem hvE]
    · intro i hi
      rcases List.mem_append.mp hi with hi' | hi'
      · exact idxLt i hi'
      · obtain rfl := List.mem_singleton.mp hi'
        exact hj
    · intro k hk
      simp only [List.length_append, List.length_singleton] at hk
      by_cases hkE : k < E.length
      · rw [List.getD_append _ _ _ _ (idxLen ▸ hkE), List.getD_append _ _ _ _ hkE]
        exact replay k hkE
      · have hkeq : k = E.length := by omega
        subst hkeq
        rw [List.getD_append_right _ _ _ _ (by omega),
          List.getD_append_right _ _ _ _ (by omega)]
        rw [idxLen]
        simp only [Nat.sub_self, List.getD_cons_zero]
        exact hkey
  | none =>
    have hnone := tableLookup_none hl
    have hvnotkeys : v ∉ s.2.1.map Prod.fst := by
      intro hc
      obtain ⟨e, he, he2⟩ := List.mem_map.mp hc
      exact hnone e he he2
    have hvE : v ∉ E := fun hc =>
      hvnotkeys (keys ▸ firstDedup_mem.mpr hc)
    refine ⟨?_, ?_, ?_, ?_, ?_, ?_⟩
    · simpa using idxLen
    · simp [counter]
    · intro j hj
      simp only [List.length_append, List.length_singleton] at hj
      by_cases hj' : j < s.2.1.length
      · rw [List.getD_append _ _ _ _ hj']
        exact slots j hj'
      · have hjeq : j = s.2.1.length := by omega
        subst hjeq
        rw [List.getD_append_right _ _ _ _ (by omega)]
        simp [counter]
    · rw [List.map_append, keys, firstDedup_append_notmem hvE]
      simp
    · intro i hi
      simp only [List.length_append, List.length_singleton]
      rcases List.mem_append.mp hi with hi' | hi'
      · have := idxLt i hi'
        omega
      · obtain rfl := List.mem_singleton.mp hi'
        rw [counter]
        omega
    · intro k hk
      simp only [List.length_append, List.length_singleton] at hk
      by_cases hkE : k < E.length
      · have hidxmem : s.1.getD k 0 ∈ s.1 := by
          rw [List.getD_eq_getElem _ _ (idxLen ▸ hkE)]
          exact List.getElem_mem _
        rw [List.getD_append _ _ _ _ (idxLen ▸ hkE), List.getD_append _ _ _ _ hkE]
        rw [List.map_append]
        rw [List.getD_append _ _ _ _ (by simpa using idxLt _ hidxmem)]
        exact replay k hkE
      · have hkeq : k = E.length := by omega
        subst hkeq
        rw [List.getD_append_right _ _ _ _ (by omega),
          List.getD_append_right _ _ _ _ (by omega)]
        rw [idxLen]
        simp only [Nat.sub_self, List.getD_cons_zero]
        rw [List.map_append]
        rw [List.getD_append_right _ _ _ _ (by simp [counter])]
        simp [counter]

/-- The dedup fold carries its invariant over any suffix. -/
lemma dedupFold_inv :
    ∀ (E2 E1 : List VertexTextureData) (s : List ℕ × List (VertexTextureData × ℕ) × ℕ),
      DedupInv E1 s → DedupInv (E1 ++ E2) (E2.foldl dedupStep s)
  | [], E1, s, h => by simpa using h
  | v :: E2, E1, s, h => by
    rw [List.foldl_cons]
    have : E1 ++ v :: E2 = (E1 ++ [v]) ++ E2 := by simp
    rw [this]
    exact dedupFold_inv E2 (E1 ++ [v]) _ (dedupStep_inv h v)

/-- The dedup fold over the whole stream satisfies the invariant. -/
lemma dedupFold_inv_whole (E : List VertexTextureData) :
    DedupInv E (E.foldl dedupStep ([], [], 0)) := by
  have h0 : DedupInv [] (([], [], 0) : List ℕ × List (VertexTextureData × ℕ) × ℕ) := by
    refine ⟨rfl, rfl, ?_, rfl, ?_, ?_⟩
    · intro j hj; simp at hj
    · intro i hi; simp at hi
    · intro k hk; simp at hk
  simpa using dedupFold_inv E [] _ h0

/-- Writing slot-tagged entries into a buffer of matching size, offset
form. -/
lemma setFold_off :
    ∀ (tb : List (VertexTextureData × ℕ)) (buf : List VertexTextureData) (off : ℕ),
      (∀ j, j < tb.length → (tb.getD j (defaultVTD, 0)).2 = off + j) →
      off + tb.length ≤ buf.length →
      tb.foldl (fun b e => b.set e.2 e.1) buf
        = buf.take off ++ tb.map Prod.fst ++ buf.drop (off + tb.length)
  | [], buf, off, _, _ => by simp
  | e :: tb, buf, off, hslots, hlen => by
    obtain ⟨v, p⟩ := e
    have hp : off = p := by
      have := hslots 0 (by simp)
      simpa using this.symm
    subst hp
    rw [List.foldl_cons]
    have hofflt : off < buf.length := by
      simp only [List.length_cons] at hlen
      omega
    have hbuf1 : buf.set off v = buf.take off ++ v :: buf.drop (off + 1) := by
      rw [List.set_eq_take_append_cons_drop, if_pos hofflt]
    have hrec := setFold_off tb (buf.set off v) (off + 1)
      (fun j hj => by
        have := hslots (j + 1) (by simpa using Nat.succ_lt_succ hj)
        simpa [Nat.add_assoc, Nat.add_comm 1 j] using this)
      (by
        simp only [List.length_set, List.length_cons] at hlen ⊢
        omega)
    rw [hrec]
    have htakelen : (buf.take off).length = off := by
      simp only [List.length_take]
      omega
    have htake : (buf.set off v).take (off + 1) = buf.take off ++ [v] := by
      rw [hbuf1, List.take_append_eq_append_take]
      rw [List.take_of_length_le (by omega)]
      rw [htakelen]
      rw [show off + 1 - off = 1 from by omega]
      rfl
    have hdrop : (buf.set off v).drop (off + 1 + tb.length)
        = buf.drop (off + 1 + tb.length) := by
      rw [hbuf1, List.drop_append_eq_append_drop]
      rw [List.drop_of_length_le (by omega), htakelen]
      rw [show off + 1 + tb.length - off = tb.length + 1 from by omega]
      simp only [List.nil_append, List.drop_succ_cons, List.drop_drop]
    rw [htake, hdrop]
    simp only [List.map_cons, List.length_cons]
    rw [show off + (tb.length + 1) = off + 1 + tb.length from by omega]
    simp

/-- The arranged vertex buffer is the table's keys in slot order. -/
lemma buildBuffer_eq {tb : List (VertexTextureData × ℕ)}
    (hslots : ∀ j, j < tb.length → (tb.getD j (defaultVTD, 0)).2 = j) :
    buildBuffer tb.length tb = tb.map Prod.fst := by
  unfold buildBuffer
  rw [setFold_off tb (List.replicate tb.length defaultVTD) 0
    (by simpa using hslots) (by simp)]
  simp

/-- What a successful `verticies_indexed` run guarantees, in terms of
the emitted corner stream. -/
lemma verticies_indexed_spec {o : ObjObject} {idx : List ℕ}
    {vb : List VertexTextureData} {mats : List TextureIdent}
    (h : o.verticies_indexed = some (idx, vb, mats)) :
    ∃ E, emitCorners o [⟨none, none⟩] = some (E, mats) ∧
      idx.length = E.length ∧ vb = firstDedup E ∧
      (∀ i ∈ idx, i < vb.length) ∧
      (∀ k, k < E.length → vb.getD (idx.getD k 0) defaultVTD = E.getD k defaultVTD) := by
  unfold ObjObject.verticies_indexed at h
  cases he : emitCorners o [⟨none, none⟩] with
  | none => rw [he] at h; exact Option.noConfusion h
  | some r =>
    rw [he] at h
    dsimp only [] at h
    obtain ⟨h1, h23⟩ := Prod.mk.injEq _ _ _ _ ▸ Option.some.inj h
    obtain ⟨h2, h3⟩ := Prod.mk.injEq _ _ _ _ ▸ h23
    have hinv := dedupFold_inv_whole r.1
    have hvb : vb = (r.1.foldl dedupStep ([], [], 0)).2.1.map Prod.fst := by
      rw [← h2, hinv.counter, buildBuffer_eq hinv.slots]
    refine ⟨r.1, ?_, ?_, ?_, ?_, ?_⟩
    · rw [← h3]
    · rw [← h1, hinv.idxLen]
    · rw [hvb, hinv.keys]
    · intro i hi
      rw [hvb]
      simpa using hinv.idxLt i (h1 ▸ hi)
    · intro k hk
      rw [hvb, ← h1]
      exact hinv.replay k hk

/-- C2 counterexample: on the parsed input `["v 0 0 0", "mtllib m",
"f 1 1 1"]` the flat `verticies()` records carry material index 0 while
replaying `verticies_indexed()`'s index buffer yields records with
material index 1 — the sequences differ, because `verticies_indexed`
pre-seeds its materials vector with `TextureIdent {None, None}` and
`verticies` starts from an empty vector. -/
theorem C2_counterexample_material_index :
    (match ObjObject.parse ["v 0 0 0", "mtllib m", "f 1 1 1"] with
      | .ok o =>
        (match o.verticies', o.verticies_indexed with
          | some (flat, _), some (idx, vb, _) =>
            some (flat.map VertexTextureData.material_index,
                  idx.map (fun i => (vb.getD i defaultVTD).material_index))
          | _, _ => none)
      | _ => none) = some ([0, 0, 0], [1, 1, 1]) := by
  decide

/-- C2 (amended): for every successfully parsed store on which both
extraction functions return, replaying the index buffer against the
vertex buffer reproduces the flat `verticies()` sequence in traversal
order up to material numbering: the vertex parts (position, color,
normal, texture coordinate) agree exactly, and the material identities
agree — the `TextureIdent` each record's material index resolves to in
its own materials vector is the same; the numeric `material_index`
itself can differ (`verticies_indexed` pre-seeds its materials vector
with the default ident, `verticies` does not). -/
theorem C2_indexed_replay_matches_flat (lines : List String) (o : ObjObject)
    (flat : List VertexTextureData) (matsF : List TextureIdent)
    (idx : List ℕ) (vb : List VertexTextureData) (matsI : List TextureIdent)
    (hp : ObjObject.parse lines = .ok o)
    (hflat : o.verticies' = some (flat, matsF))
    (hidx : o.verticies_indexed = some (idx, vb, matsI)) :
    idx.length = flat.length ∧
    idx.map (fun i => (vb.getD i defaultVTD).vertex)
      = flat.map VertexTextureData.vertex ∧
    idx.map (fun i => matsI.getD (vb.getD i defaultVTD).material_index defaultTI)
      = flat.map (fun r => matsF.getD r.material_index defaultTI) := by
  obtain ⟨E, hE, hlen, hvb, hbnd, hreplay⟩ := verticies_indexed_spec hidx
  rcases emitCorners_rel o with ⟨hn, _⟩ | ⟨p, q, hp1, hq1, hrel⟩
  · rw [ObjObject.verticies'] at hflat
    rw [hn] at hflat
    exact absurd hflat (by simp)
  · rw [ObjObject.verticies'] at hflat
    rw [hp1] at hflat
    obtain rfl := Option.some.inj hflat
    rw [hE] at hq1
    obtain rfl := Option.some.inj hq1
    have hlenEF : flat.length = E.length := hrel.len
    refine ⟨?_, ?_, ?_⟩
    · rw [hlen, ← hlenEF]
    · apply List.ext_getElem
      · simp [hlen, ← hlenEF]
      · intro k h1 h2
        have hkidx : k < idx.length := by simpa using h1
        have hkE : k < E.length := hlen ▸ hkidx
        have hkflat : k < flat.length := by simpa using h2
        simp only [List.getElem_map]
        rw [show idx[k] = idx.getD k 0 from (List.getD_eq_getElem idx 0 hkidx).symm]
        rw [hreplay k hkE]
        rw [← hrel.vert k]
        rw [List.getD_eq_getElem flat _ hkflat]
    · apply List.ext_getElem
      · simp [hlen, ← hlenEF]
      · intro k h1 h2
        have hkidx : k < idx.length := by simpa using h1
        have hkE : k < E.length := hlen ▸ hkidx
        have hkflat : k < flat.length := by simpa using h2
        simp only [List.getElem_map]
        rw [show idx[k] = idx.getD k 0 from (List.getD_eq_getElem idx 0 hkidx).symm]
        rw [hreplay k hkE]
        rw [← hrel.ident k hkflat]
        rw [List.getD_eq_getElem flat _ hkflat]

/-- A chained cover runs left to right. -/
lemma chained_le : ∀ {gs : List GroupingData} {a b : ℕ}, ChainedCover a gs b → a ≤ b
  | [], _, _, h => le_of_eq h
  | g :: gs, a, b, h => by
    obtain ⟨h1, h2, h3⟩ := h
    have := chained_le h3
    omega

/-- The widths of a chained cover sum to the covered width. -/
lemma chained_sum : ∀ {gs : List GroupingData} {a b : ℕ}, ChainedCover a gs b →
    (gs.map (fun g => g.finish - g.start)).sum = b - a
  | [], a, b, h => by
    subst h
    simp
  | g :: gs, a, b, h => by
    obtain ⟨h1, h2, h3⟩ := h
    have ih := chained_sum h3
    have hle := chained_le h3
    simp only [List.map_cons, List.sum_cons, ih]
    omega

/-- Appending a range that starts at the cover's end extends the
cover. -/
lemma chained_snoc : ∀ {gs : List GroupingData} {a b : ℕ} (g : GroupingData),
    ChainedCover a gs b → g.start = b → g.start ≤ g.finish →
    ChainedCover a (gs ++ [g]) g.finish
  | [], a, b, g, h, h1, h2 => by
    subst h
    exact ⟨h1, h2, rfl⟩
  | g0 :: gs, a, b, g, h, h1, h2 => by
    obtain ⟨ha, hle, hch⟩ := h
    exact ⟨ha, hle, chained_snoc g hch h1 h2⟩

/-- Segment sums of a weight list over a chained cover telescope. -/
lemma segsum : ∀ (obs : List GroupingData) (a b : ℕ) (w : List ℕ),
    ChainedCover a obs b →
    (obs.map (fun ob => ((w.drop ob.start).take (ob.finish - ob.start)).sum)).sum
      = ((w.drop a).take (b - a)).sum
  | [], a, b, w, h => by
    subst h
    simp
  | ob :: obs, a, b, w, h => by
    obtain ⟨h1, h2, h3⟩ := h
    have hmb := chained_le h3
    have ih := segsum obs ob.finish b w h3
    simp only [List.map_cons, List.sum_cons, ih]
    subst h1
    have hsplit : (w.drop ob.start).take (b - ob.start)
        = (w.drop ob.start).take (ob.finish - ob.start)
          ++ ((w.drop ob.start).drop (ob.finish - ob.start)).take (b - ob.finish) := by
      rw [← List.take_add]
      congr 1
      omega
    have e1 : (w.drop ob.start).drop (ob.finish - ob.start) = w.drop ob.finish := by
      rw [List.drop_drop]
      congr 1
      omega
    rw [hsplit, List.sum_append, e1]

/-- One group adds three records per covered face. -/
lemma groupStep_len {o : ObjObject} {ml : Option String}
    {acc p : List VertexTextureData × List TextureIdent} {g : GroupingData}
    (h : groupStep o ml acc g = some p) :
    p.1.length = acc.1.length + 3 * (g.finish - g.start) := by
  unfold groupStep at h
  split at h
  · exact Option.noConfusion h
  rename_i fs hs
  split at h
  · exact Option.noConfusion h
  rename_i rs hr
  obtain rfl := Option.some.inj h
  simp only [List.length_append, List.length_map]
  rw [recsOfFaces_length hr, (sliceRange_some hs).2.2.1]

/-- A fold of `groupStep` adds three records per face of each group. -/
lemma groupsFold_len (o : ObjObject) (ml : Option String) :
    ∀ (gs : List GroupingData) (acc r : List VertexTextureData × List TextureIdent),
      gs.foldlM (groupStep o ml) acc = some r →
      r.1.length = acc.1.length + 3 * (gs.map (fun g => g.finish - g.start)).sum
  | [], acc, r, h => by
    obtain rfl := Option.some.inj h
    simp
  | g :: gs, acc, r, h => by
    rw [List.foldlM_cons] at h
    cases hg : groupStep o ml acc g with
    | none => rw [hg] at h; exact Option.noConfusion h
    | some p =>
      rw [hg] at h
      have h2 : gs.foldlM (groupStep o ml) p = some r := h
      have ih := groupsFold_len o ml gs p r h2
      have hp := groupStep_len hg
      simp only [List.map_cons, List.sum_cons]
      omega

/-- One object adds three records per face its group slice covers. -/
lemma objStep_len {o : ObjObject} {acc r : List VertexTextureData × List TextureIdent}
    {ob : GroupingData} (h : objStep o acc ob = some r) :
    ∃ gs, sliceRange o.groups ob.start ob.finish = some gs ∧
      r.1.length = acc.1.length + 3 * (gs.map (fun g => g.finish - g.start)).sum := by
  unfold objStep at h
  split at h
  · exact Option.noConfusion h
  rename_i gs hs
  exact ⟨gs, hs, groupsFold_len o ob.mtl gs acc r h⟩

/-- A fold of `objStep` adds the per-object segment record counts. -/
lemma objsFold_len (o : ObjObject) :
    ∀ (obs : List GroupingData) (acc r : List VertexTextureData × List TextureIdent),
      obs.foldlM (objStep o) acc = some r →
      r.1.length = acc.1.length + 3 * (obs.map (fun ob =>
        (((o.groups.map (fun g => g.finish - g.start)).drop ob.start).take
          (ob.finish - ob.start)).sum)).sum
  | [], acc, r, h => by
    obtain rfl := Option.some.inj h
    simp
  | ob :: obs, acc, r, h => by
    rw [List.foldlM_cons] at h
    cases hob : objStep o acc ob with
    | none => rw [hob] at h; exact Option.noConfusion h
    | some p =>
      rw [hob] at h
      have h2 : obs.foldlM (objStep o) p = some r := h
      have ih := objsFold_len o obs p r h2
      obtain ⟨gs, hs, hlen⟩ := objStep_len hob
      obtain ⟨_, _, _, hgs⟩ := sliceRange_some hs
      have hseg : (gs.map (fun g => g.finish - g.start)).sum
          = (((o.groups.map (fun g => g.finish - g.start)).drop ob.start).take
            (ob.finish - ob.start)).sum := by
        rw [hgs, List.map_take, List.map_drop]
      simp only [List.map_cons, List.sum_cons]
      omega

/-- With parse-shaped chained covers, the emitted corner stream has
exactly three records per stored face. -/
lemma emitCorners_len {o : ObjObject} {mats0 : List TextureIdent}
    {E : List VertexTextureData} {M : List TextureIdent}
    (h : emitCorners o mats0 = some (E, M))
    (hg : ChainedCover 0 o.groups o.faces.length)
    (ho : ChainedCover 0 o.objects o.groups.length) :
    E.length = 3 * o.faces.length := by
  have hlen := objsFold_len o o.objects ([], mats0) (E, M) h
  simp only at hlen
  rw [segsum o.objects 0 o.groups.length _ ho] at hlen
  rw [List.drop_zero, Nat.sub_zero,
    List.take_of_length_le (by simp)] at hlen
  rw [chained_sum hg] at hlen
  simpa using hlen

/-- One parse step preserves the range bookkeeping. -/
lemma parseStep_ranges {st : ParseState} {l : String} {st' : ParseState}
    (h : parseStep st l = .ok st') (hinv : ParseRangesInv st) : ParseRangesInv st' := by
  obtain ⟨hg, hgle, hgfin, ho, hole, hofin⟩ := hinv
  unfold parseStep at h
  cases hpl : parse_line l (u32ofNat st.verticies.length)
      (u32ofNat st.texture_coords.length) (u32ofNat st.vertex_normals.length) with
  | err e => exact absurd h (by simp [hpl])
  | panic m => exact absurd h (by simp [hpl])
  | ok ln =>
    simp only [hpl] at h
    try dsimp only [] at h
    cases ln with
    | Empty =>
      obtain rfl := PResult.ok.inj h
      exact ⟨hg, hgle, hgfin, ho, hole, hofin⟩
    | Comment =>
      obtain rfl := PResult.ok.inj h
      exact ⟨hg, hgle, hgfin, ho, hole, hofin⟩
    | Vertex vd =>
      obtain rfl := PResult.ok.inj h
      exact ⟨hg, hgle, hgfin, ho, hole, hofin⟩
    | Normal nv =>
      obtain rfl := PResult.ok.inj h
      exact ⟨hg, hgle, hgfin, ho, hole, hofin⟩
    | TextureCoord tv =>
      obtain rfl := PResult.ok.inj h
      exact ⟨hg, hgle, hgfin, ho, hole, hofin⟩
    | Face fd =>
      obtain rfl := PResult.ok.inj h
      refine ⟨hg, ?_, ?_, ho, hole, hofin⟩
      · dsimp only []
        omega
      · dsimp only []
        rw [hgfin]
        simp
    | DoubleFace fd1 fd2 =>
      obtain rfl := PResult.ok.inj h
      refine ⟨hg, ?_, ?_, ho, hole, hofin⟩
      · dsimp only []
        omega
      · dsimp only []
        rw [hgfin]
        simp
    | Group data =>
      dsimp only [] at h
      split at h
      · obtain rfl := PResult.ok.inj h
        exact ⟨hg, hgle, hgfin, ho, hole, hofin⟩
      · obtain rfl := PResult.ok.inj h
        rename_i hne
        refine ⟨?_, le_refl _, rfl, ho, ?_, ?_⟩
        · have := chained_snoc st.current_group hg rfl hgle
          dsimp only []
          rw [← hgfin]
          exact this
        · dsimp only []
          omega
        · dsimp only []
          rw [hofin]
          simp
    | Object data =>
      dsimp only [] at h
      split at h
      · obtain rfl := PResult.ok.inj h
        exact ⟨hg, hgle, hgfin, ho, hole, hofin⟩
      · obtain rfl := PResult.ok.inj h
        by_cases hne : st.current_group.start ≠ st.current_group.finish
        · refine ⟨?_, ?_, ?_, ?_, le_refl _, ?_⟩
          · dsimp only []
            rw [if_pos hne]
            dsimp only []
            rw [← hgfin]
            exact chained_snoc st.current_group hg rfl hgle
          · dsimp only []
            rw [if_pos hne]
          · dsimp only []
            rw [if_pos hne]
          · dsimp only []
            rw [if_pos hne]
            dsimp only []
            rw [show (st.groups ++ [st.current_group]).length
                = st.current_object.finish + 1 from by
              simp only [List.length_append, List.length_singleton]
              omega]
            exact chained_snoc
              { st.current_object with finish := st.current_object.finish + 1 } ho rfl
              (by show st.current_object.start ≤ st.current_object.finish + 1
                  omega)
          · dsimp only []
        · refine ⟨?_, ?_, ?_, ?_, le_refl _, ?_⟩
          · dsimp only []
            rw [if_neg hne]
            exact hg
          · dsimp only []
            rw [if_neg hne]
            exact hgle
          · dsimp only []
            rw [if_neg hne]
            exact hgfin
          · dsimp only []
            rw [if_neg hne]
            dsimp only []
            rw [show st.groups.length = st.current_object.finish from hofin.symm]
            exact chained_snoc
              { st.current_object with finish := st.current_object.finish } ho rfl
              (by show st.current_object.start ≤ st.current_object.finish
                  omega)
          · dsimp only []
    | MaterialLib data =>
      dsimp only [] at h
      split at h
      · obtain rfl := PResult.ok.inj h
        exact ⟨hg, hgle, hgfin, ho, hole, hofin⟩
      · exact PResult.noConfusion h
    | MaterialUse data =>
      dsimp only [] at h
      split at h
      · obtain rfl := PResult.ok.inj h
        exact ⟨hg, hgle, hgfin, ho, hole, hofin⟩
      · exact PResult.noConfusion h

/-- The parse loop preserves the range bookkeeping. -/
lemma parseLoop_ranges :
    ∀ (lines : List String) (st st' : ParseState),
      parseLoop lines st = .ok st' → ParseRangesInv st → ParseRangesInv st'
  | [], st, st', h, hinv => by
    obtain rfl := PResult.ok.inj h
    exact hinv
  | l :: rest, st, st', h, hinv => by
    rw [parseLoop] at h
    cases hps : parseStep st l with
    | err e => rw [hps] at h; exact PResult.noConfusion h
    | panic m => rw [hps] at h; exact PResult.noConfusion h
    | ok st1 =>
      rw [hps] at h
      exact parseLoop_ranges rest st1 st' h (parseStep_ranges hps hinv)

/-- The sealed store of a state with valid range bookkeeping has
groups chaining over its faces and objects chaining over its groups. -/
lemma sealState_chains {st : ParseState} (hinv : ParseRangesInv st) :
    ChainedCover 0 (sealState st).groups (sealState st).faces.length ∧
    ChainedCover 0 (sealState st).objects (sealState st).groups.length := by
  obtain ⟨hg, hgle, hgfin, ho, hole, hofin⟩ := hinv
  unfold sealState
  by_cases hne : st.current_group.start ≠ st.current_group.finish
  · simp only [if_pos hne]
    have hgroups := chained_snoc st.current_group hg rfl hgle
    by_cases hone : st.current_object.start ≠ st.current_object.finish + 1
    · simp only [if_pos hone]
      constructor
      · rw [← hgfin]
        exact hgroups
      · rw [show (st.groups ++ [st.current_group]).length = st.current_object.finish + 1
            from by simp only [List.length_append, List.length_singleton]; omega]
        exact chained_snoc { st.current_object with finish := st.current_object.finish + 1 }
          ho rfl (by show st.current_object.start ≤ st.current_object.finish + 1; omega)
    · simp only [if_neg hone]
      push_neg at hone
      constructor
      · rw [← hgfin]
        exact hgroups
      · simp only [List.length_append, List.length_singleton]
        rw [show st.groups.length + 1 = st.current_object.finish + 1 from by omega]
        rw [← hone]
        exact ho
  · simp only [if_neg hne]
    push_neg at hne
    by_cases hone : st.current_object.start ≠ st.current_object.finish
    · simp only [if_pos hone]
      constructor
      · rw [show st.faces.length = st.current_group.start from by omega]
        exact hg
      · rw [← hofin]
        exact chained_snoc _ ho rfl hole
    · simp only [if_neg hone]
      push_neg at hone
      constructor
      · rw [show st.faces.length = st.current_group.start from by omega]
        exact hg
      · rw [show st.groups.length = st.current_object.start from by omega]
        exact ho

/-- A successful parse produces groups that chain over the faces and
objects that chain over the groups. -/
lemma parse_chains {lines : List String} {o : ObjObject}
    (h : ObjObject.parse lines = .ok o) :
    ChainedCover 0 o.groups o.faces.length ∧
    ChainedCover 0 o.objects o.groups.length := by
  simp only [ObjObject.parse] at h
  cases hl : parseLoop lines
      { verticies := [], vertex_colors := [], vertex_normals := [], texture_coords := []
        faces := [], groups := [], objects := []
        current_group := GroupingData.default, current_object := GroupingData.default } with
  | err e => rw [hl] at h; exact PResult.noConfusion h
  | panic m => rw [hl] at h; exact PResult.noConfusion h
  | ok st =>
    rw [hl] at h
    obtain rfl := PResult.ok.inj h
    exact sealState_chains (parseLoop_ranges lines _ st hl
      ⟨rfl, le_refl 0, rfl, rfl, le_refl 0, rfl⟩)

/-- C5: on every successfully parsed store on which `verticies_indexed`
returns, the index buffer length is three times the face count, every
index is strictly below the vertex buffer length, the vertex buffer
length equals the number of distinct records among the emitted corner
stream (recovered by replaying the index buffer), and the vertex buffer
lists those records in first-occurrence order of the stream. -/
theorem C5_verticies_indexed_postconditions (lines : List String) (o : ObjObject)
    (idx : List ℕ) (vb : List VertexTextureData) (mats : List TextureIdent)
    (hp : ObjObject.parse lines = .ok o)
    (hidx : o.verticies_indexed = some (idx, vb, mats)) :
    idx.length = 3 * o.faces.length ∧
    (∀ i ∈ idx, i < vb.length) ∧
    vb.length = (idx.map (fun i => vb.getD i defaultVTD)).toFinset.card ∧
    vb = firstDedup (idx.map (fun i => vb.getD i defaultVTD)) := by
  obtain ⟨E, hE, hlen, hvb, hbnd, hreplay⟩ := verticies_indexed_spec hidx
  have hchains := parse_chains hp
  have hEmap : idx.map (fun i => vb.getD i defaultVTD) = E := by
    apply List.ext_getElem
    · simpa using hlen
    · intro k h1 h2
      have hk : k < idx.length := by simpa using h1
      simp only [List.getElem_map]
      rw [show idx[k] = idx.getD k 0 from (List.getD_eq_getElem idx 0 hk).symm]
      rw [hreplay k (hlen ▸ hk)]
      exact List.getD_eq_getElem E _ h2
  refine ⟨?_, hbnd, ?_, ?_⟩
  · rw [hlen, emitCorners_len hE hchains.1 hchains.2]
  · rw [hEmap, hvb]
    have h1 : (firstDedup E).toFinset = E.toFinset := by
      ext x
      simp [List.mem_toFinset, firstDedup_mem]
    rw [← h1, List.toFinset_card_of_nodup (firstDedup_nodup E)]
  · rw [hEmap]
    exact hvb

/-- C5 witness: the postconditions at the parse of
`["v 0 0 0", "f 1 1 1"]`, whose single face emits three identical
corner records deduplicated into a one-entry vertex buffer. -/
theorem C5_verticies_indexed_postconditions_witness :
    ([0, 0, 0] : List ℕ).length =
        3 * ({ verticies := [((0:ℚ), (0:ℚ), (0:ℚ))], vertex_colors := []
               vertex_normals := [], texture_coords := []
               faces := [⟨(1, 1, 1), none, none⟩]
               groups := [⟨"", none, 0, 1⟩]
               objects := [⟨"", none, 0, 1⟩] } : ObjObject).faces.length ∧
      (∀ i ∈ ([0, 0, 0] : List ℕ),
        i < ([⟨0, ⟨((0:ℚ), (0:ℚ), (0:ℚ)), none, none, none⟩⟩] :
              List VertexTextureData).length) ∧
      ([⟨0, ⟨((0:ℚ), (0:ℚ), (0:ℚ)), none, none, none⟩⟩] :
          List VertexTextureData).length =
        (([0, 0, 0] : List ℕ).map (fun i =>
          ([⟨0, ⟨((0:ℚ), (0:ℚ), (0:ℚ)), none, none, none⟩⟩] :
            List VertexTextureData).getD i defaultVTD)).toFinset.card ∧
      ([⟨0, ⟨((0:ℚ), (0:ℚ), (0:ℚ)), none, none, none⟩⟩] :
          List VertexTextureData) =
        firstDedup (([0, 0, 0] : List ℕ).map (fun i =>
          ([⟨0, ⟨((0:ℚ), (0:ℚ), (0:ℚ)), none, none, none⟩⟩] :
            List VertexTextureData).getD i defaultVTD)) :=
  C5_verticies_indexed_postconditions ["v 0 0 0", "f 1 1 1"]
    { verticies := [((0:ℚ), (0:ℚ), (0:ℚ))], vertex_colors := []
      vertex_normals := [], texture_coords := []
      faces := [⟨(1, 1, 1), none, none⟩]
      groups := [⟨"", none, 0, 1⟩], objects := [⟨"", none, 0, 1⟩] }
    [0, 0, 0] [⟨0, ⟨((0:ℚ), (0:ℚ), (0:ℚ)), none, none, none⟩⟩] [⟨none, none⟩]
    (by decide) (by decide)

/-- C2 witness: the amended replay equivalence at the parse of
`["v 0 0 0", "mtllib m", "f 1 1 1"]` — the material indices differ
(0 flat, 1 indexed) but positions and resolved material identities
agree corner by corner. -/
theorem C2_indexed_replay_matches_flat_witness :
    ([0, 0, 0] : List ℕ).length =
        ([⟨0, ⟨((0:ℚ), (0:ℚ), (0:ℚ)), none, none, none⟩⟩,
          ⟨0, ⟨((0:ℚ), (0:ℚ), (0:ℚ)), none, none, none⟩⟩,
          ⟨0, ⟨((0:ℚ), (0:ℚ), (0:ℚ)), none, none, none⟩⟩] :
          List VertexTextureData).length ∧
      ([0, 0, 0] : List ℕ).map (fun i =>
          (([⟨1, ⟨((0:ℚ), (0:ℚ), (0:ℚ)), none, none, none⟩⟩] :
            List VertexTextureData).getD i defaultVTD).vertex) =
        ([⟨0, ⟨((0:ℚ), (0:ℚ), (0:ℚ)), none, none, none⟩⟩,
          ⟨0, ⟨((0:ℚ), (0:ℚ), (0:ℚ)), none, none, none⟩⟩,
          ⟨0, ⟨((0:ℚ), (0:ℚ), (0:ℚ)), none, none, none⟩⟩] :
          List VertexTextureData).map VertexTextureData.vertex ∧
      ([0, 0, 0] : List ℕ).map (fun i =>
          ([⟨none, none⟩, ⟨some "m", none⟩] : List TextureIdent).getD
            (([⟨1, ⟨((0:ℚ), (0:ℚ), (0:ℚ)), none, none, none⟩⟩] :
              List VertexTextureData).getD i defaultVTD).material_index defaultTI) =
        ([⟨0, ⟨((0:ℚ), (0:ℚ), (0:ℚ)), none, none, none⟩⟩,
          ⟨0, ⟨((0:ℚ), (0:ℚ), (0:ℚ)), none, none, none⟩⟩,
          ⟨0, ⟨((0:ℚ), (0:ℚ), (0:ℚ)), none, none, none⟩⟩] :
          List VertexTextureData).map (fun r =>
            ([⟨some "m", none⟩] : List TextureIdent).getD r.material_index defaultTI) :=
  C2_indexed_replay_matches_flat ["v 0 0 0", "mtllib m", "f 1 1 1"]
    { verticies := [((0:ℚ), (0:ℚ), (0:ℚ))], vertex_colors := []
      vertex_normals := [], texture_coords := []
      faces := [⟨(1, 1, 1), none, none⟩]
      groups := [⟨"", none, 0, 1⟩], objects := [⟨"", some "m", 0, 1⟩] }
    [⟨0, ⟨((0:ℚ), (0:ℚ), (0:ℚ)), none, none, none⟩⟩,
     ⟨0, ⟨((0:ℚ), (0:ℚ), (0:ℚ)), none, none, none⟩⟩,
     ⟨0, ⟨((0:ℚ), (0:ℚ), (0:ℚ)), none, none, none⟩⟩]
    [⟨some "m", none⟩]
    [0, 0, 0] [⟨1, ⟨((0:ℚ), (0:ℚ), (0:ℚ)), none, none, none⟩⟩]
    [⟨none, none⟩, ⟨some "m", none⟩]
    (by decide) (by decide) (by decide)

end Polypath
